import Mathlib

/-!
Shallow embedding of the goboard repository: the Go rules engine
(src/GoGame.ts) and the SGF record parser (the unnamed parser source file).
Definitions are translated from the TypeScript source.  Semantic notions
(chains as connected components, liberties) are defined independently of the
code and the code's recursive graph searches are proved correct against
them.  Recursive methods whose termination rests on a growing visited set
(`getConnectedComponent`, `hasLiberties`) are embedded with an explicit fuel
parameter, set at the call sites to a bound proved sufficient; the parser,
whose loops can genuinely fail to advance, is embedded with fuel as well and
returns `none` when the fuel runs out, so that divergence of the source
program is expressible as `none` at every fuel.
-/

/-- A board coordinate `[x, y]` (the TS `Vertex` type).  Off-board
sentinels such as `(-1, -1)` are representable, so components are `Int`. -/
abbrev Vertex : Type := Int × Int

/-- The TS `KoInfo` interface: a remembered (player sign, coordinate) pair. -/
structure KoInfo where
  sign : Int
  vertex : Vertex
deriving DecidableEq

/-- The `GoGame` class state: the board `signMap`, the cached `height` and
`width` fields, the two capture counters `_captures` (for signs `+1`, `-1`)
and the ko state `_koInfo`. -/
structure GoGame where
  signMap : List (List Int)
  height : Nat
  width : Nat
  captures : Nat × Nat
  koInfo : KoInfo
deriving DecidableEq

/-- JS array indexing with a possibly negative index: `l[i]` is
`undefined` (here `none`) when `i` is negative or past the end. -/
def liGet {α : Type} (l : List α) (i : Int) : Option α :=
  if 0 ≤ i then l[i.toNat]? else none

/-- JS array element assignment at an in-range index; out-of-range writes
do not occur at the call sites (they are guarded by `has`). -/
def liSet {α : Type} (l : List α) (i : Int) (a : α) : List α :=
  if 0 ≤ i then l.set i.toNat a else l

namespace GoGame

/-- `get(vertex)`: `signMap[y] != null ? signMap[y][x] : null`.  A missing
row gives `null`, a missing column gives `undefined`; both are `none`. -/
def get (g : GoGame) (v : Vertex) : Option Int :=
  match liGet g.signMap v.2 with
  | some row => liGet row v.1
  | none => none

/-- `has(vertex)`: `0 <= x && x < width && 0 <= y && y < height`. -/
def has (g : GoGame) (v : Vertex) : Prop :=
  0 ≤ v.1 ∧ v.1 < (g.width : Int) ∧ 0 ≤ v.2 ∧ v.2 < (g.height : Int)

instance (g : GoGame) (v : Vertex) : Decidable (g.has v) := by
  unfold has; infer_instance

/-- `set(vertex, sign)`: writes `signMap[y][x] = sign` when the vertex is
on the board, otherwise leaves the board alone. -/
def set (g : GoGame) (v : Vertex) (s : Int) : GoGame :=
  if g.has v then
    ⟨liSet g.signMap v.2 ((liGet g.signMap v.2).getD [] |> fun row => liSet row v.1 s),
     g.height, g.width, g.captures, g.koInfo⟩
  else g

/-- `getCaptures(sign)`: `_players.indexOf(sign)` finds `1` at index 0 and
`-1` at index 1; any other sign reads nothing and yields 0. -/
def getCaptures (g : GoGame) (s : Int) : Nat :=
  if s = 1 then g.captures.1 else if s = -1 then g.captures.2 else 0

/-- `setCaptures(sign, mutator)` in its function-mutator form (the value
form used by `clone` is the constant function). -/
def setCapturesWith (g : GoGame) (s : Int) (f : Nat → Nat) : GoGame :=
  if s = 1 then ⟨g.signMap, g.height, g.width, (f g.captures.1, g.captures.2), g.koInfo⟩
  else if s = -1 then ⟨g.signMap, g.height, g.width, (g.captures.1, f g.captures.2), g.koInfo⟩
  else g

/-- The width the `GoGame` constructor computes from a sign map. -/
def widthOf (m : List (List Int)) : Nat :=
  if m.length = 0 then 0 else (m.headD []).length

/-- `clone()`: a new `GoGame` built from a row-by-row copy of `signMap`
(the constructor recomputes `height`/`width`), with both capture counters
and the ko state copied over. -/
def clone (g : GoGame) : GoGame :=
  ⟨g.signMap, g.signMap.length, widthOf g.signMap, g.captures, g.koInfo⟩

/-- `GoGame.fromDimensions(width, height)`: an all-empty rectangular board. -/
def fromDimensions (w h : Nat) : GoGame :=
  ⟨List.replicate h (List.replicate w 0), h, widthOf (List.replicate h (List.replicate w 0)),
   (0, 0), ⟨0, (-1, -1)⟩⟩

end GoGame

/-- The raw 4-neighbour candidate list `[[x-1,y],[x+1,y],[x,y-1],[x,y+1]]`. -/
def adjList (v : Vertex) : List Vertex :=
  [(v.1 - 1, v.2), (v.1 + 1, v.2), (v.1, v.2 - 1), (v.1, v.2 + 1)]

namespace GoGame

/-- `getNeighbors(vertex)`: the 4-neighbour candidates filtered to the
board; empty when `vertex` itself is off the board. -/
def getNeighbors (g : GoGame) (v : Vertex) : List Vertex :=
  if g.has v then (adjList v).filter (fun w => decide (g.has w)) else []

/-- The loop of `getConnectedComponent`: for each candidate `v` of `l`
satisfying the predicate and not yet in `result`, push `v` and recurse
depth-first into its neighbours, then continue with the rest of `l` and
the grown result, exactly as the source's mutated `result` array.  `fuel`
bounds the depth of the recursion tree (the source needs none: its
`result` array can only grow); recursion is structural on `fuel`, each
recursive call spends one unit, and the call sites supply fuel proved
sufficient below, so the `fuel = 0` cutoff is never reached. -/
def gccLoop (g : GoGame) (pred : Vertex → Bool) : Nat → List Vertex → List Vertex → List Vertex
  | 0, _, result => result
  | _ + 1, [], result => result
  | fuel + 1, v :: vs, result =>
    if pred v = true ∧ v ∉ result then
      g.gccLoop pred fuel vs (g.gccLoop pred fuel (g.getNeighbors v) (result ++ [v]))
    else g.gccLoop pred fuel vs result

/-- `getConnectedComponent(vertex, predicate)` with the default `null`
result: `[]` off the board, otherwise the depth-first search seeded with
`result = [vertex]` over the neighbours of `vertex`. -/
def getConnectedComponent (g : GoGame) (pred : Vertex → Bool) (v : Vertex) : List Vertex :=
  if g.has v then g.gccLoop pred (5 * (g.width * g.height + 1)) (g.getNeighbors v) [v] else []

/-- `getChain(vertex)`: the connected component of vertices whose cell
state equals that of `vertex`. -/
def getChain (g : GoGame) (v : Vertex) : List Vertex :=
  g.getConnectedComponent (fun w => decide (g.get w = g.get v)) v

end GoGame

/-- The two activation shapes of the recursive `hasLiberties(vertex,
visited)`: processing one vertex, or scanning the list built by
`.filter(...)` with the short-circuiting `.some(...)`. -/
inductive LibTask
  | vert (v : Vertex)
  | scan (l : List Vertex)

namespace GoGame

/-- `hasLiberties(vertex, visited)` as a fuel-indexed step function.  The
`.vert` case is the body of the source method: off-board or empty
vertices report `false`; a visited vertex reports `false`; a vertex with
an empty neighbour reports `true`; otherwise the vertex is marked visited
and the same-signed neighbours are scanned.  The `.scan` case is the
short-circuiting `.some(...)` over those neighbours, threading the shared
visited set from one recursive call into the next.  The source needs no
fuel (its visited set can only grow); here recursion is structural on
`fuel` and the call site supplies fuel proved sufficient below. -/
def hasLibGo (g : GoGame) : Nat → LibTask → List Vertex → Bool × List Vertex
  | 0, _, visited => (false, visited)
  | fuel + 1, .vert v, visited =>
    if ¬ g.has v ∨ g.get v = some 0 then (false, visited)
    else if v ∈ visited then (false, visited)
    else if (g.getNeighbors v).any (fun n => decide (g.get n = some 0)) then (true, visited)
    else
      g.hasLibGo fuel
        (.scan ((g.getNeighbors v).filter (fun n => decide (g.get n = g.get v))))
        (visited ++ [v])
  | _ + 1, .scan [], visited => (false, visited)
  | fuel + 1, .scan (n :: ns), visited =>
    match g.hasLibGo fuel (.vert n) visited with
    | (true, vis') => (true, vis')
    | (false, vis') => g.hasLibGo fuel (.scan ns) vis'

/-- `hasLiberties(vertex)` with the default fresh visited set. -/
def hasLiberties (g : GoGame) (v : Vertex) : Bool :=
  (g.hasLibGo (6 * (g.width * g.height + 1)) (.vert v) []).1

/-- `getLiberties(vertex)`: `[]` for an off-board or empty vertex;
otherwise, walking the chain of `vertex`, collect each member's empty
neighbours that are not yet in the `added` set, recording all of them in
`added` afterwards (the source's string-keyed marker map is a list here). -/
def getLiberties (g : GoGame) (v : Vertex) : List Vertex :=
  if ¬ g.has v ∨ g.get v = some 0 then []
  else
    ((g.getChain v).foldl (fun acc c =>
        let free := (g.getNeighbors c).filter (fun n => decide (g.get n = some 0))
        (acc.1 ++ free.filter (fun n => n ∉ acc.2), acc.2 ++ free))
      (([] : List Vertex), ([] : List Vertex))).1

end GoGame

/-- The options bag of `makeMove`. -/
structure MoveOptions where
  preventSuicide : Bool
  preventOverwrite : Bool
  preventKo : Bool
deriving DecidableEq

/-- All prevention flags off (the source's defaults). -/
def MoveOptions.none' : MoveOptions := ⟨false, false, false⟩

/-- The three `throw new Error(...)` outcomes of `makeMove`. -/
inductive MoveError
  | overwrite
  | ko
  | suicide
deriving DecidableEq

/-- `sign > 0 ? 1 : -1`. -/
def normalizeSign (s : Int) : Int := if 0 < s then 1 else -1

/-- `normalizedSign === 1 ? -1 : 1`. -/
def oppositeOf (s : Int) : Int := if s = 1 then -1 else 1

/-- JS truthiness of a cell read: `!!null`, `!!undefined` and `!!0` are
`false`; any other number is truthy. -/
def jsTruthy : Option Int → Bool
  | none => false
  | some n => decide (n ≠ 0)

namespace GoGame

/-- The board `makeMove` holds right after `move.set(vertex, normalizedSign)`:
a clone of the receiver with the stone placed. -/
def afterPlace (g : GoGame) (s' : Int) (v : Vertex) : GoGame :=
  g.clone.set v s'

/-- `neighbors.filter(n => move.get(n) === oppositeSign && !move.hasLiberties(n))`. -/
def deadNbrs (m : GoGame) (opp : Int) (v : Vertex) : List Vertex :=
  (m.getNeighbors v).filter
    (fun n => decide (m.get n = some opp) && ! m.hasLiberties n)

/-- Removal of one chain: `move.set(c, 0).setCaptures(creditSign, x => x + 1)`
for each `c` of the (precomputed) chain list. -/
def removeChainFold (start : GoGame) (creditSign : Int) (chain : List Vertex) : GoGame :=
  chain.foldl (fun b c => (b.set c 0).setCapturesWith creditSign (fun x => x + 1)) start

/-- The capture loop of `makeMove`: for each dead neighbour in order, skip
it if an earlier removal already emptied it, otherwise remove its whole
chain (computed on the current, partly emptied board), crediting the
mover and appending the removed stones to `deadStones`. -/
def captureFold (start : GoGame) (s' : Int) (dead : List Vertex) : GoGame × List Vertex :=
  dead.foldl (fun acc n =>
      if acc.1.get n = some 0 then acc
      else
        let chain := acc.1.getChain n
        (acc.1.removeChainFold s' chain, acc.2 ++ chain))
    (start, [])

/-- The board and the `deadStones` list after the capture-resolution step. -/
def afterCapture (g : GoGame) (s' : Int) (v : Vertex) : GoGame × List Vertex :=
  let m := g.afterPlace s' v
  m.captureFold s' (m.deadNbrs (oppositeOf s') v)

/-- The ko-detection step: the new `_koInfo` is `(oppositeSign, deadStones[0])`
iff exactly one stone died, the placed stone has exactly one liberty, that
liberty is the dead stone, and no neighbour of the placed vertex holds the
mover's colour; otherwise the cleared state. -/
def detectKo (deadStones liberties neighbors : List Vertex) (mid : GoGame)
    (s' opp : Int) : KoInfo :=
  match deadStones, liberties with
  | [d], [l] =>
    if l = d ∧ (∀ n ∈ neighbors, ¬ mid.get n = some s') then ⟨opp, d⟩
    else ⟨0, (-1, -1)⟩
  | _, _ => ⟨0, (-1, -1)⟩

/-- Replace the `_koInfo` field. -/
def setKoInfo (g : GoGame) (k : KoInfo) : GoGame :=
  ⟨g.signMap, g.height, g.width, g.captures, k⟩

/-- `makeMove(sign, vertex, options)`, step for step from the source:
pass on a neutral sign or an off-board vertex; the overwrite and ko
checks; stone placement; capture resolution; ko detection; suicide
resolution.  A JS `throw` is an `Except.error`. -/
def makeMove (g : GoGame) (sign : Int) (vertex : Vertex) (opts : MoveOptions) :
    Except MoveError GoGame :=
  if sign = 0 ∨ ¬ g.has vertex then .ok g.clone
  else if opts.preventOverwrite = true ∧ jsTruthy (g.get vertex) = true then .error .overwrite
  else
    let s' := normalizeSign sign
    if opts.preventKo = true ∧ g.koInfo.sign = s' ∧ g.koInfo.vertex = vertex then .error .ko
    else
      let opp := oppositeOf s'
      let m := g.afterPlace s' vertex
      let neighbors := m.getNeighbors vertex
      let mid := (g.afterCapture s' vertex).1
      let deadStones := (g.afterCapture s' vertex).2
      let liberties := mid.getLiberties vertex
      let mid₂ : GoGame := mid.setKoInfo (detectKo deadStones liberties neighbors mid s' opp)
      if deadStones.length = 0 ∧ liberties.length = 0 then
        if opts.preventSuicide = true then .error .suicide
        else .ok (mid₂.removeChainFold opp (mid₂.getChain vertex))
      else .ok mid₂

end GoGame

/-! ## Semantic layer

Chains and liberties as mathematical notions, defined independently of the
code's recursive searches; the searches are proved correct against these
below. -/

/-- A board is well-formed when the cached `height`/`width` fields agree
with the sign map, every row has the same length (the constructor throws
otherwise), and every cell holds a `Sign` (`0`, `1` or `-1`, which the TS
type system guarantees). -/
def WellFormed (g : GoGame) : Prop :=
  g.height = g.signMap.length ∧
  (∀ row ∈ g.signMap, row.length = g.width) ∧
  (g.signMap = [] → g.width = 0) ∧
  (∀ row ∈ g.signMap, ∀ c ∈ row, c = 0 ∨ c = 1 ∨ c = -1)

instance (g : GoGame) : Decidable (WellFormed g) := by
  unfold WellFormed; infer_instance

/-- 4-directional adjacency. -/
def Adjacent (a b : Vertex) : Prop := b ∈ adjList a

instance (a b : Vertex) : Decidable (Adjacent a b) := by
  unfold Adjacent; infer_instance

/-- `w` lies in the chain of `v`: reachable from `v` through on-board
vertices whose cell state equals that of `v`. -/
def SameChain (g : GoGame) (v w : Vertex) : Prop :=
  Relation.ReflTransGen (fun p q => Adjacent p q ∧ g.has q ∧ g.get q = g.get v) v w

/-- `u` is a liberty of the chain of `v`: an on-board empty vertex
adjacent to some member of that chain. -/
def IsLiberty (g : GoGame) (v u : Vertex) : Prop :=
  ∃ w, SameChain g v w ∧ Adjacent w u ∧ g.has u ∧ g.get u = some 0

/-- The chain of `v` has at least one liberty (and `v` is an on-board
occupied vertex). -/
def HasLibSem (g : GoGame) (v : Vertex) : Prop :=
  g.has v ∧ g.get v ≠ some 0 ∧ ∃ u, IsLiberty g v u

/-- The state of a vertex `hasLiberties` adds to its visited set: on the
board, occupied, and with no empty neighbour (the empty-neighbour check
precedes the marking). -/
def Marked (g : GoGame) (x : Vertex) : Prop :=
  g.has x ∧ g.get x ≠ some 0 ∧ ∀ n ∈ g.getNeighbors x, g.get n ≠ some 0

/-- Reachability along the edges `getConnectedComponent` explores: from
`p` to any neighbour `q` with `pred q`. -/
def ReachB (g : GoGame) (pred : Vertex → Bool) (v w : Vertex) : Prop :=
  Relation.ReflTransGen (fun p q => q ∈ g.getNeighbors p ∧ pred q = true) v w

/-- The on-board vertices as a finite set. -/
def boardFinset (g : GoGame) : Finset Vertex :=
  Finset.Icc (0 : Int) ((g.width : Int) - 1) ×ˢ Finset.Icc (0 : Int) ((g.height : Int) - 1)

/-- How many on-board vertices are not yet in `l` (the measure that shrinks
as the searches grow their result/visited lists). -/
def missingCount (g : GoGame) (l : List Vertex) : Nat :=
  ((boardFinset g).filter (fun w => w ∉ l)).card

/-- The invariant of the capture loop: relative to the placed board `m`,
the partly emptied board `b` and the stones `ds` removed so far.  The
removed stones read empty, everything else is untouched, `ds` is a
duplicate-free, chain-closed set of opposite-coloured stones of `m`, each
traceable to a dead neighbour in `dl`; the dimensions and ko record are
untouched, the board stays well-formed, and the mover's tally has grown
by exactly `ds.length`. -/
def CapInv (m : GoGame) (s' opp : Int) (dl : List Vertex) (b : GoGame)
    (ds : List Vertex) : Prop :=
  (∀ w ∈ ds, b.get w = some 0) ∧
  (∀ w, w ∉ ds → b.get w = m.get w) ∧
  ds.Nodup ∧
  (∀ w ∈ ds, m.get w = some opp) ∧
  (∀ w ∈ ds, ∀ u, SameChain m w u → u ∈ ds) ∧
  (∀ w ∈ ds, ∃ n ∈ dl, SameChain m n w) ∧
  b.width = m.width ∧ b.height = m.height ∧ b.koInfo = m.koInfo ∧
  WellFormed b ∧
  b.getCaptures s' = m.getCaptures s' + ds.length ∧
  (∀ t, t ≠ s' → b.getCaptures t = m.getCaptures t)

/-- `w` belongs to a chain that `makeMove` captures when the placed board
is `m`: some on-board neighbour `n` of the placed vertex holds the
opposite colour, the chain of `n` has no liberties, and `w` lies in it. -/
def InDeadChain (m : GoGame) (opp : Int) (vertex w : Vertex) : Prop :=
  ∃ n, n ∈ m.getNeighbors vertex ∧ m.get n = some opp ∧ ¬ HasLibSem m n ∧ SameChain m n w

/-- The opposite-coloured stones of `before` that are empty in `after`:
the stones a move step actually removed from the opponent. -/
def capturedFinset (before after : GoGame) (opp : Int) : Finset Vertex :=
  (boardFinset before).filter (fun w => before.get w = some opp ∧ after.get w = some 0)

/-! ## Coordinate codec (`stringifyVertex` / `parseVertex`)

String manipulation is carried out on `List Char` via `String.mk` so that
proofs can reason by list induction. -/

/-- `const alpha = 'ABCDEFGHJKLMNOPQRSTUVWXYZ'` (no letter I). -/
def alphaList : List Char :=
  ['A', 'B', 'C', 'D', 'E', 'F', 'G', 'H', 'J', 'K', 'L', 'M',
   'N', 'O', 'P', 'Q', 'R', 'S', 'T', 'U', 'V', 'W', 'X', 'Y', 'Z']

/-- The whitespace class used by the source (JS `\s` and `trim`; the
ASCII members suffice for every string the repository manipulates). -/
def isWs (c : Char) : Bool :=
  c = ' ' || c = '\t' || c = '\n' || c = '\r' || c = '\x0b' || c = '\x0c'

/-- JS `String.prototype.trim`. -/
def csTrim (l : List Char) : List Char :=
  ((l.dropWhile isWs).reverse.dropWhile isWs).reverse

def isDigitCh (c : Char) : Bool := decide ('0' ≤ c ∧ c ≤ '9')

/-- The numeric value of a most-significant-first digit string. -/
def digitsToNat (l : List Char) : Nat :=
  l.foldl (fun acc c => 10 * acc + (c.toNat - 48)) 0

/-- Decimal digits of `n` prepended to `acc`, most significant first.
The first argument is fuel making the division loop structural; call
sites pass `n + 1`, which is proved sufficient. -/
def natDecAux : Nat → Nat → List Char → List Char
  | 0, _, acc => acc
  | fuel + 1, n, acc =>
    let d := Char.ofNat (48 + n % 10)
    if n < 10 then d :: acc else natDecAux fuel (n / 10) (d :: acc)

/-- JS `String(n)` for a natural number. -/
def natToDec (n : Nat) : List Char := natDecAux (n + 1) n []

/-- JS `String(i)` for an integer (the board code only ever stringifies
positive row numbers, but the definition is total). -/
def intToDec (i : Int) : List Char :=
  if i < 0 then '-' :: natToDec (-i).toNat else natToDec i.toNat

/-- JS numeric coercion `+s` of a string, on the integer fragment: leading
and trailing whitespace is ignored, the empty string is `0`, an optional
sign followed by decimal digits is their value, and anything else is NaN
(`none`).  (Real JS also accepts fractional and hexadecimal forms; no
string the repository feeds to `+` is of those shapes.) -/
def jsStringToNum (l : List Char) : Option Int :=
  let t := csTrim l
  if t = [] then some 0
  else
    let p : Int × List Char :=
      match t with
      | '-' :: r => (-1, r)
      | '+' :: r => (1, r)
      | _ => (1, t)
    if p.2 ≠ [] ∧ p.2.all isDigitCh then some (p.1 * (digitsToNat p.2 : Int)) else none

namespace GoGame

/-- `stringifyVertex(vertex)`: the empty string for an off-board vertex,
otherwise `alpha[x] + (this.height - y)`.  When `x` is within the
25-letter alphabet, `alpha[x]` is a one-character string, so `+` is
string concatenation with the decimal spelling of the number.  When `x`
indexes past the alphabet, `alpha[x]` is `undefined`, and since the
right operand is a number, `+` is numeric addition:
`ToNumber(undefined)` is `NaN`, so the call returns the *number* `NaN` —
the one non-string value the function can produce, modelled as `none`. -/
def stringifyVertex (g : GoGame) (v : Vertex) : Option String :=
  if ¬ g.has v then some ""
  else
    match liGet alphaList v.1 with
    | some c => some (String.mk (c :: intToDec ((g.height : Int) - v.2)))
    | none => none

/-- `parseVertex(coord)`: the off-board sentinel for a short string,
otherwise `x = alpha.indexOf(coord[0].toUpperCase())` (which is `-1` when
absent) and `y = height - +coord.slice(1)`; when the numeric coercion is
NaN, `y` is NaN and the final `has` test fails, so the sentinel is
returned just as for any other off-board result. -/
def parseVertex (g : GoGame) (coord : String) : Vertex :=
  if coord.data.length < 2 then (-1, -1)
  else
    match coord.data with
    | [] => (-1, -1)
    | c0 :: rest =>
      let x : Int :=
        match alphaList.findIdx? (fun c => c == c0.toUpper) with
        | some i => (i : Int)
        | none => -1
      match jsStringToNum rest with
      | none => (-1, -1)
      | some m =>
        let v : Vertex := (x, (g.height : Int) - m)
        if g.has v then v else (-1, -1)

/-- The round trip `stringifyVertex(parseVertex(stringifyVertex(v)))` as
the source evaluates it.  When the inner notation is the number `NaN`,
`parseVertex` reads `coord.length` of a number — `undefined`, so the
short-string guard does not fire — and then calls `toUpperCase()` on
`coord[0]`, which is also `undefined`: the composition throws a
`TypeError` (`none`).  On a string it is the notation of the decoded
coordinate. -/
def notationRoundTrip (g : GoGame) (v : Vertex) : Option (Option String) :=
  match g.stringifyVertex v with
  | none => none
  | some s => some (g.stringifyVertex (g.parseVertex s))

end GoGame

/-! ## The SGF record parser (the unnamed parser source file)

The parser walks the character list with an explicit scan position.  Loops
that provably advance the position at every iteration (`skipWhitespace`,
the key scan, `parseValue`'s character loop, `skipVariation`) carry their
own structural counter `s.length - pos`, which is always sufficient.  The
three driver loops (`parseGameTree`'s node loop, `parseNode`'s property
loop and `parseProperty`'s value loop) take a caller-supplied fuel and
answer `none` when it runs out — the property loop genuinely fails to
advance on some inputs, so its divergence is `none` at every fuel. -/

/-- Parse errors: the `throw`s of `parseGameTree` (`'SGF must start with ('`),
`parseValue` (`'Expected ['`) and `sgfToVertex`. -/
inductive SGFError
  | badStart
  | expectedBracket
  | invalidCoord
  | outOfBounds
deriving DecidableEq

/-- A parser outcome: `none` when the fuel ran out (the source loops
forever), otherwise the thrown error or the value. -/
abbrev PRes (α : Type) : Type := Option (Except SGFError α)

/-- A node: the JS object mapping property keys to value lists. -/
abbrev SGFNode : Type := List (String × List String)

/-- JS `node[key] = values`: overwrite an existing key or append. -/
def objSet (node : SGFNode) (k : String) (v : List String) : SGFNode :=
  if node.any (fun p => p.1 == k) then
    node.map (fun p => if p.1 == k then (k, v) else p)
  else node ++ [(k, v)]

/-- JS truthy key lookup `node.KEY`. -/
def objGet (node : SGFNode) (k : String) : Option (List String) :=
  (node.find? (fun p => p.1 == k)).map (fun p => p.2)

/-- `skipWhitespace()`. -/
def skipWsAux (s : List Char) : Nat → Nat → Nat
  | 0, pos => pos
  | rem + 1, pos =>
    if pos < s.length ∧ isWs (s.getD pos ' ') = true then skipWsAux s rem (pos + 1) else pos

def skipWs (s : List Char) (pos : Nat) : Nat := skipWsAux s (s.length - pos) pos

def isUpperCh (c : Char) : Bool := decide ('A' ≤ c ∧ c ≤ 'Z')

/-- The property-key scan `while (/[A-Z]/.test(sgf[pos])) pos++`. -/
def scanKeyAux (s : List Char) : Nat → Nat → Nat
  | 0, pos => pos
  | rem + 1, pos =>
    if pos < s.length ∧ isUpperCh (s.getD pos ' ') = true then scanKeyAux s rem (pos + 1) else pos

/-- The character loop of `parseValue`: collect characters until an
unescaped `]`, a backslash escaping the following character literally. -/
def parseValueAux (s : List Char) : Nat → Nat → List Char → List Char × Nat
  | 0, pos, acc => (acc, pos)
  | rem + 1, pos, acc =>
    if pos < s.length ∧ ¬ s.getD pos ' ' = ']' then
      if s.getD pos ' ' = '\\' then
        let pos₁ := pos + 1
        let acc' := if pos₁ < s.length then acc ++ [s.getD pos₁ ' '] else acc
        parseValueAux s rem (pos₁ + 1) acc'
      else parseValueAux s rem (pos + 1) (acc ++ [s.getD pos ' '])
    else (acc, pos)

/-- `parseValue()`: expects `[`, collects the bracketed value, consumes
the closing `]` when present. -/
def parseValue (s : List Char) (pos : Nat) : Except SGFError (String × Nat) :=
  if ¬ s.get? pos = some '[' then .error .expectedBracket
  else
    let r := parseValueAux s (s.length - (pos + 1) + 1) (pos + 1) []
    let p' := if s.get? r.2 = some ']' then r.2 + 1 else r.2
    .ok (String.mk r.1, p')

/-- The value loop of `parseProperty`:
`while (sgf[pos] === '[') { values.push(parseValue()); skipWhitespace() }`. -/
def valuesLoopF (s : List Char) : Nat → Nat → List String → PRes (List String × Nat)
  | 0, _, _ => none
  | fuel + 1, pos, vals =>
    if pos < s.length ∧ s.getD pos ' ' = '[' then
      match parseValue s pos with
      | .error e => some (.error e)
      | .ok (v, pos') => valuesLoopF s fuel (skipWs s pos') (vals ++ [v])
    else some (.ok (vals, pos))

/-- `parseProperty()`: skip whitespace, scan an `[A-Z]*` key; an empty key
is `null` (and crucially consumes nothing beyond the whitespace);
otherwise collect the contiguous bracket groups. -/
def parsePropertyF (fuel : Nat) (s : List Char) (pos : Nat) :
    PRes (Option (String × List String) × Nat) :=
  let p1 := skipWs s pos
  let p2 := scanKeyAux s (s.length - p1) p1
  if p2 = p1 then some (.ok (none, p1))
  else
    let key := String.mk ((s.drop p1).take (p2 - p1))
    let p3 := skipWs s p2
    match valuesLoopF s fuel p3 [] with
    | none => none
    | some (.error e) => some (.error e)
    | some (.ok (vals, p4)) => some (.ok (some (key, vals), p4))

/-- The property loop of `parseNode()`: while the scan is not at a node or
tree delimiter, parse a property, record it when non-null and skip
whitespace.  An iteration in which `parseProperty` returns `null` leaves
`pos` unchanged, so this loop can fail to advance. -/
def nodeLoopF (s : List Char) : Nat → Nat → SGFNode → PRes (SGFNode × Nat)
  | 0, _, _ => none
  | fuel + 1, pos, node =>
    if pos < s.length ∧ ¬ s.getD pos ' ' = ';' ∧ ¬ s.getD pos ' ' = ')' ∧
        ¬ s.getD pos ' ' = '(' then
      match parsePropertyF fuel s pos with
      | none => none
      | some (.error e) => some (.error e)
      | some (.ok (prop, pos')) =>
        let node' := match prop with
          | some kv => objSet node kv.1 kv.2
          | none => node
        nodeLoopF s fuel (skipWs s pos') node'
    else some (.ok (node, pos))

/-- `parseNode()`: skip the `;`, skip whitespace, run the property loop. -/
def parseNodeF (fuel : Nat) (s : List Char) (pos : Nat) : PRes (SGFNode × Nat) :=
  nodeLoopF s fuel (skipWs s (pos + 1)) []

/-- `skipVariation()`: depth-balanced bracket counting (depth is a JS
number, so it may go negative, in which case the loop runs to the end of
the input). -/
def skipVarAux (s : List Char) : Nat → Nat → Int → Nat
  | 0, pos, _ => pos
  | rem + 1, pos, depth =>
    if pos < s.length then
      if s.getD pos ' ' = '(' then skipVarAux s rem (pos + 1) (depth + 1)
      else if s.getD pos ' ' = ')' then
        if depth - 1 = 0 then pos + 1 else skipVarAux s rem (pos + 1) (depth - 1)
      else skipVarAux s rem (pos + 1) depth
    else pos

def skipVariation (s : List Char) (pos : Nat) : Nat := skipVarAux s (s.length - pos) pos 0

/-- The node loop of `parseGameTree()`: until `)` or the end, skip
whitespace and dispatch on the next character — `;` parses a node, `(`
skips a variation, anything else advances one character. -/
def gtLoopF (s : List Char) : Nat → Nat → List SGFNode → PRes (List SGFNode × Nat)
  | 0, _, _ => none
  | fuel + 1, pos, nodes =>
    if pos < s.length ∧ ¬ s.getD pos ' ' = ')' then
      let p1 := skipWs s pos
      match s.get? p1 with
      | some ';' =>
        match parseNodeF fuel s p1 with
        | none => none
        | some (.error e) => some (.error e)
        | some (.ok (node, pos')) => gtLoopF s fuel pos' (nodes ++ [node])
      | some '(' => gtLoopF s fuel (skipVariation s p1) nodes
      | _ => gtLoopF s fuel (p1 + 1) nodes
    else some (.ok (nodes, pos))

/-- `parseGameTree()`: requires a leading `(` (after whitespace), runs the
node loop, then consumes a closing `)` when present. -/
def parseGameTreeF (fuel : Nat) (s : List Char) (pos : Nat) : PRes (List SGFNode × Nat) :=
  let p1 := skipWs s pos
  if ¬ s.get? p1 = some '(' then some (.error .badStart)
  else
    match gtLoopF s fuel (p1 + 1) [] with
    | none => none
    | some (.error e) => some (.error e)
    | some (.ok (nodes, pos')) =>
      some (.ok (nodes, if s.get? pos' = some ')' then pos' + 1 else pos'))

/-- The colour of a move property (`'B' | 'W'`). -/
inductive SGFColor
  | B
  | W
deriving DecidableEq

/-- An `SGFMove`; `position` is `node.B[0]`, which is JS `undefined`
(here `none`) when the property has no value. -/
structure SGFMove where
  color : SGFColor
  position : Option String
  moveNumber : Nat
deriving DecidableEq

/-- `SGFGameInfo`.  `boardSize` and `handicap` hold `parseInt` results
(`none` standing for JS `NaN` or an absent optional); `komi` keeps the
raw token — its `parseFloat` value is floating point and never consumed
by the claims. -/
structure SGFGameInfo where
  playerBlack : Option String
  playerWhite : Option String
  result : Option String
  date : Option String
  event : Option String
  round : Option String
  komi : Option String
  handicap : Option Int
  boardSize : Option Int
deriving DecidableEq

structure SGFGame where
  gameInfo : SGFGameInfo
  moves : List SGFMove
deriving DecidableEq

/-- JS `parseInt(s)` restricted to base 10: skip leading whitespace, an
optional sign, then the longest digit prefix; no digits is NaN (`none`). -/
def parseIntJS (s : String) : Option Int :=
  let t := s.data.dropWhile isWs
  let p : Int × List Char :=
    match t with
    | '-' :: r => (-1, r)
    | '+' :: r => (1, r)
    | _ => (1, t)
  let ds := p.2.takeWhile isDigitCh
  if ds = [] then none else some (p.1 * (digitsToNat ds : Int))

/-- One node's contribution to the game record in `extractGame`: recognised
keys update the metadata, and `B`/`W` properties append moves numbered by
the incremented counter. -/
def extractNode (st : SGFGameInfo × List SGFMove × Nat) (node : SGFNode) :
    SGFGameInfo × List SGFMove × Nat :=
  let gi₀ := st.1
  let gi₁ := match objGet node "SZ" with
    | some vs => { gi₀ with boardSize := vs.head?.bind parseIntJS }
    | none => gi₀
  let gi₂ := match objGet node "PB" with
    | some vs => { gi₁ with playerBlack := vs.head? }
    | none => gi₁
  let gi₃ := match objGet node "PW" with
    | some vs => { gi₂ with playerWhite := vs.head? }
    | none => gi₂
  let gi₄ := match objGet node "RE" with
    | some vs => { gi₃ with result := vs.head? }
    | none => gi₃
  let gi₅ := match objGet node "DT" with
    | some vs => { gi₄ with date := vs.head? }
    | none => gi₄
  let gi₆ := match objGet node "EV" with
    | some vs => { gi₅ with event := vs.head? }
    | none => gi₅
  let gi₇ := match objGet node "RO" with
    | some vs => { gi₆ with round := vs.head? }
    | none => gi₆
  let gi₈ := match objGet node "KM" with
    | some vs => { gi₇ with komi := vs.head? }
    | none => gi₇
  let gi₉ := match objGet node "HA" with
    | some vs => { gi₈ with handicap := vs.head?.bind parseIntJS }
    | none => gi₈
  let s₁ : List SGFMove × Nat :=
    match objGet node "B" with
    | some vs => (st.2.1 ++ [⟨.B, vs.head?, st.2.2 + 1⟩], st.2.2 + 1)
    | none => (st.2.1, st.2.2)
  let s₂ : List SGFMove × Nat :=
    match objGet node "W" with
    | some vs => (s₁.1 ++ [⟨.W, vs.head?, s₁.2 + 1⟩], s₁.2 + 1)
    | none => (s₁.1, s₁.2)
  (gi₉, s₂.1, s₂.2)

/-- `extractGame(nodes)`: board size defaults to 19; one pass over the
flat node list. -/
def extractGame (nodes : List SGFNode) : SGFGame :=
  let st := nodes.foldl extractNode
    (⟨none, none, none, none, none, none, none, none, some 19⟩, [], 0)
  ⟨st.1, st.2.1⟩

/-- `parse(sgfContent)`: trim, parse the game tree, project to the game
record. -/
def parseSGF (fuel : Nat) (input : String) : PRes SGFGame :=
  match parseGameTreeF fuel (csTrim input.data) 0 with
  | none => none
  | some (.error e) => some (.error e)
  | some (.ok r) => some (.ok (extractGame r.1))

/-- Zero-based letter offset of an SGF coordinate character. -/
def letterOffset (c : Char) : Int := (c.toNat : Int) - ('a'.toNat : Int)

/-- `SGFParser.sgfToVertex(sgfCoord, boardSize)`. -/
def sgfToVertex (sgfCoord : String) (boardSize : Int) : Except SGFError (Int × Int) :=
  if sgfCoord = "" ∨ sgfCoord = "tt" then .ok (-1, -1)
  else if ¬ sgfCoord.data.length = 2 then .error .invalidCoord
  else
    let x : Int := letterOffset (sgfCoord.data.getD 0 'a')
    let y : Int := letterOffset (sgfCoord.data.getD 1 'a')
    if x < 0 ∨ x ≥ boardSize ∨ y < 0 ∨ y ≥ boardSize then .error .outOfBounds
    else .ok (x, y)

/-- Equality of `Except` results is decidable when both sides are. -/
instance exceptDecEq {ε α : Type} [DecidableEq ε] [DecidableEq α] :
    DecidableEq (Except ε α) := fun x y =>
  match x, y with
  | .ok a, .ok b =>
    if h : a = b then .isTrue (by rw [h])
    else .isFalse (by intro hh; injection hh; exact h (by assumption))
  | .ok _, .error _ => .isFalse (by intro h; injection h)
  | .error _, .ok _ => .isFalse (by intro h; injection h)
  | .error e, .error f =>
    if h : e = f then .isTrue (by rw [h])
    else .isFalse (by intro hh; injection hh; exact h (by assumption))

/-! ## Heap model of `clone` / `makeMove` (for the frame claim)

The TS board rows are mutable arrays reached through references: `clone`
copies every row (`this.signMap.map(row => [...row])`) and `makeMove`
writes only through the clone, so the receiver must read back unchanged.
The pure embedding above cannot express aliasing, so this second
embedding of the same source makes the row heap explicit: a store of
rows, games holding row indices, `set` mutating the store.  The capture
counters and the ko record are kept as plain values because the
constructor allocates a fresh `_captures` array and `clone` builds a
fresh `_koInfo` object for every instance.  Read-only queries (`get`,
`getNeighbors`, `hasLiberties`, `getChain`, `getLiberties`) only read
rows and are evaluated on the materialised board. -/

abbrev Store : Type := List (List Int)

/-- A `GoGame` instance whose rows live in the store. -/
structure HGame where
  rowIds : List Nat
  height : Nat
  width : Nat
  captures : Nat × Nat
  koInfo : KoInfo

/-- Read one row out of the store. -/
def hRow (st : Store) (i : Nat) : List Int := st.getD i []

/-- The sign map an instance observes. -/
def hBoard (st : Store) (hg : HGame) : List (List Int) := hg.rowIds.map (hRow st)

/-- Materialise the heap game as a plain value. -/
def hToPure (st : Store) (hg : HGame) : GoGame :=
  ⟨hBoard st hg, hg.height, hg.width, hg.captures, hg.koInfo⟩

/-- `set(vertex, sign)` in the heap: mutate the row the game's `rowIds`
designate. -/
def hSet (st : Store) (hg : HGame) (v : Vertex) (s : Int) : Store :=
  if (hToPure st hg).has v then
    match liGet hg.rowIds v.2 with
    | some rid => st.set rid (liSet (hRow st rid) v.1 s)
    | none => st
  else st

/-- `clone()` in the heap: append a copy of every row to the store; the
clone's row ids point at the fresh copies, and the constructor recomputes
`height`/`width` from the copied map. -/
def hClone (st : Store) (hg : HGame) : Store × HGame :=
  (st ++ hBoard st hg,
   ⟨List.range' st.length hg.rowIds.length, (hBoard st hg).length,
    GoGame.widthOf (hBoard st hg), hg.captures, hg.koInfo⟩)

/-- `setCaptures(sign, x => x + 1)` on a heap game. -/
def hBump (hg : HGame) (s : Int) : HGame :=
  if s = 1 then ⟨hg.rowIds, hg.height, hg.width, (hg.captures.1 + 1, hg.captures.2), hg.koInfo⟩
  else if s = -1 then
    ⟨hg.rowIds, hg.height, hg.width, (hg.captures.1, hg.captures.2 + 1), hg.koInfo⟩
  else hg

/-- Removal of one (precomputed) chain in the heap. -/
def hRemoveChain (st : Store) (mv : HGame) (s' : Int) (chain : List Vertex) :
    Store × HGame :=
  chain.foldl (fun acc c => (hSet acc.1 acc.2 c 0, hBump acc.2 s')) (st, mv)

/-- The capture loop in the heap. -/
def hCaptureFold (st : Store) (mv : HGame) (s' : Int) (dead : List Vertex) :
    Store × HGame × List Vertex :=
  dead.foldl (fun acc n =>
      if (hToPure acc.1 acc.2.1).get n = some 0 then acc
      else
        let chain := (hToPure acc.1 acc.2.1).getChain n
        let r := hRemoveChain acc.1 acc.2.1 s' chain
        (r.1, r.2, acc.2.2 ++ chain))
    (st, mv, [])

/-- Replace the ko record of a heap game. -/
def hSetKo (hg : HGame) (k : KoInfo) : HGame :=
  ⟨hg.rowIds, hg.height, hg.width, hg.captures, k⟩

/-- `makeMove` in the heap model, step for step as the pure embedding,
with every mutation (`move.set`, `setCaptures`, `_koInfo`) applied to the
clone. -/
def hMakeMove (st : Store) (g : HGame) (sign : Int) (vertex : Vertex) (opts : MoveOptions) :
    Store × Except MoveError HGame :=
  let c := hClone st g
  let st₁ := c.1
  let move := c.2
  if sign = 0 ∨ ¬ (hToPure st₁ g).has vertex then (st₁, .ok move)
  else if opts.preventOverwrite = true ∧ jsTruthy ((hToPure st₁ g).get vertex) = true then
    (st₁, .error .overwrite)
  else
    let s' := normalizeSign sign
    if opts.preventKo = true ∧ g.koInfo.sign = s' ∧ g.koInfo.vertex = vertex then
      (st₁, .error .ko)
    else
      let opp := oppositeOf s'
      let st₂ := hSet st₁ move vertex s'
      let neighbors := (hToPure st₂ move).getNeighbors vertex
      let dead := (hToPure st₂ move).deadNbrs opp vertex
      let cap := hCaptureFold st₂ move s' dead
      let st₃ := cap.1
      let move₃ := cap.2.1
      let deadStones := cap.2.2
      let liberties := (hToPure st₃ move₃).getLiberties vertex
      let move₄ := hSetKo move₃
        (GoGame.detectKo deadStones liberties neighbors (hToPure st₃ move₃) s' opp)
      if deadStones.length = 0 ∧ liberties.length = 0 then
        if opts.preventSuicide = true then (st₃, .error .suicide)
        else
          let r := hRemoveChain st₃ move₄ opp ((hToPure st₃ move₄).getChain vertex)
          (r.1, .ok r.2)
      else (st₃, .ok move₄)

/-- A heap game is valid in a store when all its row ids point into the
store. -/
def HValid (st : Store) (hg : HGame) : Prop :=
  ∀ i ∈ hg.rowIds, i < st.length

/-- `st'` reads the same as `st` on every row index below `n` (the
receiver's rows are untouched when this holds below the original store
length). -/
def AgreesBelow (n : Nat) (st st' : Store) : Prop :=
  ∀ i, i < n → hRow st' i = hRow st i

/-- All of a heap game's rows live at store indices `≥ n`: the clone's
rows do, with `n` the pre-call store length, so writing through the clone
cannot touch the receiver's rows. -/
def RowsAbove (n : Nat) (hg : HGame) : Prop :=
  ∀ i ∈ hg.rowIds, n ≤ i

-- ===== THEOREMS =====

/-! ### Basic board-access lemmas -/

namespace GoGame

lemma liGet_neg {α : Type} {l : List α} {i : Int} (h : i < 0) : liGet l i = none := by
  simp [liGet, not_le.mpr h]

lemma liGet_nonneg {α : Type} {l : List α} {i : Int} (h : 0 ≤ i) :
    liGet l i = l[i.toNat]? := by
  simp [liGet, h]

lemma get_eq_bind (g : GoGame) (v : Vertex) :
    g.get v = (liGet g.signMap v.2).bind (fun row => liGet row v.1) := by
  unfold get; cases liGet g.signMap v.2 <;> rfl

lemma get_of_has {g : GoGame} (hWF : WellFormed g) {v : Vertex} (hv : g.has v) :
    ∃ s, g.get v = some s ∧ (s = 0 ∨ s = 1 ∨ s = -1) := by
  obtain ⟨hH, hRows, -, hSigns⟩ := hWF
  obtain ⟨hx0, hxw, hy0, hyh⟩ := hv
  have hylt : v.2.toNat < g.signMap.length := by omega
  have hmem : g.signMap[v.2.toNat] ∈ g.signMap := List.getElem_mem hylt
  have hlen : (g.signMap[v.2.toNat]).length = g.width := hRows _ hmem
  have hxlt : v.1.toNat < (g.signMap[v.2.toNat]).length := by omega
  refine ⟨(g.signMap[v.2.toNat])[v.1.toNat], ?_, ?_⟩
  · rw [get_eq_bind, liGet_nonneg hy0, List.getElem?_eq_getElem hylt]
    simp [liGet_nonneg hx0, List.getElem?_eq_getElem hxlt]
  · exact hSigns _ hmem _ (List.getElem_mem hxlt)

lemma get_eq_none_of_not_has {g : GoGame} (hWF : WellFormed g) {v : Vertex}
    (hv : ¬ g.has v) : g.get v = none := by
  obtain ⟨hH, hRows, -, -⟩ := hWF
  rw [get_eq_bind]
  rcases lt_or_le v.2 0 with h2 | h2
  · rw [liGet_neg h2]; rfl
  · rcases lt_or_le v.2 (g.height : Int) with h2h | h2h
    · have hylt : v.2.toNat < g.signMap.length := by omega
      rw [liGet_nonneg h2, List.getElem?_eq_getElem hylt]
      have hlen := hRows _ (List.getElem_mem hylt)
      rcases lt_or_le v.1 0 with h1 | h1
      · simp [liGet_neg h1]
      · rcases lt_or_le v.1 (g.width : Int) with h1w | h1w
        · exact absurd ⟨h1, h1w, h2, h2h⟩ hv
        · have hnone : (g.signMap[v.2.toNat])[v.1.toNat]? = none :=
            List.getElem?_eq_none (by omega)
          simp [liGet_nonneg h1, hnone]
    · have hnone : g.signMap[v.2.toNat]? = none := List.getElem?_eq_none (by omega)
      rw [liGet_nonneg h2, hnone]; rfl

lemma has_of_get_eq_some {g : GoGame} (hWF : WellFormed g) {v : Vertex} {s : Int}
    (h : g.get v = some s) : g.has v := by
  by_contra hv
  rw [get_eq_none_of_not_has hWF hv] at h
  exact Option.noConfusion h

end GoGame

/-! ### Structure-preservation lemmas for the mutators -/

namespace GoGame

lemma set_width (g : GoGame) (v : Vertex) (s : Int) : (g.set v s).width = g.width := by
  unfold set; split <;> rfl

lemma set_height (g : GoGame) (v : Vertex) (s : Int) : (g.set v s).height = g.height := by
  unfold set; split <;> rfl

lemma set_captures (g : GoGame) (v : Vertex) (s : Int) :
    (g.set v s).captures = g.captures := by
  unfold set; split <;> rfl

lemma set_koInfo (g : GoGame) (v : Vertex) (s : Int) : (g.set v s).koInfo = g.koInfo := by
  unfold set; split <;> rfl

lemma has_set (g : GoGame) (v : Vertex) (s : Int) (w : Vertex) :
    (g.set v s).has w ↔ g.has w := by
  unfold has; rw [set_width, set_height]

lemma getNeighbors_set (g : GoGame) (v : Vertex) (s : Int) (w : Vertex) :
    (g.set v s).getNeighbors w = g.getNeighbors w := by
  unfold set; split <;> rfl

lemma setCapturesWith_signMap (g : GoGame) (s : Int) (f : Nat → Nat) :
    (g.setCapturesWith s f).signMap = g.signMap := by
  unfold setCapturesWith; split <;> [rfl; split <;> rfl]

lemma setCapturesWith_width (g : GoGame) (s : Int) (f : Nat → Nat) :
    (g.setCapturesWith s f).width = g.width := by
  unfold setCapturesWith; split <;> [rfl; split <;> rfl]

lemma setCapturesWith_height (g : GoGame) (s : Int) (f : Nat → Nat) :
    (g.setCapturesWith s f).height = g.height := by
  unfold setCapturesWith; split <;> [rfl; split <;> rfl]

lemma setCapturesWith_koInfo (g : GoGame) (s : Int) (f : Nat → Nat) :
    (g.setCapturesWith s f).koInfo = g.koInfo := by
  unfold setCapturesWith; split <;> [rfl; split <;> rfl]

lemma get_setCapturesWith (g : GoGame) (s : Int) (f : Nat → Nat) (w : Vertex) :
    (g.setCapturesWith s f).get w = g.get w := by
  unfold setCapturesWith; split <;> [rfl; split <;> rfl]

lemma has_setCapturesWith (g : GoGame) (s : Int) (f : Nat → Nat) (w : Vertex) :
    (g.setCapturesWith s f).has w ↔ g.has w := by
  unfold has; rw [setCapturesWith_width, setCapturesWith_height]

lemma getCaptures_setCapturesWith_same {s : Int} (g : GoGame) (f : Nat → Nat)
    (hs : s = 1 ∨ s = -1) :
    (g.setCapturesWith s f).getCaptures s = f (g.getCaptures s) := by
  rcases hs with h | h <;> subst h <;> simp [setCapturesWith, getCaptures]

lemma getCaptures_setCapturesWith_other {s t : Int} (g : GoGame) (f : Nat → Nat)
    (hst : t ≠ s) : (g.setCapturesWith s f).getCaptures t = g.getCaptures t := by
  by_cases h1 : s = 1
  · subst h1; simp [setCapturesWith, getCaptures, hst]
  · by_cases h2 : s = -1
    · subst h2; simp [setCapturesWith, getCaptures, hst]
    · simp [setCapturesWith, h1, h2]

lemma clone_eq {g : GoGame} (hWF : WellFormed g) : g.clone = g := by
  obtain ⟨hH, hRows, hEmpty, -⟩ := hWF
  have hw : widthOf g.signMap = g.width := by
    unfold widthOf
    cases hm : g.signMap with
    | nil => simpa using (hEmpty hm).symm
    | cons r t =>
      have hr := hRows r (by rw [hm]; exact List.mem_cons_self r t)
      simp [hr]
  unfold clone
  rw [hw, ← hH]

end GoGame

/-! ### Reading back writes -/

namespace GoGame

lemma liSet_length {α : Type} (l : List α) (i : Int) (a : α) :
    (liSet l i a).length = l.length := by
  unfold liSet; split <;> simp

lemma mem_liSet {α : Type} {l : List α} {i : Int} {a c : α} (h : c ∈ liSet l i a) :
    c ∈ l ∨ c = a := by
  unfold liSet at h
  split at h
  · exact List.mem_or_eq_of_mem_set h
  · exact Or.inl h

lemma get_set_self {g : GoGame} (hWF : WellFormed g) {v : Vertex} (hv : g.has v) (s : Int) :
    (g.set v s).get v = some s := by
  obtain ⟨hH, hRows, -, -⟩ := hWF
  obtain ⟨hx0, hxw, hy0, hyh⟩ := hv
  have hylt : v.2.toNat < g.signMap.length := by omega
  have hlen : (g.signMap[v.2.toNat]).length = g.width := hRows _ (List.getElem_mem hylt)
  unfold set
  rw [if_pos ⟨hx0, hxw, hy0, hyh⟩, get_eq_bind]
  simp only [liSet, liGet, hx0, hy0, if_pos]
  rw [List.getElem?_set_self (by simpa using hylt)]
  simp only [Option.some_bind, List.getElem?_eq_getElem hylt, Option.getD_some]
  exact List.getElem?_set_self (by omega)

lemma get_set_ne {g : GoGame} (hWF : WellFormed g) {v w : Vertex} (s : Int)
    (hne : w ≠ v) : (g.set v s).get w = g.get w := by
  unfold set
  split
  · next hv =>
    obtain ⟨hH, hRows, -, -⟩ := hWF
    obtain ⟨hx0, hxw, hy0, hyh⟩ := hv
    have hylt : v.2.toNat < g.signMap.length := by omega
    rw [get_eq_bind, get_eq_bind]
    simp only
    by_cases h2 : w.2 = v.2
    · -- same row, different column
      have h1 : w.1 ≠ v.1 := fun h1 => hne (Prod.ext h1 h2)
      rw [h2]
      simp only [liSet, liGet, hy0, hx0, if_pos, if_true]
      rw [List.getElem?_set_self (by simpa using hylt),
        List.getElem?_eq_getElem hylt]
      simp only [Option.some_bind, Option.getD_some]
      rcases lt_or_le w.1 0 with hw1 | hw1
      · simp [not_le.mpr hw1]
      · simp only [hw1, if_pos]
        exact List.getElem?_set_ne (show v.1.toNat ≠ w.1.toNat by omega)
    · -- different row
      rcases lt_or_le w.2 0 with hw2 | hw2
      · simp [liGet, not_le.mpr hw2]
      · simp only [liSet, liGet, hy0, hw2, if_pos]
        rw [List.getElem?_set_ne (by omega)]
  · rfl

lemma wellFormed_set {g : GoGame} (hWF : WellFormed g) (v : Vertex) {s : Int}
    (hs : s = 0 ∨ s = 1 ∨ s = -1) : WellFormed (g.set v s) := by
  obtain ⟨hH, hRows, hEmpty, hSigns⟩ := hWF
  unfold set
  split
  · next hv =>
    obtain ⟨hx0, hxw, hy0, hyh⟩ := hv
    have hylt : v.2.toNat < g.signMap.length := by omega
    have hrowval : (liGet g.signMap v.2).getD [] = g.signMap[v.2.toNat] := by
      rw [liGet_nonneg hy0, List.getElem?_eq_getElem hylt]; rfl
    refine ⟨?_, ?_, ?_, ?_⟩
    · simp [liSet_length, hH]
    · intro row hrow
      simp only at hrow
      rcases mem_liSet hrow with h | h
      · exact hRows _ h
      · subst h
        rw [hrowval, liSet_length]
        exact hRows _ (List.getElem_mem hylt)
    · intro hnil
      have hlen0 := congrArg List.length hnil
      rw [liSet_length, List.length_nil] at hlen0
      exact absurd hlen0 (by omega)
    · intro row hrow c hc
      simp only at hrow
      rcases mem_liSet hrow with h | h
      · exact hSigns _ h _ hc
      · subst h
        rw [hrowval] at hc
        rcases mem_liSet hc with h | h
        · exact hSigns _ (List.getElem_mem hylt) _ h
        · subst h; exact hs
  · exact ⟨hH, hRows, hEmpty, hSigns⟩

end GoGame

/-! ### Neighbourhood, board finset and the search measure -/

lemma adjacent_symm {a b : Vertex} (h : Adjacent a b) : Adjacent b a := by
  unfold Adjacent adjList at *
  simp only [List.mem_cons, List.mem_singleton, List.not_mem_nil, or_false,
    Prod.ext_iff] at *
  rcases h with h | h | h | h <;> [skip; skip; skip; skip] <;> omega

lemma adjList_nodup (v : Vertex) : (adjList v).Nodup := by
  unfold adjList
  refine List.Nodup.cons ?_ (List.Nodup.cons ?_ (List.Nodup.cons ?_ (List.nodup_singleton _))) <;>
    simp only [List.mem_cons, List.mem_singleton, List.not_mem_nil, or_false, Prod.ext_iff] <;>
    omega

namespace GoGame

lemma mem_getNeighbors {g : GoGame} {v n : Vertex} :
    n ∈ g.getNeighbors v ↔ g.has v ∧ Adjacent v n ∧ g.has n := by
  unfold getNeighbors
  split
  · next hv =>
    rw [List.mem_filter]
    unfold Adjacent
    simp [hv, and_comm]
  · next hv => simp [hv]

lemma has_of_mem_getNeighbors {g : GoGame} {v n : Vertex} (h : n ∈ g.getNeighbors v) :
    g.has n := (mem_getNeighbors.mp h).2.2

lemma getNeighbors_length_le (g : GoGame) (v : Vertex) : (g.getNeighbors v).length ≤ 4 := by
  unfold getNeighbors
  split
  · exact le_trans (List.length_filter_le _ _) (by simp [adjList])
  · simp

lemma getNeighbors_nodup (g : GoGame) (v : Vertex) : (g.getNeighbors v).Nodup := by
  unfold getNeighbors
  split
  · exact (adjList_nodup v).filter _
  · exact List.nodup_nil

end GoGame

lemma mem_boardFinset {g : GoGame} {w : Vertex} : w ∈ boardFinset g ↔ g.has w := by
  unfold boardFinset GoGame.has
  rw [Finset.mem_product]
  simp only [Finset.mem_Icc]
  omega

lemma boardFinset_card (g : GoGame) : (boardFinset g).card = g.width * g.height := by
  unfold boardFinset
  rw [Finset.card_product, Int.card_Icc, Int.card_Icc]
  have h1 : ((g.width : Int) - 1 + 1 - 0).toNat = g.width := by omega
  have h2 : ((g.height : Int) - 1 + 1 - 0).toNat = g.height := by omega
  rw [h1, h2]

lemma missingCount_le (g : GoGame) (l : List Vertex) :
    missingCount g l ≤ g.width * g.height := by
  calc missingCount g l ≤ (boardFinset g).card := Finset.card_filter_le _ _
    _ = _ := boardFinset_card g

lemma missingCount_push {g : GoGame} {l : List Vertex} {v : Vertex}
    (hv : g.has v) (hnotin : v ∉ l) : missingCount g (l ++ [v]) + 1 = missingCount g l := by
  unfold missingCount
  have hset : (boardFinset g).filter (fun w => w ∉ l) =
      insert v ((boardFinset g).filter (fun w => w ∉ l ++ [v])) := by
    ext w
    simp only [Finset.mem_filter, Finset.mem_insert, List.mem_append,
      List.mem_singleton]
    constructor
    · intro ⟨hwb, hwl⟩
      by_cases hwv : w = v
      · exact Or.inl hwv
      · exact Or.inr ⟨hwb, fun h => h.elim hwl hwv⟩
    · intro h
      rcases h with h | ⟨hwb, hwl⟩
      · subst h; exact ⟨mem_boardFinset.mpr hv, hnotin⟩
      · exact ⟨hwb, fun h => hwl (Or.inl h)⟩
  rw [hset, Finset.card_insert_of_not_mem (by simp)]

lemma missingCount_mono {g : GoGame} {l l' : List Vertex} (h : ∀ x ∈ l, x ∈ l') :
    missingCount g l' ≤ missingCount g l := by
  apply Finset.card_le_card
  intro w hw
  simp only [Finset.mem_filter] at *
  exact ⟨hw.1, fun hmem => hw.2 (h _ hmem)⟩

/-! ### Correctness of the connected-component search -/

namespace GoGame

lemma gccLoop_prefix (g : GoGame) (pred : Vertex → Bool) :
    ∀ (fuel : Nat) (l result : List Vertex),
      ∃ t, g.gccLoop pred fuel l result = result ++ t := by
  intro fuel
  induction fuel with
  | zero => exact fun l result => ⟨[], by simp [gccLoop]⟩
  | succ fuel ih =>
    intro l result
    cases l with
    | nil => exact ⟨[], by simp [gccLoop]⟩
    | cons v vs =>
      simp only [gccLoop]
      split
      · obtain ⟨t1, ht1⟩ := ih (g.getNeighbors v) (result ++ [v])
        obtain ⟨t2, ht2⟩ := ih vs (g.gccLoop pred fuel (g.getNeighbors v) (result ++ [v]))
        exact ⟨[v] ++ t1 ++ t2, by rw [ht2, ht1]; simp⟩
      · exact ih vs result

lemma gccLoop_subset (g : GoGame) (pred : Vertex → Bool) (fuel : Nat)
    (l result : List Vertex) :
    ∀ x ∈ result, x ∈ g.gccLoop pred fuel l result := by
  obtain ⟨t, ht⟩ := gccLoop_prefix g pred fuel l result
  intro x hx
  rw [ht]
  exact List.mem_append_left _ hx

lemma gccLoop_nodup (g : GoGame) (pred : Vertex → Bool) :
    ∀ (fuel : Nat) (l result : List Vertex), result.Nodup →
      (g.gccLoop pred fuel l result).Nodup := by
  intro fuel
  induction fuel with
  | zero => intro l result h; simpa [gccLoop] using h
  | succ fuel ih =>
    intro l result h
    cases l with
    | nil => simpa [gccLoop] using h
    | cons v vs =>
      simp only [gccLoop]
      split
      · next hcond =>
        refine ih vs _ (ih (g.getNeighbors v) (result ++ [v]) ?_)
        simp [List.nodup_append, h, hcond.2]
      · exact ih vs result h

lemma gccLoop_sound (g : GoGame) (pred : Vertex → Bool) (v₀ : Vertex) :
    ∀ (fuel : Nat) (l result : List Vertex),
      (∀ x ∈ result, ReachB g pred v₀ x) →
      (∀ x ∈ l, ∃ a ∈ result, x ∈ g.getNeighbors a) →
      ∀ x ∈ g.gccLoop pred fuel l result, ReachB g pred v₀ x := by
  intro fuel
  induction fuel with
  | zero => intro l result hres hl x hx; rw [gccLoop] at hx; exact hres x hx
  | succ fuel ih =>
    intro l result hres hl x hx
    cases l with
    | nil => rw [gccLoop] at hx; exact hres x hx
    | cons v vs =>
      rw [gccLoop] at hx
      split at hx
      · next hcond =>
        obtain ⟨a, ha, hva⟩ := hl v (List.mem_cons_self v vs)
        have hreachv : ReachB g pred v₀ v :=
          Relation.ReflTransGen.tail (hres a ha) ⟨hva, hcond.1⟩
        have hres' : ∀ y ∈ result ++ [v], ReachB g pred v₀ y := by
          intro y hy
          rcases List.mem_append.mp hy with h | h
          · exact hres y h
          · rw [List.mem_singleton.mp h]; exact hreachv
        have hinner := ih (g.getNeighbors v) (result ++ [v]) hres'
          (fun x hx => ⟨v, by simp, hx⟩)
        refine ih vs _ (fun y hy => hinner y hy) ?_ x hx
        intro y hy
        obtain ⟨a, ha, hya⟩ := hl y (List.mem_cons_of_mem _ hy)
        exact ⟨a, gccLoop_subset g pred fuel _ _ a (List.mem_append_left _ ha), hya⟩
      · refine ih vs result hres ?_ x hx
        intro y hy
        exact hl y (List.mem_cons_of_mem _ hy)

lemma gccLoop_closed (g : GoGame) (pred : Vertex → Bool) :
    ∀ (fuel : Nat) (l result : List Vertex),
      5 * missingCount g result + l.length + 1 ≤ fuel →
      (∀ x ∈ l, g.has x) →
      (∀ b ∈ l, pred b = true → b ∈ g.gccLoop pred fuel l result) ∧
      (∀ a ∈ g.gccLoop pred fuel l result, a ∉ result →
        ∀ b ∈ g.getNeighbors a, pred b = true → b ∈ g.gccLoop pred fuel l result) := by
  intro fuel
  induction fuel with
  | zero => intro l result hfuel hl; omega
  | succ fuel ih =>
    intro l result hfuel hl
    cases l with
    | nil =>
      rw [gccLoop]
      exact ⟨fun b hb => absurd hb (List.not_mem_nil b),
        fun a ha hanotin => absurd ha hanotin⟩
    | cons v vs =>
      have hvhas : g.has v := hl v (List.mem_cons_self v vs)
      rw [gccLoop]
      split
      · next hcond =>
        have hm := missingCount_push hvhas hcond.2
        have hnb := g.getNeighbors_length_le v
        have hfuel_inner :
            5 * missingCount g (result ++ [v]) + (g.getNeighbors v).length + 1 ≤ fuel := by
          simp only [List.length_cons] at hfuel; omega
        have IHinner := ih (g.getNeighbors v) (result ++ [v]) hfuel_inner
          (fun x hx => has_of_mem_getNeighbors hx)
        set inner := g.gccLoop pred fuel (g.getNeighbors v) (result ++ [v]) with hinner_def
        have hsub_inner : ∀ x ∈ result ++ [v], x ∈ inner :=
          gccLoop_subset g pred fuel _ _
        have hmono : missingCount g inner ≤ missingCount g (result ++ [v]) :=
          missingCount_mono hsub_inner
        have hfuel_outer : 5 * missingCount g inner + vs.length + 1 ≤ fuel := by
          simp only [List.length_cons] at hfuel; omega
        have IHouter := ih vs inner hfuel_outer
          (fun x hx => hl x (List.mem_cons_of_mem _ hx))
        set outer := g.gccLoop pred fuel vs inner with houter_def
        have hsub_outer : ∀ x ∈ inner, x ∈ outer := gccLoop_subset g pred fuel _ _
        constructor
        · intro b hb hpred
          rcases List.mem_cons.mp hb with h | h
          · subst h
            exact hsub_outer _ (hsub_inner _ (List.mem_append_right _ (by simp)))
          · exact IHouter.1 b h hpred
        · intro a ha hanotin b hb hpred
          by_cases hain : a ∈ inner
          · by_cases hav : a = v
            · subst hav
              exact hsub_outer _ (IHinner.1 b hb hpred)
            · have : a ∉ result ++ [v] := by
                intro h
                rcases List.mem_append.mp h with h | h
                · exact hanotin h
                · exact hav (List.mem_singleton.mp h)
              exact hsub_outer _ (IHinner.2 a hain this b hb hpred)
          · exact IHouter.2 a ha hain b hb hpred
      · have hfuel' : 5 * missingCount g result + vs.length + 1 ≤ fuel := by
          simp only [List.length_cons] at hfuel; omega
        have IH := ih vs result hfuel' (fun x hx => hl x (List.mem_cons_of_mem _ hx))
        constructor
        · intro b hb hpred
          rcases List.mem_cons.mp hb with h | h
          · subst h
            next hcond =>
              have : b ∈ result := by
                by_contra hnot
                exact hcond ⟨hpred, hnot⟩
              exact gccLoop_subset g pred fuel vs result b this
          · exact IH.1 b h hpred
        · exact IH.2

end GoGame

namespace GoGame

lemma reachB_has {g : GoGame} {pred : Vertex → Bool} {v w : Vertex}
    (hv : g.has v) (h : ReachB g pred v w) : g.has w := by
  induction h with
  | refl => exact hv
  | tail _ hstep ih => exact has_of_mem_getNeighbors hstep.1

lemma reachB_pred {g : GoGame} {pred : Vertex → Bool} {v w : Vertex}
    (h : ReachB g pred v w) : w = v ∨ pred w = true := by
  induction h with
  | refl => exact Or.inl rfl
  | tail _ hstep _ => exact Or.inr hstep.2

lemma mem_getConnectedComponent {g : GoGame} {pred : Vertex → Bool} {v : Vertex}
    (hv : g.has v) (w : Vertex) :
    w ∈ g.getConnectedComponent pred v ↔ ReachB g pred v w := by
  unfold getConnectedComponent
  rw [if_pos hv]
  have hfuel : 5 * missingCount g [v] + (g.getNeighbors v).length + 1 ≤
      5 * (g.width * g.height + 1) := by
    have h1 := missingCount_le g [v]
    have h2 := g.getNeighbors_length_le v
    omega
  have hclosed := gccLoop_closed g pred (5 * (g.width * g.height + 1))
    (g.getNeighbors v) [v] hfuel (fun x hx => has_of_mem_getNeighbors hx)
  constructor
  · intro hw
    refine gccLoop_sound g pred v _ (g.getNeighbors v) [v] ?_ ?_ w hw
    · intro x hx
      rw [List.mem_singleton.mp hx]
      exact Relation.ReflTransGen.refl
    · exact fun x hx => ⟨v, by simp, hx⟩
  · intro hw
    induction hw with
    | refl => exact gccLoop_subset g pred _ _ _ v (by simp)
    | tail hpath hstep ih =>
      next p q =>
        by_cases hpv : p = v
        · subst hpv
          exact hclosed.1 q hstep.1 hstep.2
        · refine hclosed.2 p ih ?_ q hstep.1 hstep.2
          simp [hpv]

lemma getConnectedComponent_nodup (g : GoGame) (pred : Vertex → Bool) (v : Vertex) :
    (g.getConnectedComponent pred v).Nodup := by
  unfold getConnectedComponent
  split
  · exact gccLoop_nodup g pred _ _ _ (List.nodup_singleton v)
  · exact List.nodup_nil

lemma sameChain_iff_reachB {g : GoGame} {v w : Vertex} (hv : g.has v) :
    SameChain g v w ↔ ReachB g (fun u => decide (g.get u = g.get v)) v w := by
  constructor
  · intro h
    induction h with
    | refl => exact Relation.ReflTransGen.refl
    | tail hpath hstep ih =>
      refine Relation.ReflTransGen.tail ih ⟨?_, by simp [hstep.2.2]⟩
      exact mem_getNeighbors.mpr ⟨reachB_has hv ih, hstep.1, hstep.2.1⟩
  · intro h
    induction h with
    | refl => exact Relation.ReflTransGen.refl
    | tail hpath hstep ih =>
      obtain ⟨-, hadj, hhas⟩ := mem_getNeighbors.mp hstep.1
      exact Relation.ReflTransGen.tail ih ⟨hadj, hhas, by simpa using hstep.2⟩

lemma mem_getChain {g : GoGame} {v : Vertex} (hv : g.has v) (w : Vertex) :
    w ∈ g.getChain v ↔ SameChain g v w := by
  unfold getChain
  rw [mem_getConnectedComponent hv, sameChain_iff_reachB hv]

lemma getChain_nodup (g : GoGame) (v : Vertex) : (g.getChain v).Nodup :=
  getConnectedComponent_nodup g _ v

lemma sameChain_get {g : GoGame} {v w : Vertex} (h : SameChain g v w) :
    g.get w = g.get v := by
  induction h with
  | refl => rfl
  | tail _ hstep _ => exact hstep.2.2

lemma sameChain_has {g : GoGame} {v w : Vertex} (hv : g.has v) (h : SameChain g v w) :
    g.has w := by
  induction h with
  | refl => exact hv
  | tail _ hstep _ => exact hstep.2.1

lemma sameChain_anchor {g : GoGame} {a v w : Vertex} (hget : g.get a = g.get v) :
    SameChain g a w ↔
      Relation.ReflTransGen (fun p q => Adjacent p q ∧ g.has q ∧ g.get q = g.get v) a w := by
  unfold SameChain
  rw [hget]

lemma sameChain_trans {g : GoGame} {v a w : Vertex} (h1 : SameChain g v a)
    (h2 : SameChain g a w) : SameChain g v w :=
  Relation.ReflTransGen.trans h1 ((sameChain_anchor (sameChain_get h1)).mp h2)

lemma sameChain_symm {g : GoGame} {v w : Vertex} (hv : g.has v)
    (h : SameChain g v w) : SameChain g w v := by
  induction h with
  | refl => exact Relation.ReflTransGen.refl
  | tail hpath hstep ih =>
    next p q =>
      have hgetp : g.get p = g.get v := sameChain_get hpath
      have hhasp : g.has p := sameChain_has hv hpath
      have hstep' : Adjacent q p ∧ g.has p ∧ g.get p = g.get q := by
        refine ⟨adjacent_symm hstep.1, hhasp, ?_⟩
        rw [hgetp, hstep.2.2]
      refine Relation.ReflTransGen.head hstep' ?_
      exact (sameChain_anchor (by rw [hgetp, hstep.2.2])).mp ih

end GoGame

/-! ### Correctness of `hasLiberties` -/

namespace GoGame

lemma hasLibGo_sound (g : GoGame) : ∀ fuel : Nat,
    (∀ (v : Vertex) (vis : List Vertex),
      (g.hasLibGo fuel (.vert v) vis).1 = true → HasLibSem g v) ∧
    (∀ (l vis : List Vertex),
      (g.hasLibGo fuel (.scan l) vis).1 = true → ∃ n ∈ l, HasLibSem g n) := by
  intro fuel
  induction fuel with
  | zero =>
    constructor
    · intro v vis h; rw [hasLibGo] at h; exact absurd h (by simp)
    · intro l vis h; rw [hasLibGo] at h; exact absurd h (by simp)
  | succ fuel ih =>
    constructor
    · intro v vis h
      rw [hasLibGo] at h
      split at h
      · exact absurd h (by simp)
      · split at h
        · exact absurd h (by simp)
        · split at h
          · next hbase hvis hany =>
            push_neg at hbase
            obtain ⟨n, hn, hget⟩ := List.any_eq_true.mp hany
            refine ⟨hbase.1, hbase.2, n, v, Relation.ReflTransGen.refl,
              (mem_getNeighbors.mp hn).2.1, (mem_getNeighbors.mp hn).2.2, ?_⟩
            simpa using hget
          · next hbase hvis hany =>
            push_neg at hbase
            obtain ⟨n, hn, hlibn⟩ := ih.2 _ _ h
            have hn' := List.mem_filter.mp hn
            have hgetn : g.get n = g.get v := by simpa using hn'.2
            obtain ⟨hhasn, -, u, w', hchain, hadj, hhasu, hgetu⟩ := hlibn
            refine ⟨hbase.1, hbase.2, u, w', ?_, hadj, hhasu, hgetu⟩
            refine sameChain_trans (Relation.ReflTransGen.single ?_) hchain
            exact ⟨(mem_getNeighbors.mp hn'.1).2.1, (mem_getNeighbors.mp hn'.1).2.2, hgetn⟩
    · intro l vis h
      cases l with
      | nil => rw [hasLibGo] at h; exact absurd h (by simp)
      | cons n ns =>
        rw [hasLibGo] at h
        rcases hm : g.hasLibGo fuel (.vert n) vis with ⟨b₁, vis₁⟩
        rw [hm] at h
        cases b₁ with
        | true => exact ⟨n, List.mem_cons_self n ns, ih.1 n vis (by rw [hm])⟩
        | false =>
          simp only at h
          obtain ⟨n', hn', hlib⟩ := ih.2 ns vis₁ h
          exact ⟨n', List.mem_cons_of_mem _ hn', hlib⟩

end GoGame

namespace GoGame

lemma hasLibGo_false (g : GoGame) : ∀ fuel : Nat,
    (∀ (v : Vertex) (vis : List Vertex) (b : Bool) (vis' : List Vertex),
      6 * missingCount g vis + 2 ≤ fuel →
      g.hasLibGo fuel (.vert v) vis = (b, vis') → b = false →
      (∃ ext, vis' = vis ++ ext) ∧
      (∀ x ∈ vis', x ∉ vis →
        Marked g x ∧ ∀ n ∈ g.getNeighbors x, g.get n = g.get x → n ∈ vis') ∧
      (g.has v → g.get v ≠ some 0 → v ∉ vis → v ∈ vis')) ∧
    (∀ (l vis : List Vertex) (b : Bool) (vis' : List Vertex),
      6 * missingCount g vis + l.length + 2 ≤ fuel →
      g.hasLibGo fuel (.scan l) vis = (b, vis') → b = false →
      (∃ ext, vis' = vis ++ ext) ∧
      (∀ x ∈ vis', x ∉ vis →
        Marked g x ∧ ∀ n ∈ g.getNeighbors x, g.get n = g.get x → n ∈ vis') ∧
      (∀ n ∈ l, g.has n → g.get n ≠ some 0 → n ∉ vis → n ∈ vis')) := by
  intro fuel
  induction fuel with
  | zero => exact ⟨fun v vis b vis' hfuel => by omega, fun l vis b vis' hfuel => by omega⟩
  | succ fuel ih =>
    constructor
    · intro v vis b vis' hfuel heq hb
      rw [hasLibGo] at heq
      split at heq
      · next hbase =>
        obtain ⟨-, rfl⟩ := Prod.mk.inj heq
        refine ⟨⟨[], by simp⟩, fun x hx hxv => absurd hx hxv, fun hhas hocc _ => ?_⟩
        exact absurd hbase (by simp [hhas, hocc])
      · next hbase =>
        split at heq
        · next hvis =>
          obtain ⟨-, rfl⟩ := Prod.mk.inj heq
          exact ⟨⟨[], by simp⟩, fun x hx hxv => absurd hx hxv,
            fun _ _ hnv => absurd hvis hnv⟩
        · next hvis =>
          split at heq
          · next hany =>
            obtain ⟨hbf, -⟩ := Prod.mk.inj heq
            exact absurd (hb ▸ hbf) (by simp)
          · next hany =>
            push_neg at hbase
            have hm := missingCount_push hbase.1 hvis
            have hflen : ((g.getNeighbors v).filter
                (fun n => decide (g.get n = g.get v))).length ≤ 4 :=
              le_trans (List.length_filter_le _ _) (g.getNeighbors_length_le v)
            have hreq : 6 * missingCount g (vis ++ [v]) +
                ((g.getNeighbors v).filter (fun n => decide (g.get n = g.get v))).length + 2 ≤
                fuel := by omega
            obtain ⟨⟨ext, hext⟩, hclose, hlist⟩ := ih.2 _ _ b vis' hreq heq hb
            have hsub : ∀ x ∈ vis ++ [v], x ∈ vis' := by
              rw [hext]; exact fun x hx => List.mem_append_left _ hx
            have hnoempty : ∀ n ∈ g.getNeighbors v, g.get n ≠ some 0 := by
              intro n hn hg0
              exact hany (List.any_eq_true.mpr ⟨n, hn, by simp [hg0]⟩)
            refine ⟨⟨[v] ++ ext, by rw [hext, List.append_assoc]⟩, ?_, ?_⟩
            · intro x hx hxvis
              by_cases hxv : x = v
              · subst x
                refine ⟨⟨hbase.1, hbase.2, hnoempty⟩, ?_⟩
                intro n hn hgetn
                by_cases hnin : n ∈ vis ++ [v]
                · exact hsub n hnin
                · refine hlist n (List.mem_filter.mpr ⟨hn, by simp [hgetn]⟩)
                    (has_of_mem_getNeighbors hn) (by rw [hgetn]; exact hbase.2) hnin
              · refine hclose x hx ?_
                intro hmem
                rcases List.mem_append.mp hmem with h | h
                · exact hxvis h
                · exact hxv (List.mem_singleton.mp h)
            · intro _ _ _
              exact hsub v (List.mem_append_right _ (by simp))
    · intro l vis b vis' hfuel heq hb
      cases l with
      | nil =>
        rw [hasLibGo] at heq
        obtain ⟨-, rfl⟩ := Prod.mk.inj heq
        exact ⟨⟨[], by simp⟩, fun x hx hxv => absurd hx hxv,
          fun n hn => absurd hn (List.not_mem_nil n)⟩
      | cons n ns =>
        rw [hasLibGo] at heq
        rcases hm : g.hasLibGo fuel (.vert n) vis with ⟨b₁, vis₁⟩
        rw [hm] at heq
        cases b₁ with
        | true =>
          obtain ⟨hbf, -⟩ := Prod.mk.inj heq
          exact absurd (hb ▸ hbf) (by simp)
        | false =>
          simp only at heq
          simp only [List.length_cons] at hfuel
          obtain ⟨⟨ext₁, hext₁⟩, hclose₁, hon₁⟩ :=
            ih.1 n vis false vis₁ (by omega) hm rfl
          have hm₁ : missingCount g vis₁ ≤ missingCount g vis :=
            missingCount_mono (by rw [hext₁]; exact fun x hx => List.mem_append_left _ hx)
          obtain ⟨⟨ext₂, hext₂⟩, hclose₂, hlist₂⟩ :=
            ih.2 ns vis₁ b vis' (by omega) heq hb
          have hsub₂ : ∀ x ∈ vis₁, x ∈ vis' := by
            rw [hext₂]; exact fun x hx => List.mem_append_left _ hx
          refine ⟨⟨ext₁ ++ ext₂, by rw [hext₂, hext₁, List.append_assoc]⟩, ?_, ?_⟩
          · intro x hx hxvis
            by_cases hx₁ : x ∈ vis₁
            · obtain ⟨hmk, hclo⟩ := hclose₁ x hx₁ hxvis
              exact ⟨hmk, fun m hmn hg => hsub₂ _ (hclo m hmn hg)⟩
            · exact hclose₂ x hx hx₁
          · intro n' hn' hhas hocc hnvis
            rcases List.mem_cons.mp hn' with h | h
            · subst h
              exact hsub₂ _ (hon₁ hhas hocc hnvis)
            · by_cases hn₁ : n' ∈ vis₁
              · exact hsub₂ _ hn₁
              · exact hlist₂ n' h hhas hocc hn₁

end GoGame

namespace GoGame

lemma hasLiberties_true_iff (g : GoGame) (v : Vertex) :
    g.hasLiberties v = true ↔ HasLibSem g v := by
  constructor
  · intro h
    exact (hasLibGo_sound g _).1 v [] h
  · intro hsem
    by_contra hfalse
    rw [Bool.not_eq_true] at hfalse
    unfold hasLiberties at hfalse
    rcases hres : g.hasLibGo (6 * (g.width * g.height + 1)) (.vert v) [] with ⟨b, vis'⟩
    rw [hres] at hfalse
    simp only at hfalse
    subst hfalse
    have hfuel : 6 * missingCount g ([] : List Vertex) + 2 ≤
        6 * (g.width * g.height + 1) := by
      have := missingCount_le g []
      omega
    obtain ⟨-, hclose, hon⟩ :=
      (hasLibGo_false g _).1 v [] false vis' hfuel hres rfl
    obtain ⟨hhas, hocc, u, w', hchain, hadj, hhasu, hgetu⟩ := hsem
    have hvin : v ∈ vis' := hon hhas hocc (List.not_mem_nil v)
    have hchain_in : ∀ x, SameChain g v x → x ∈ vis' := by
      intro x hx
      induction hx with
      | refl => exact hvin
      | tail hpath hstep ih =>
        next p q =>
          obtain ⟨hmk, hclo⟩ := hclose p ih (List.not_mem_nil p)
          refine hclo q (mem_getNeighbors.mpr ⟨hmk.1, hstep.1, hstep.2.1⟩) ?_
          rw [hstep.2.2, sameChain_get hpath]
    obtain ⟨hmk, -⟩ := hclose w' (hchain_in w' hchain) (List.not_mem_nil w')
    exact hmk.2.2 u (mem_getNeighbors.mpr ⟨hmk.1, hadj, hhasu⟩) hgetu

lemma hasLiberties_false_iff (g : GoGame) (v : Vertex) :
    g.hasLiberties v = false ↔ ¬ HasLibSem g v := by
  rw [← hasLiberties_true_iff, Bool.not_eq_true]

end GoGame

/-! ### Correctness of `getLiberties` -/

namespace GoGame

lemma getLiberties_fold_mem (g : GoGame) :
    ∀ (cs : List Vertex) (A D : List Vertex) (u : Vertex),
      (u ∈ (cs.foldl (fun acc c =>
          let free := (g.getNeighbors c).filter (fun n => decide (g.get n = some 0))
          (acc.1 ++ free.filter (fun n => n ∉ acc.2), acc.2 ++ free)) (A, D)).1 ↔
        u ∈ A ∨ ∃ c ∈ cs,
          u ∈ (g.getNeighbors c).filter (fun n => decide (g.get n = some 0)) ∧ u ∉ D) := by
  intro cs
  induction cs with
  | nil => simp
  | cons c cs ih =>
    intro A D u
    simp only [List.foldl_cons]
    rw [ih]
    constructor
    · intro h
      rcases h with h | ⟨c', hc', hu, hnotin⟩
      · rcases List.mem_append.mp h with h | h
        · exact Or.inl h
        · have h' := List.mem_filter.mp h
          exact Or.inr ⟨c, List.mem_cons_self c cs, h'.1, by simpa using h'.2⟩
      · refine Or.inr ⟨c', List.mem_cons_of_mem _ hc', hu, fun hD => hnotin ?_⟩
        exact List.mem_append_left _ hD
    · intro h
      rcases h with h | ⟨c', hc', hu, hnotin⟩
      · exact Or.inl (List.mem_append_left _ h)
      · rcases List.mem_cons.mp hc' with h | h
        · subst h
          by_cases hD : u ∈ D
          · exact absurd hD hnotin
          · exact Or.inl (List.mem_append_right _ (List.mem_filter.mpr ⟨hu, by simpa⟩))
        · by_cases hfree : u ∈ (g.getNeighbors c).filter (fun n => decide (g.get n = some 0))
          · exact Or.inl (List.mem_append_right _ (List.mem_filter.mpr ⟨hfree, by simpa⟩))
          · refine Or.inr ⟨c', h, hu, fun hD => ?_⟩
            rcases List.mem_append.mp hD with h' | h'
            · exact hnotin h'
            · exact hfree h'

lemma getLiberties_fold_nodup (g : GoGame) :
    ∀ (cs : List Vertex) (A D : List Vertex),
      A.Nodup → (∀ x ∈ A, x ∈ D) →
      ((cs.foldl (fun acc c =>
          let free := (g.getNeighbors c).filter (fun n => decide (g.get n = some 0))
          (acc.1 ++ free.filter (fun n => n ∉ acc.2), acc.2 ++ free)) (A, D)).1).Nodup := by
  intro cs
  induction cs with
  | nil => intro A D hA _; simpa using hA
  | cons c cs ih =>
    intro A D hA hAD
    simp only [List.foldl_cons]
    refine ih _ _ ?_ ?_
    · rw [List.nodup_append]
      refine ⟨hA, ?_, ?_⟩
      · exact List.Nodup.filter _ (List.Nodup.filter _ (g.getNeighbors_nodup c))
      · intro x hx hx'
        have := (List.mem_filter.mp hx').2
        simp only [decide_not, Bool.not_eq_true', decide_eq_false_iff_not] at this
        exact this (hAD x hx)
    · intro x hx
      rcases List.mem_append.mp hx with h | h
      · exact List.mem_append_left _ (hAD x h)
      · exact List.mem_append_right _ (List.mem_filter.mp h).1

lemma mem_getLiberties {g : GoGame} {v : Vertex} (hv : g.has v)
    (hocc : g.get v ≠ some 0) (u : Vertex) :
    u ∈ g.getLiberties v ↔ IsLiberty g v u := by
  unfold getLiberties
  rw [if_neg (by simp [hv, hocc])]
  rw [getLiberties_fold_mem]
  simp only [List.not_mem_nil, or_false, false_or]
  constructor
  · rintro ⟨c, hc, hu, -⟩
    have hchain := (mem_getChain hv c).mp hc
    obtain ⟨-, hadj, hhasu⟩ := mem_getNeighbors.mp (List.mem_filter.mp hu).1
    exact ⟨c, hchain, hadj, hhasu, by simpa using (List.mem_filter.mp hu).2⟩
  · rintro ⟨w', hchain, hadj, hhasu, hgetu⟩
    refine ⟨w', (mem_getChain hv w').mpr hchain, ?_, by simp⟩
    refine List.mem_filter.mpr ⟨?_, by simpa using hgetu⟩
    exact mem_getNeighbors.mpr ⟨sameChain_has hv hchain, hadj, hhasu⟩

lemma getLiberties_nodup (g : GoGame) (v : Vertex) : (g.getLiberties v).Nodup := by
  unfold getLiberties
  split
  · exact List.nodup_nil
  · exact getLiberties_fold_nodup g _ [] [] List.nodup_nil (by simp)

lemma getLiberties_eq_nil_of_triv {g : GoGame} {v : Vertex}
    (h : ¬ g.has v ∨ g.get v = some 0) : g.getLiberties v = [] := by
  unfold getLiberties
  rw [if_pos h]

lemma getLiberties_eq_nil_iff {g : GoGame} {v : Vertex} (hv : g.has v)
    (hocc : g.get v ≠ some 0) :
    g.getLiberties v = [] ↔ ¬ HasLibSem g v := by
  constructor
  · intro h hsem
    obtain ⟨-, -, u, hu⟩ := hsem
    have := (mem_getLiberties hv hocc u).mpr hu
    rw [h] at this
    exact List.not_mem_nil u this
  · intro hsem
    rcases hnil : g.getLiberties v with - | ⟨u, us⟩
    · rfl
    · exfalso
      have hu : u ∈ g.getLiberties v := by rw [hnil]; exact List.mem_cons_self u us
      exact hsem ⟨hv, hocc, u, (mem_getLiberties hv hocc u).mp hu⟩

end GoGame

/-- C10: for every well-formed board and every vertex `v`, the boolean
query `hasLiberties(v)` answers `true` exactly when `getLiberties(v)`
returns a non-empty list; in particular both agree (`false` / `[]`) when
`v` is off the board or its cell is empty. -/
theorem C10_hasLiberties_iff_getLiberties (g : GoGame) (hWF : WellFormed g) (v : Vertex) :
    (g.hasLiberties v = true ↔ g.getLiberties v ≠ []) ∧
    ((¬ g.has v ∨ g.get v = some 0) →
      g.hasLiberties v = false ∧ g.getLiberties v = []) := by
  have htrivial : ∀ h : ¬ g.has v ∨ g.get v = some 0,
      g.hasLiberties v = false ∧ g.getLiberties v = [] := by
    intro h
    refine ⟨(g.hasLiberties_false_iff v).mpr ?_, GoGame.getLiberties_eq_nil_of_triv h⟩
    rintro ⟨h1, h2, -⟩
    rcases h with h | h
    · exact h h1
    · exact h2 h
  constructor
  · by_cases h : g.has v ∧ g.get v ≠ some 0
    · rw [g.hasLiberties_true_iff, Ne, GoGame.getLiberties_eq_nil_iff h.1 h.2, not_not]
    · have h' : ¬ g.has v ∨ g.get v = some 0 := by
        by_cases h1 : g.has v
        · by_cases h2 : g.get v = some 0
          · exact Or.inr h2
          · exact absurd ⟨h1, h2⟩ h
        · exact Or.inl h1
      obtain ⟨hf, hnil⟩ := htrivial h'
      rw [hf, hnil]
      simp
  · exact htrivial

/-- Witness for C10 at a concrete board and vertex. -/
theorem C10_witness :
    WellFormed (GoGame.mk [[1, 0], [0, 0]] 2 2 (0, 0) ⟨0, (-1, -1)⟩) ∧
    (((GoGame.mk [[1, 0], [0, 0]] 2 2 (0, 0) ⟨0, (-1, -1)⟩).hasLiberties (0, 0) = true ↔
      (GoGame.mk [[1, 0], [0, 0]] 2 2 (0, 0) ⟨0, (-1, -1)⟩).getLiberties (0, 0) ≠ []) ∧
     ((¬ (GoGame.mk [[1, 0], [0, 0]] 2 2 (0, 0) ⟨0, (-1, -1)⟩).has (0, 0) ∨
       (GoGame.mk [[1, 0], [0, 0]] 2 2 (0, 0) ⟨0, (-1, -1)⟩).get (0, 0) = some 0) →
      (GoGame.mk [[1, 0], [0, 0]] 2 2 (0, 0) ⟨0, (-1, -1)⟩).hasLiberties (0, 0) = false ∧
      (GoGame.mk [[1, 0], [0, 0]] 2 2 (0, 0) ⟨0, (-1, -1)⟩).getLiberties (0, 0) = [])) :=
  ⟨by decide, C10_hasLiberties_iff_getLiberties _ (by decide) (0, 0)⟩

/-! ### The capture loop -/

namespace GoGame

lemma wellFormed_setCapturesWith {g : GoGame} (hWF : WellFormed g) (s : Int)
    (f : Nat → Nat) : WellFormed (g.setCapturesWith s f) := by
  unfold WellFormed at *
  rw [setCapturesWith_signMap, setCapturesWith_width, setCapturesWith_height]
  exact hWF

lemma getCaptures_set (g : GoGame) (v : Vertex) (s t : Int) :
    (g.set v s).getCaptures t = g.getCaptures t := by
  unfold getCaptures
  rw [set_captures]

lemma removeChainFold_get {s' : Int} :
    ∀ (cs : List Vertex) (b : GoGame), WellFormed b → (∀ c ∈ cs, b.has c) →
      ∀ w, (b.removeChainFold s' cs).get w = if w ∈ cs then some 0 else b.get w := by
  intro cs
  induction cs with
  | nil => intro b _ _ w; simp [removeChainFold]
  | cons c cs ih =>
    intro b hWF hcs w
    have hWF1 : WellFormed ((b.set c 0).setCapturesWith s' (fun x => x + 1)) :=
      wellFormed_setCapturesWith (wellFormed_set hWF c (Or.inl rfl)) _ _
    have hcs1 : ∀ x ∈ cs, ((b.set c 0).setCapturesWith s' (fun x => x + 1)).has x := by
      intro x hx
      rw [has_setCapturesWith, has_set]
      exact hcs x (List.mem_cons_of_mem _ hx)
    have hstep : b.removeChainFold s' (c :: cs) =
        ((b.set c 0).setCapturesWith s' (fun x => x + 1)).removeChainFold s' cs := by
      simp [removeChainFold]
    rw [hstep, ih _ hWF1 hcs1 w]
    by_cases hw : w ∈ cs
    · simp [hw, List.mem_cons_of_mem]
    · rw [if_neg hw, get_setCapturesWith]
      by_cases hwc : w = c
      · subst hwc
        rw [get_set_self hWF (hcs w (List.mem_cons_self w cs)) 0]
        simp
      · rw [get_set_ne hWF 0 hwc]
        simp [hw, hwc]

lemma removeChainFold_width (s' : Int) :
    ∀ (cs : List Vertex) (b : GoGame), (b.removeChainFold s' cs).width = b.width := by
  intro cs
  induction cs with
  | nil => intro b; simp [removeChainFold]
  | cons c cs ih =>
    intro b
    have hstep : b.removeChainFold s' (c :: cs) =
        ((b.set c 0).setCapturesWith s' (fun x => x + 1)).removeChainFold s' cs := by
      simp [removeChainFold]
    rw [hstep, ih, setCapturesWith_width, set_width]

lemma removeChainFold_height (s' : Int) :
    ∀ (cs : List Vertex) (b : GoGame), (b.removeChainFold s' cs).height = b.height := by
  intro cs
  induction cs with
  | nil => intro b; simp [removeChainFold]
  | cons c cs ih =>
    intro b
    have hstep : b.removeChainFold s' (c :: cs) =
        ((b.set c 0).setCapturesWith s' (fun x => x + 1)).removeChainFold s' cs := by
      simp [removeChainFold]
    rw [hstep, ih, setCapturesWith_height, set_height]

lemma removeChainFold_koInfo (s' : Int) :
    ∀ (cs : List Vertex) (b : GoGame), (b.removeChainFold s' cs).koInfo = b.koInfo := by
  intro cs
  induction cs with
  | nil => intro b; simp [removeChainFold]
  | cons c cs ih =>
    intro b
    have hstep : b.removeChainFold s' (c :: cs) =
        ((b.set c 0).setCapturesWith s' (fun x => x + 1)).removeChainFold s' cs := by
      simp [removeChainFold]
    rw [hstep, ih, setCapturesWith_koInfo, set_koInfo]

lemma removeChainFold_wellFormed {s' : Int} :
    ∀ (cs : List Vertex) (b : GoGame), WellFormed b →
      WellFormed (b.removeChainFold s' cs) := by
  intro cs
  induction cs with
  | nil => intro b h; simpa [removeChainFold] using h
  | cons c cs ih =>
    intro b hWF
    have hstep : b.removeChainFold s' (c :: cs) =
        ((b.set c 0).setCapturesWith s' (fun x => x + 1)).removeChainFold s' cs := by
      simp [removeChainFold]
    rw [hstep]
    exact ih _ (wellFormed_setCapturesWith (wellFormed_set hWF c (Or.inl rfl)) _ _)

lemma removeChainFold_captures_same {s' : Int} (hs' : s' = 1 ∨ s' = -1) :
    ∀ (cs : List Vertex) (b : GoGame),
      (b.removeChainFold s' cs).getCaptures s' = b.getCaptures s' + cs.length := by
  intro cs
  induction cs with
  | nil => intro b; simp [removeChainFold]
  | cons c cs ih =>
    intro b
    have hstep : b.removeChainFold s' (c :: cs) =
        ((b.set c 0).setCapturesWith s' (fun x => x + 1)).removeChainFold s' cs := by
      simp [removeChainFold]
    rw [hstep, ih, getCaptures_setCapturesWith_same _ _ hs', getCaptures_set]
    simp [List.length_cons]
    omega

lemma removeChainFold_captures_other {s' t : Int} (hts : t ≠ s') :
    ∀ (cs : List Vertex) (b : GoGame),
      (b.removeChainFold s' cs).getCaptures t = b.getCaptures t := by
  intro cs
  induction cs with
  | nil => intro b; simp [removeChainFold]
  | cons c cs ih =>
    intro b
    have hstep : b.removeChainFold s' (c :: cs) =
        ((b.set c 0).setCapturesWith s' (fun x => x + 1)).removeChainFold s' cs := by
      simp [removeChainFold]
    rw [hstep, ih, getCaptures_setCapturesWith_other _ _ hts, getCaptures_set]

lemma mem_deadNbrs {m : GoGame} {opp : Int} {v n : Vertex} :
    n ∈ m.deadNbrs opp v ↔
      n ∈ m.getNeighbors v ∧ m.get n = some opp ∧ ¬ HasLibSem m n := by
  unfold deadNbrs
  rw [List.mem_filter]
  constructor
  · intro ⟨h1, h2⟩
    simp only [Bool.and_eq_true, decide_eq_true_eq, Bool.not_eq_true'] at h2
    exact ⟨h1, h2.1, (m.hasLiberties_false_iff n).mp h2.2⟩
  · intro ⟨h1, h2, h3⟩
    refine ⟨h1, ?_⟩
    simp only [Bool.and_eq_true, decide_eq_true_eq, Bool.not_eq_true']
    exact ⟨h2, (m.hasLiberties_false_iff n).mpr h3⟩

end GoGame

namespace GoGame

lemma has_congr {b m : GoGame} (hW : b.width = m.width) (hH : b.height = m.height)
    (w : Vertex) : b.has w ↔ m.has w := by
  unfold has; rw [hW, hH]

/-- Removing whole opposite-coloured chains (the set `ds`) from `m` leaves
the chain of any surviving opposite-coloured stone untouched. -/
lemma sameChain_stable {m b : GoGame} {opp : Int} {ds : List Vertex} {n : Vertex}
    (hWFm : WellFormed m)
    (hhas : ∀ w, b.has w ↔ m.has w)
    (hz : ∀ w ∈ ds, b.get w = some 0)
    (hnz : ∀ w, w ∉ ds → b.get w = m.get w)
    (hclosed : ∀ w ∈ ds, ∀ u, SameChain m w u → u ∈ ds)
    (hopp : opp ≠ 0)
    (hbn : b.get n = some opp) :
    ∀ w, SameChain b n w ↔ SameChain m n w := by
  have hnds : n ∉ ds := by
    intro hmem
    rw [hz n hmem] at hbn
    exact hopp (by simpa using hbn.symm)
  have hmn : m.get n = some opp := by rw [← hnz n hnds]; exact hbn
  have hhasn : m.has n := has_of_get_eq_some hWFm hmn
  have hnotin : ∀ w, SameChain m n w → w ∉ ds := by
    intro w hw hwds
    exact hnds (hclosed w hwds n (sameChain_symm hhasn hw))
  intro w
  constructor
  · intro h
    induction h with
    | refl => exact Relation.ReflTransGen.refl
    | tail hpath hstep ih =>
      next p q =>
        have hq : b.get q = some opp := by rw [hstep.2.2, hbn]
        have hqds : q ∉ ds := by
          intro hmem
          rw [hz q hmem] at hq
          exact hopp (by simpa using hq.symm)
        refine Relation.ReflTransGen.tail ih ⟨hstep.1, (hhas q).mp hstep.2.1, ?_⟩
        rw [← hnz q hqds, hq, hmn]
  · intro h
    induction h with
    | refl => exact Relation.ReflTransGen.refl
    | tail hpath hstep ih =>
      next p q =>
        have hfull : SameChain m n q := Relation.ReflTransGen.tail hpath hstep
        have hqds : q ∉ ds := hnotin q hfull
        refine Relation.ReflTransGen.tail ih ⟨hstep.1, (hhas q).mpr hstep.2.1, ?_⟩
        rw [hnz q hqds, hstep.2.2, hmn, hbn]

/-- The capture loop preserves its invariant, only grows `deadStones`, and
ends with every processed dead neighbour removed. -/
lemma captureFold_inv {m : GoGame} {s' opp : Int} (hWFm : WellFormed m)
    (hs' : s' = 1 ∨ s' = -1) (hopp : opp ≠ 0) (dl : List Vertex) :
    ∀ (l : List Vertex) (b : GoGame) (ds : List Vertex),
      (∀ x ∈ l, x ∈ dl ∧ m.get x = some opp) →
      CapInv m s' opp dl b ds →
      CapInv m s' opp dl
        (l.foldl (fun acc n =>
          if acc.1.get n = some 0 then acc
          else
            let chain := acc.1.getChain n
            (acc.1.removeChainFold s' chain, acc.2 ++ chain)) (b, ds)).1
        (l.foldl (fun acc n =>
          if acc.1.get n = some 0 then acc
          else
            let chain := acc.1.getChain n
            (acc.1.removeChainFold s' chain, acc.2 ++ chain)) (b, ds)).2 ∧
      (∀ x ∈ ds, x ∈ (l.foldl (fun acc n =>
          if acc.1.get n = some 0 then acc
          else
            let chain := acc.1.getChain n
            (acc.1.removeChainFold s' chain, acc.2 ++ chain)) (b, ds)).2) ∧
      (∀ x ∈ l, x ∈ (l.foldl (fun acc n =>
          if acc.1.get n = some 0 then acc
          else
            let chain := acc.1.getChain n
            (acc.1.removeChainFold s' chain, acc.2 ++ chain)) (b, ds)).2) := by
  intro l
  induction l with
  | nil =>
    intro b ds _ hInv
    exact ⟨hInv, fun x hx => hx, fun x hx => absurd hx (List.not_mem_nil x)⟩
  | cons n l ih =>
    intro b ds hl hInv
    obtain ⟨hz, hnz, hnd, hoppds, hclosed, hprov, hW, hH, hK, hWFb, hcap, hcapo⟩ := hInv
    have hhasiff : ∀ w, b.has w ↔ m.has w := has_congr hW hH
    obtain ⟨hndl, hmn⟩ := hl n (List.mem_cons_self n l)
    simp only [List.foldl_cons]
    by_cases hskip : b.get n = some 0
    · rw [if_pos hskip]
      have hnds : n ∈ ds := by
        by_contra hnotin
        rw [hnz n hnotin, hmn] at hskip
        exact hopp (by simpa using hskip)
      have := ih b ds (fun x hx => hl x (List.mem_cons_of_mem _ hx))
        ⟨hz, hnz, hnd, hoppds, hclosed, hprov, hW, hH, hK, hWFb, hcap, hcapo⟩
      exact ⟨this.1, this.2.1, fun x hx => by
        rcases List.mem_cons.mp hx with h | h
        · subst h; exact this.2.1 x hnds
        · exact this.2.2 x h⟩
    · rw [if_neg hskip]
      have hnds : n ∉ ds := fun hmem => hskip (hz n hmem)
      have hbn : b.get n = some opp := by rw [hnz n hnds, hmn]
      have hbhasn : b.has n := (hhasiff n).mpr (has_of_get_eq_some hWFm hmn)
      have hmhasn : m.has n := has_of_get_eq_some hWFm hmn
      have hstab := sameChain_stable hWFm hhasiff hz hnz hclosed hopp hbn
      have hmemchain : ∀ w, w ∈ b.getChain n ↔ SameChain m n w := by
        intro w
        rw [mem_getChain hbhasn, hstab]
      have hchainhasb : ∀ c ∈ b.getChain n, b.has c := by
        intro c hc
        exact (hhasiff c).mpr (sameChain_has hmhasn ((hmemchain c).mp hc))
      have hdisj : ∀ w ∈ b.getChain n, w ∉ ds := by
        intro w hw hwds
        exact hnds (hclosed w hwds n (sameChain_symm hmhasn ((hmemchain w).mp hw)))
      have hget' := @removeChainFold_get s' (b.getChain n) b hWFb hchainhasb
      have hInv' : CapInv m s' opp dl (b.removeChainFold s' (b.getChain n))
          (ds ++ b.getChain n) := by
        refine ⟨?_, ?_, ?_, ?_, ?_, ?_, ?_, ?_, ?_, ?_, ?_, ?_⟩
        · intro w hw
          rcases List.mem_append.mp hw with h | h
          · rw [hget' w]
            split
            · rfl
            · exact hz w h
          · rw [hget' w, if_pos h]
        · intro w hw
          rw [List.mem_append] at hw
          push_neg at hw
          rw [hget' w, if_neg hw.2]
          exact hnz w hw.1
        · rw [List.nodup_append]
          exact ⟨hnd, getChain_nodup b n, fun x hx hx' => hdisj x hx' hx⟩
        · intro w hw
          rcases List.mem_append.mp hw with h | h
          · exact hoppds w h
          · rw [sameChain_get ((hmemchain w).mp h), hmn]
        · intro w hw u hu
          rcases List.mem_append.mp hw with h | h
          · exact List.mem_append_left _ (hclosed w h u hu)
          · refine List.mem_append_right _ ((hmemchain u).mpr ?_)
            exact sameChain_trans ((hmemchain w).mp h) hu
        · intro w hw
          rcases List.mem_append.mp hw with h | h
          · exact hprov w h
          · exact ⟨n, hndl, (hmemchain w).mp h⟩
        · rw [removeChainFold_width, hW]
        · rw [removeChainFold_height, hH]
        · rw [removeChainFold_koInfo, hK]
        · exact removeChainFold_wellFormed _ _ hWFb
        · rw [removeChainFold_captures_same hs', hcap, List.length_append]
          omega
        · intro t ht
          rw [removeChainFold_captures_other ht, hcapo t ht]
      have := ih _ _ (fun x hx => hl x (List.mem_cons_of_mem _ hx)) hInv'
      refine ⟨this.1, ?_, ?_⟩
      · intro x hx
        exact this.2.1 x (List.mem_append_left _ hx)
      · intro x hx
        rcases List.mem_cons.mp hx with h | h
        · subst h
          refine this.2.1 x (List.mem_append_right _ ?_)
          exact (hmemchain x).mpr Relation.ReflTransGen.refl
        · exact this.2.2 x h

end GoGame

/-! ### Glue lemmas for `makeMove` -/

lemma normalizeSign_cases (s : Int) : normalizeSign s = 1 ∨ normalizeSign s = -1 := by
  unfold normalizeSign; split <;> simp

lemma oppositeOf_cases (s : Int) : oppositeOf s = 1 ∨ oppositeOf s = -1 := by
  unfold oppositeOf; split <;> simp

lemma oppositeOf_ne_zero (s : Int) : oppositeOf s ≠ 0 := by
  rcases oppositeOf_cases s with h | h <;> rw [h] <;> decide

lemma oppositeOf_ne_self {s : Int} (hs : s = 1 ∨ s = -1) : oppositeOf s ≠ s := by
  rcases hs with h | h <;> subst h <;> unfold oppositeOf <;> decide

lemma normalizeSign_ne_zero (s : Int) : normalizeSign s ≠ 0 := by
  rcases normalizeSign_cases s with h | h <;> rw [h] <;> decide

namespace GoGame

lemma setKoInfo_get (g : GoGame) (k : KoInfo) (w : Vertex) :
    (g.setKoInfo k).get w = g.get w := rfl

lemma setKoInfo_has (g : GoGame) (k : KoInfo) (w : Vertex) :
    (g.setKoInfo k).has w ↔ g.has w := Iff.rfl

lemma setKoInfo_getCaptures (g : GoGame) (k : KoInfo) (t : Int) :
    (g.setKoInfo k).getCaptures t = g.getCaptures t := rfl

lemma setKoInfo_koInfo (g : GoGame) (k : KoInfo) : (g.setKoInfo k).koInfo = k := rfl

lemma setKoInfo_width (g : GoGame) (k : KoInfo) : (g.setKoInfo k).width = g.width := rfl

lemma setKoInfo_height (g : GoGame) (k : KoInfo) : (g.setKoInfo k).height = g.height := rfl

lemma wellFormed_setKoInfo {g : GoGame} (hWF : WellFormed g) (k : KoInfo) :
    WellFormed (g.setKoInfo k) := hWF

lemma afterPlace_eq {g : GoGame} (hWF : WellFormed g) (s' : Int) (v : Vertex) :
    g.afterPlace s' v = (g.set v s') := by
  unfold afterPlace
  rw [clone_eq hWF]

lemma afterPlace_wellFormed {g : GoGame} (hWF : WellFormed g) {s' : Int} (v : Vertex)
    (hs' : s' = 1 ∨ s' = -1) : WellFormed (g.afterPlace s' v) := by
  rw [afterPlace_eq hWF]
  exact wellFormed_set hWF v (Or.inr hs')

lemma afterPlace_has {g : GoGame} (hWF : WellFormed g) (s' : Int) (v w : Vertex) :
    (g.afterPlace s' v).has w ↔ g.has w := by
  rw [afterPlace_eq hWF]
  exact has_set g v s' w

lemma afterPlace_getCaptures {g : GoGame} (hWF : WellFormed g) (s' : Int) (v : Vertex)
    (t : Int) : (g.afterPlace s' v).getCaptures t = g.getCaptures t := by
  rw [afterPlace_eq hWF]
  exact getCaptures_set g v s' t

lemma afterPlace_get_self {g : GoGame} (hWF : WellFormed g) {v : Vertex} (hv : g.has v)
    (s' : Int) : (g.afterPlace s' v).get v = some s' := by
  rw [afterPlace_eq hWF]
  exact get_set_self hWF hv s'

/-- Dissection of a successful `makeMove`: the result is either the
post-capture board with the new ko record, or (when the suicide step
fired) that board with the mover's own chain removed. -/
lemma makeMove_ok_elim {g : GoGame} {s : Int} {v : Vertex} {opts : MoveOptions}
    {b' : GoGame} (hs : s ≠ 0) (hv : g.has v) (h : g.makeMove s v opts = .ok b') :
    (¬ ((g.afterCapture (normalizeSign s) v).2.length = 0 ∧
        ((g.afterCapture (normalizeSign s) v).1.getLiberties v).length = 0) ∧
      b' = (g.afterCapture (normalizeSign s) v).1.setKoInfo
        (detectKo (g.afterCapture (normalizeSign s) v).2
          ((g.afterCapture (normalizeSign s) v).1.getLiberties v)
          ((g.afterPlace (normalizeSign s) v).getNeighbors v)
          (g.afterCapture (normalizeSign s) v).1
          (normalizeSign s) (oppositeOf (normalizeSign s)))) ∨
    ((g.afterCapture (normalizeSign s) v).2.length = 0 ∧
      ((g.afterCapture (normalizeSign s) v).1.getLiberties v).length = 0 ∧
      opts.preventSuicide = false ∧
      b' = ((g.afterCapture (normalizeSign s) v).1.setKoInfo
        (detectKo (g.afterCapture (normalizeSign s) v).2
          ((g.afterCapture (normalizeSign s) v).1.getLiberties v)
          ((g.afterPlace (normalizeSign s) v).getNeighbors v)
          (g.afterCapture (normalizeSign s) v).1
          (normalizeSign s) (oppositeOf (normalizeSign s)))).removeChainFold
        (oppositeOf (normalizeSign s))
        (((g.afterCapture (normalizeSign s) v).1.setKoInfo
          (detectKo (g.afterCapture (normalizeSign s) v).2
            ((g.afterCapture (normalizeSign s) v).1.getLiberties v)
            ((g.afterPlace (normalizeSign s) v).getNeighbors v)
            (g.afterCapture (normalizeSign s) v).1
            (normalizeSign s) (oppositeOf (normalizeSign s)))).getChain v)) := by
  simp only [makeMove] at h
  rw [if_neg (by simp [hs, hv])] at h
  by_cases hov : opts.preventOverwrite = true ∧ jsTruthy (g.get v) = true
  · rw [if_pos hov] at h
    exact absurd h (by simp)
  · rw [if_neg hov] at h
    by_cases hko : opts.preventKo = true ∧ g.koInfo.sign = normalizeSign s ∧
        g.koInfo.vertex = v
    · rw [if_pos hko] at h
      exact absurd h (by simp)
    · rw [if_neg hko] at h
      by_cases hsui : (g.afterCapture (normalizeSign s) v).2.length = 0 ∧
          ((g.afterCapture (normalizeSign s) v).1.getLiberties v).length = 0
      · rw [if_pos hsui] at h
        by_cases hps : opts.preventSuicide = true
        · rw [if_pos hps] at h
          exact absurd h (by simp)
        · rw [if_neg hps] at h
          right
          exact ⟨hsui.1, hsui.2, by simpa using hps, (Except.ok.inj h).symm⟩
      · rw [if_neg hsui] at h
        left
        exact ⟨hsui, (Except.ok.inj h).symm⟩

end GoGame

namespace GoGame

/-- The capture-resolution step satisfies the capture invariant and its
`deadStones` list enumerates exactly the stones of the dead adjacent
opposite-coloured chains. -/
lemma afterCapture_spec {g : GoGame} (hWF : WellFormed g) {s' : Int}
    (hs' : s' = 1 ∨ s' = -1) (v : Vertex) :
    CapInv (g.afterPlace s' v) s' (oppositeOf s')
      ((g.afterPlace s' v).deadNbrs (oppositeOf s') v)
      (g.afterCapture s' v).1 (g.afterCapture s' v).2 ∧
    (∀ w, w ∈ (g.afterCapture s' v).2 ↔
      InDeadChain (g.afterPlace s' v) (oppositeOf s') v w) := by
  have hWFm := afterPlace_wellFormed hWF v hs'
  have hbase : CapInv (g.afterPlace s' v) s' (oppositeOf s')
      ((g.afterPlace s' v).deadNbrs (oppositeOf s') v) (g.afterPlace s' v) [] :=
    ⟨by simp, fun w _ => rfl, List.nodup_nil, by simp, by simp, by simp,
     rfl, rfl, rfl, hWFm, by simp, fun t _ => rfl⟩
  have hfold := captureFold_inv hWFm hs' (oppositeOf_ne_zero s')
    ((g.afterPlace s' v).deadNbrs (oppositeOf s') v)
    ((g.afterPlace s' v).deadNbrs (oppositeOf s') v) (g.afterPlace s' v) []
    (fun x hx => ⟨hx, (mem_deadNbrs.mp hx).2.1⟩) hbase
  refine ⟨hfold.1, fun w => ⟨?_, ?_⟩⟩
  · intro hw
    obtain ⟨n, hn, hchain⟩ := hfold.1.2.2.2.2.2.1 w hw
    obtain ⟨hnn, hget, hnolib⟩ := mem_deadNbrs.mp hn
    exact ⟨n, hnn, hget, hnolib, hchain⟩
  · rintro ⟨n, hnn, hget, hnolib, hchain⟩
    have hndl : n ∈ (g.afterPlace s' v).deadNbrs (oppositeOf s') v :=
      mem_deadNbrs.mpr ⟨hnn, hget, hnolib⟩
    have hnds := hfold.2.2 n hndl
    exact hfold.1.2.2.2.2.1 n hnds w hchain

end GoGame

/-- C1: a successful `makeMove` empties, in the returned snapshot, every
stone of every dead adjacent opposite-coloured chain of the placed board;
it leaves every other opposite-coloured stone in place; and it adds to the
mover's capture tally exactly the number of opposite-coloured stones that
went from stone to empty. -/
theorem C1_capture_resolution (g : GoGame) (hWF : WellFormed g) (s : Int) (hs : s ≠ 0)
    (v : Vertex) (hv : g.has v) (opts : MoveOptions) (b' : GoGame)
    (h : g.makeMove s v opts = .ok b') :
    (∀ w, InDeadChain (g.afterPlace (normalizeSign s) v)
        (oppositeOf (normalizeSign s)) v w → b'.get w = some 0) ∧
    (∀ w, (g.afterPlace (normalizeSign s) v).get w =
        some (oppositeOf (normalizeSign s)) →
      ¬ InDeadChain (g.afterPlace (normalizeSign s) v)
        (oppositeOf (normalizeSign s)) v w →
      b'.get w = some (oppositeOf (normalizeSign s))) ∧
    b'.getCaptures (normalizeSign s) = g.getCaptures (normalizeSign s) +
      (capturedFinset (g.afterPlace (normalizeSign s) v) b'
        (oppositeOf (normalizeSign s))).card := by
  have hs' := normalizeSign_cases s
  have hoppne := oppositeOf_ne_zero (normalizeSign s)
  have hoppself := oppositeOf_ne_self hs'
  have hWFm : WellFormed (g.afterPlace (normalizeSign s) v) :=
    GoGame.afterPlace_wellFormed hWF v hs'
  obtain ⟨hInv, hdsmem⟩ := GoGame.afterCapture_spec hWF hs' v
  obtain ⟨hz, hnz, hnd, hoppds, hclosed, hprov, hW, hH, hK, hWFmid, hcap, hcapo⟩ := hInv
  have hmcapt : ∀ t, (g.afterPlace (normalizeSign s) v).getCaptures t =
      g.getCaptures t :=
    fun t => GoGame.afterPlace_getCaptures hWF (normalizeSign s) v t
  have hdshas : ∀ w ∈ (g.afterCapture (normalizeSign s) v).2,
      (g.afterPlace (normalizeSign s) v).has w := by
    intro w hw
    obtain ⟨n, hn, hchain⟩ := hprov w hw
    exact GoGame.sameChain_has
      (GoGame.has_of_mem_getNeighbors (GoGame.mem_deadNbrs.mp hn).1) hchain
  rcases GoGame.makeMove_ok_elim hs hv h with ⟨hns, hb⟩ | ⟨hds0, hlib0, -, hb⟩
  · -- no suicide removal: b' is the post-capture board with the new ko record
    subst hb
    refine ⟨?_, ?_, ?_⟩
    · intro w hw
      rw [GoGame.setKoInfo_get]
      exact hz w ((hdsmem w).mpr hw)
    · intro w hopp hnot
      rw [GoGame.setKoInfo_get, hnz w (fun hmem => hnot ((hdsmem w).mp hmem))]
      exact hopp
    · rw [GoGame.setKoInfo_getCaptures, hcap, hmcapt]
      congr 1
      have hfs : capturedFinset (g.afterPlace (normalizeSign s) v)
          ((g.afterCapture (normalizeSign s) v).1.setKoInfo
            (GoGame.detectKo (g.afterCapture (normalizeSign s) v).2
              ((g.afterCapture (normalizeSign s) v).1.getLiberties v)
              ((g.afterPlace (normalizeSign s) v).getNeighbors v)
              (g.afterCapture (normalizeSign s) v).1 (normalizeSign s)
              (oppositeOf (normalizeSign s))))
          (oppositeOf (normalizeSign s)) =
          ((g.afterCapture (normalizeSign s) v).2).toFinset := by
        ext w
        unfold capturedFinset
        rw [Finset.mem_filter, GoGame.setKoInfo_get, List.mem_toFinset]
        constructor
        · rintro ⟨hwb, hwo, hw0⟩
          by_contra hnot
          rw [hnz w hnot, hwo] at hw0
          exact hoppne (by simpa using hw0)
        · intro hw
          exact ⟨mem_boardFinset.mpr (hdshas w hw), hoppds w hw, hz w hw⟩
      rw [hfs, List.toFinset_card_of_nodup hnd]
  · -- suicide removal: no stone was captured at all
    have hdsnil : (g.afterCapture (normalizeSign s) v).2 = [] :=
      List.length_eq_zero.mp hds0
    have hmidget : ∀ w, (g.afterCapture (normalizeSign s) v).1.get w =
        (g.afterPlace (normalizeSign s) v).get w := by
      intro w
      exact hnz w (by rw [hdsnil]; exact List.not_mem_nil w)
    subst hb
    set mid₂ := (g.afterCapture (normalizeSign s) v).1.setKoInfo
      (GoGame.detectKo (g.afterCapture (normalizeSign s) v).2
        ((g.afterCapture (normalizeSign s) v).1.getLiberties v)
        ((g.afterPlace (normalizeSign s) v).getNeighbors v)
        (g.afterCapture (normalizeSign s) v).1
        (normalizeSign s) (oppositeOf (normalizeSign s))) with hmid₂def
    have hWFmid₂ : WellFormed mid₂ := GoGame.wellFormed_setKoInfo hWFmid _
    have hmid₂get : ∀ w, mid₂.get w = (g.afterPlace (normalizeSign s) v).get w := by
      intro w
      rw [hmid₂def, GoGame.setKoInfo_get, hmidget w]
    have hhasv₂ : mid₂.has v := by
      rw [hmid₂def, GoGame.setKoInfo_has, GoGame.has_congr hW hH,
        GoGame.afterPlace_has hWF]
      exact hv
    have hnochain : ∀ w, (g.afterPlace (normalizeSign s) v).get w =
        some (oppositeOf (normalizeSign s)) → w ∉ mid₂.getChain v := by
      intro w hwopp hmem
      have hgetw := GoGame.sameChain_get ((GoGame.mem_getChain hhasv₂ w).mp hmem)
      rw [hmid₂get w, hmid₂get v, hwopp, GoGame.afterPlace_get_self hWF hv] at hgetw
      exact hoppself (by simpa using hgetw)
    have hchainhas : ∀ c ∈ mid₂.getChain v, mid₂.has c := by
      intro c hc
      exact GoGame.sameChain_has hhasv₂ ((GoGame.mem_getChain hhasv₂ c).mp hc)
    have hget'' := @GoGame.removeChainFold_get
      (oppositeOf (normalizeSign s)) (mid₂.getChain v) mid₂ hWFmid₂ hchainhas
    refine ⟨?_, ?_, ?_⟩
    · intro w hw
      exact absurd ((hdsmem w).mpr hw) (by rw [hdsnil]; exact List.not_mem_nil w)
    · intro w hopp hnot
      rw [hget'' w, if_neg (hnochain w hopp), hmid₂get w]
      exact hopp
    · rw [GoGame.removeChainFold_captures_other (Ne.symm hoppself),
        GoGame.setKoInfo_getCaptures, hcap, hmcapt]
      have hfs : capturedFinset (g.afterPlace (normalizeSign s) v)
          (mid₂.removeChainFold (oppositeOf (normalizeSign s)) (mid₂.getChain v))
          (oppositeOf (normalizeSign s)) = (∅ : Finset Vertex) := by
        ext w
        unfold capturedFinset
        rw [Finset.mem_filter]
        simp only [Finset.not_mem_empty, iff_false, not_and]
        intro hwb hwo
        rw [hget'' w, if_neg (hnochain w hwo), hmid₂get w, hwo]
        intro hcontra
        exact hoppne (by simpa using hcontra)
      rw [hfs]
      simp [hdsnil]

/-- Witness for C1: black plays `(2,0)` on `[[1,-1,0]]`, capturing the
single white stone at `(1,0)`. -/
theorem C1_witness :
    WellFormed (GoGame.mk [[1, -1, 0]] 1 3 (0, 0) ⟨0, (-1, -1)⟩) ∧ (1 : Int) ≠ 0 ∧
    (GoGame.mk [[1, -1, 0]] 1 3 (0, 0) ⟨0, (-1, -1)⟩).has (2, 0) ∧
    (GoGame.mk [[1, -1, 0]] 1 3 (0, 0) ⟨0, (-1, -1)⟩).makeMove 1 (2, 0)
      MoveOptions.none' = .ok (GoGame.mk [[1, 0, 1]] 1 3 (1, 0) ⟨-1, (1, 0)⟩) ∧
    ((∀ w, InDeadChain ((GoGame.mk [[1, -1, 0]] 1 3 (0, 0) ⟨0, (-1, -1)⟩).afterPlace
        (normalizeSign 1) (2, 0)) (oppositeOf (normalizeSign 1)) (2, 0) w →
        (GoGame.mk [[1, 0, 1]] 1 3 (1, 0) ⟨-1, (1, 0)⟩).get w = some 0) ∧
      (∀ w, ((GoGame.mk [[1, -1, 0]] 1 3 (0, 0) ⟨0, (-1, -1)⟩).afterPlace
          (normalizeSign 1) (2, 0)).get w = some (oppositeOf (normalizeSign 1)) →
        ¬ InDeadChain ((GoGame.mk [[1, -1, 0]] 1 3 (0, 0) ⟨0, (-1, -1)⟩).afterPlace
          (normalizeSign 1) (2, 0)) (oppositeOf (normalizeSign 1)) (2, 0) w →
        (GoGame.mk [[1, 0, 1]] 1 3 (1, 0) ⟨-1, (1, 0)⟩).get w =
          some (oppositeOf (normalizeSign 1))) ∧
      (GoGame.mk [[1, 0, 1]] 1 3 (1, 0) ⟨-1, (1, 0)⟩).getCaptures (normalizeSign 1) =
        (GoGame.mk [[1, -1, 0]] 1 3 (0, 0) ⟨0, (-1, -1)⟩).getCaptures (normalizeSign 1) +
        (capturedFinset ((GoGame.mk [[1, -1, 0]] 1 3 (0, 0) ⟨0, (-1, -1)⟩).afterPlace
          (normalizeSign 1) (2, 0)) (GoGame.mk [[1, 0, 1]] 1 3 (1, 0) ⟨-1, (1, 0)⟩)
          (oppositeOf (normalizeSign 1))).card) :=
  ⟨by decide, by decide, by decide, by decide,
    C1_capture_resolution _ (by decide) 1 (by decide) (2, 0) (by decide)
      MoveOptions.none' _ (by decide)⟩

/-- C2: when a move captures nothing (every adjacent opposite-coloured
chain keeps a liberty) and the placed stone's chain has no liberties,
`makeMove` fails with the Suicide error if `preventSuicide` is set, and
otherwise removes the placed stone's entire chain, leaves every other
cell alone, and credits the opponent's tally with the removed count.
(The overwrite and ko guards are assumed not to fire; they are checked
first — see C4.) -/
theorem C2_suicide_resolution (g : GoGame) (hWF : WellFormed g) (s : Int) (hs : s ≠ 0)
    (v : Vertex) (hv : g.has v) (opts : MoveOptions)
    (hnoow : ¬ (opts.preventOverwrite = true ∧ jsTruthy (g.get v) = true))
    (hnoko : ¬ (opts.preventKo = true ∧ g.koInfo.sign = normalizeSign s ∧
      g.koInfo.vertex = v))
    (hnocap : ∀ n ∈ (g.afterPlace (normalizeSign s) v).getNeighbors v,
      (g.afterPlace (normalizeSign s) v).get n = some (oppositeOf (normalizeSign s)) →
      HasLibSem (g.afterPlace (normalizeSign s) v) n)
    (hsui : ¬ HasLibSem (g.afterPlace (normalizeSign s) v) v) :
    (opts.preventSuicide = true → g.makeMove s v opts = .error .suicide) ∧
    (opts.preventSuicide = false → ∃ b', g.makeMove s v opts = .ok b' ∧
      (∀ w, SameChain (g.afterPlace (normalizeSign s) v) v w → b'.get w = some 0) ∧
      (∀ w, ¬ SameChain (g.afterPlace (normalizeSign s) v) v w →
        b'.get w = (g.afterPlace (normalizeSign s) v).get w) ∧
      b'.getCaptures (oppositeOf (normalizeSign s)) =
        g.getCaptures (oppositeOf (normalizeSign s)) +
        (capturedFinset (g.afterPlace (normalizeSign s) v) b' (normalizeSign s)).card) := by
  have hs' := normalizeSign_cases s
  have hsne := normalizeSign_ne_zero s
  have hoppself := oppositeOf_ne_self hs'
  have hWFm : WellFormed (g.afterPlace (normalizeSign s) v) :=
    GoGame.afterPlace_wellFormed hWF v hs'
  have hmhasv : (g.afterPlace (normalizeSign s) v).has v :=
    (GoGame.afterPlace_has hWF (normalizeSign s) v v).mpr hv
  have hmgetv : (g.afterPlace (normalizeSign s) v).get v = some (normalizeSign s) :=
    GoGame.afterPlace_get_self hWF hv (normalizeSign s)
  have hmoccv : (g.afterPlace (normalizeSign s) v).get v ≠ some 0 := by
    rw [hmgetv]
    intro hcon
    exact hsne (by simpa using hcon)
  have hdeadnil : (g.afterPlace (normalizeSign s) v).deadNbrs
      (oppositeOf (normalizeSign s)) v = [] := by
    rw [List.eq_nil_iff_forall_not_mem]
    intro n hn
    obtain ⟨hnn, hget, hnolib⟩ := GoGame.mem_deadNbrs.mp hn
    exact hnolib (hnocap n hnn hget)
  have hac : g.afterCapture (normalizeSign s) v = (g.afterPlace (normalizeSign s) v, []) := by
    show (g.afterPlace (normalizeSign s) v).captureFold (normalizeSign s)
      ((g.afterPlace (normalizeSign s) v).deadNbrs (oppositeOf (normalizeSign s)) v) = _
    rw [hdeadnil]
    rfl
  have hlibnil : (g.afterPlace (normalizeSign s) v).getLiberties v = [] :=
    (GoGame.getLiberties_eq_nil_iff hmhasv hmoccv).mpr hsui
  have hcond : (g.afterCapture (normalizeSign s) v).2.length = 0 ∧
      ((g.afterCapture (normalizeSign s) v).1.getLiberties v).length = 0 := by
    rw [hac]
    simp [hlibnil]
  have hunfold : g.makeMove s v opts =
      if opts.preventSuicide = true then .error .suicide
      else .ok (((g.afterCapture (normalizeSign s) v).1.setKoInfo
        (GoGame.detectKo (g.afterCapture (normalizeSign s) v).2
          ((g.afterCapture (normalizeSign s) v).1.getLiberties v)
          ((g.afterPlace (normalizeSign s) v).getNeighbors v)
          (g.afterCapture (normalizeSign s) v).1 (normalizeSign s)
          (oppositeOf (normalizeSign s)))).removeChainFold
        (oppositeOf (normalizeSign s))
        (((g.afterCapture (normalizeSign s) v).1.setKoInfo
          (GoGame.detectKo (g.afterCapture (normalizeSign s) v).2
            ((g.afterCapture (normalizeSign s) v).1.getLiberties v)
            ((g.afterPlace (normalizeSign s) v).getNeighbors v)
            (g.afterCapture (normalizeSign s) v).1 (normalizeSign s)
            (oppositeOf (normalizeSign s)))).getChain v)) := by
    simp only [GoGame.makeMove]
    rw [if_neg (by simp [hs, hv]), if_neg hnoow, if_neg hnoko, if_pos hcond]
  constructor
  · intro hps
    rw [hunfold, if_pos hps]
  · intro hps
    rw [hunfold, if_neg (by simp [hps])]
    set mid₂ := (g.afterCapture (normalizeSign s) v).1.setKoInfo
      (GoGame.detectKo (g.afterCapture (normalizeSign s) v).2
        ((g.afterCapture (normalizeSign s) v).1.getLiberties v)
        ((g.afterPlace (normalizeSign s) v).getNeighbors v)
        (g.afterCapture (normalizeSign s) v).1 (normalizeSign s)
        (oppositeOf (normalizeSign s))) with hmid₂def
    have hmid₂get : ∀ w, mid₂.get w = (g.afterPlace (normalizeSign s) v).get w := by
      intro w
      rw [hmid₂def, GoGame.setKoInfo_get, hac]
    have hmid₂cap : ∀ t, mid₂.getCaptures t =
        (g.afterPlace (normalizeSign s) v).getCaptures t := by
      intro t
      rw [hmid₂def, GoGame.setKoInfo_getCaptures, hac]
    have hWFmid₂ : WellFormed mid₂ := by
      rw [hmid₂def]
      exact GoGame.wellFormed_setKoInfo (by rw [hac]; exact hWFm) _
    have hmid₂has : ∀ w, mid₂.has w ↔ (g.afterPlace (normalizeSign s) v).has w := by
      intro w
      rw [hmid₂def, GoGame.setKoInfo_has, hac]
    have hhasv₂ : mid₂.has v := (hmid₂has v).mpr hmhasv
    have hchain_iff : ∀ w, w ∈ mid₂.getChain v ↔
        SameChain (g.afterPlace (normalizeSign s) v) v w := by
      intro w
      rw [GoGame.mem_getChain hhasv₂]
      unfold SameChain
      have hhaseq : mid₂.has = (g.afterPlace (normalizeSign s) v).has := by
        funext u
        exact propext (hmid₂has u)
      have hgeteq : mid₂.get = (g.afterPlace (normalizeSign s) v).get := by
        funext u
        exact hmid₂get u
      rw [hhaseq, hgeteq]
    have hchainhas : ∀ c ∈ mid₂.getChain v, mid₂.has c := by
      intro c hc
      exact GoGame.sameChain_has hhasv₂ ((GoGame.mem_getChain hhasv₂ c).mp hc)
    have hget' := @GoGame.removeChainFold_get (oppositeOf (normalizeSign s))
      (mid₂.getChain v) mid₂ hWFmid₂ hchainhas
    refine ⟨_, rfl, ?_, ?_, ?_⟩
    · intro w hw
      rw [hget' w, if_pos ((hchain_iff w).mpr hw)]
    · intro w hw
      rw [hget' w, if_neg (fun hmem => hw ((hchain_iff w).mp hmem)), hmid₂get w]
    · rw [GoGame.removeChainFold_captures_same (oppositeOf_cases (normalizeSign s))]
      rw [hmid₂cap, GoGame.afterPlace_getCaptures hWF]
      congr 1
      have hfs : capturedFinset (g.afterPlace (normalizeSign s) v)
          (mid₂.removeChainFold (oppositeOf (normalizeSign s)) (mid₂.getChain v))
          (normalizeSign s) = (mid₂.getChain v).toFinset := by
        ext w
        unfold capturedFinset
        rw [Finset.mem_filter, List.mem_toFinset]
        constructor
        · rintro ⟨hwb, hws, hw0⟩
          by_contra hnot
          rw [hget' w, if_neg hnot, hmid₂get w, hws] at hw0
          exact hsne (by simpa using hw0)
        · intro hw
          have hchain := (hchain_iff w).mp hw
          refine ⟨mem_boardFinset.mpr (GoGame.sameChain_has hmhasv hchain), ?_, ?_⟩
          · rw [GoGame.sameChain_get hchain, hmgetv]
          · rw [hget' w, if_pos hw]
      rw [hfs, List.toFinset_card_of_nodup (GoGame.getChain_nodup mid₂ v)]

/-- Witness for C2: playing the lone point of an empty 1×1 board is a
suicide; with `preventSuicide` set the call fails. -/
theorem C2_witness :
    WellFormed (GoGame.mk [[0]] 1 1 (0, 0) ⟨0, (-1, -1)⟩) ∧ (1 : Int) ≠ 0 ∧
    (GoGame.mk [[0]] 1 1 (0, 0) ⟨0, (-1, -1)⟩).has (0, 0) ∧
    ¬ HasLibSem ((GoGame.mk [[0]] 1 1 (0, 0) ⟨0, (-1, -1)⟩).afterPlace
      (normalizeSign 1) (0, 0)) (0, 0) ∧
    (((⟨true, false, false⟩ : MoveOptions).preventSuicide = true →
      (GoGame.mk [[0]] 1 1 (0, 0) ⟨0, (-1, -1)⟩).makeMove 1 (0, 0)
        ⟨true, false, false⟩ = .error .suicide) ∧
     ((⟨true, false, false⟩ : MoveOptions).preventSuicide = false →
      ∃ b', (GoGame.mk [[0]] 1 1 (0, 0) ⟨0, (-1, -1)⟩).makeMove 1 (0, 0)
          ⟨true, false, false⟩ = .ok b' ∧
        (∀ w, SameChain ((GoGame.mk [[0]] 1 1 (0, 0) ⟨0, (-1, -1)⟩).afterPlace
          (normalizeSign 1) (0, 0)) (0, 0) w → b'.get w = some 0) ∧
        (∀ w, ¬ SameChain ((GoGame.mk [[0]] 1 1 (0, 0) ⟨0, (-1, -1)⟩).afterPlace
          (normalizeSign 1) (0, 0)) (0, 0) w →
          b'.get w = ((GoGame.mk [[0]] 1 1 (0, 0) ⟨0, (-1, -1)⟩).afterPlace
            (normalizeSign 1) (0, 0)).get w) ∧
        b'.getCaptures (oppositeOf (normalizeSign 1)) =
          (GoGame.mk [[0]] 1 1 (0, 0) ⟨0, (-1, -1)⟩).getCaptures
            (oppositeOf (normalizeSign 1)) +
          (capturedFinset ((GoGame.mk [[0]] 1 1 (0, 0) ⟨0, (-1, -1)⟩).afterPlace
            (normalizeSign 1) (0, 0)) b' (normalizeSign 1)).card)) :=
  ⟨by decide, by decide, by decide,
   (GoGame.hasLiberties_false_iff ((GoGame.mk [[0]] 1 1 (0, 0)
     ⟨0, (-1, -1)⟩).afterPlace (normalizeSign 1) (0, 0)) (0, 0)).mp (by decide),
   C2_suicide_resolution _ (by decide) 1 (by decide) (0, 0) (by decide)
     ⟨true, false, false⟩ (by decide) (by decide)
     (fun n hn _ => absurd hn (by
       rw [show ((GoGame.mk [[0]] 1 1 (0, 0) ⟨0, (-1, -1)⟩).afterPlace
         (normalizeSign 1) (0, 0)).getNeighbors (0, 0) = [] from by decide]
       exact List.not_mem_nil n))
     ((GoGame.hasLiberties_false_iff ((GoGame.mk [[0]] 1 1 (0, 0)
       ⟨0, (-1, -1)⟩).afterPlace (normalizeSign 1) (0, 0)) (0, 0)).mp (by decide))⟩

lemma list_eq_singleton_iff {α : Type} {l : List α} (hnd : l.Nodup) (d : α) :
    l = [d] ↔ ∀ x, x ∈ l ↔ x = d := by
  constructor
  · rintro rfl x
    simp
  · intro h
    cases l with
    | nil => exact absurd ((h d).mpr rfl) (List.not_mem_nil d)
    | cons a t =>
      have ha : a = d := (h a).mp (List.mem_cons_self a t)
      subst ha
      cases t with
      | nil => rfl
      | cons b t' =>
        have hb : b = a := (h b).mp (List.mem_cons_of_mem _ (List.mem_cons_self b t'))
        subst hb
        exact absurd (List.mem_cons_self b t') (List.nodup_cons.mp hnd).1

namespace GoGame

lemma detectKo_pair (d l : Vertex) (nbrs : List Vertex) (mid : GoGame) (s' opp : Int) :
    detectKo [d] [l] nbrs mid s' opp =
      if l = d ∧ (∀ n ∈ nbrs, ¬ mid.get n = some s') then ⟨opp, d⟩
      else ⟨0, (-1, -1)⟩ := rfl

lemma detectKo_clear_nil_left (libs nbrs : List Vertex) (mid : GoGame) (s' opp : Int) :
    detectKo [] libs nbrs mid s' opp = ⟨0, (-1, -1)⟩ := by
  cases libs <;> rfl

lemma detectKo_clear_long_left (d b : Vertex) (t libs nbrs : List Vertex)
    (mid : GoGame) (s' opp : Int) :
    detectKo (d :: b :: t) libs nbrs mid s' opp = ⟨0, (-1, -1)⟩ := by
  cases libs <;> rfl

lemma detectKo_clear_nil_right (d : Vertex) (nbrs : List Vertex) (mid : GoGame)
    (s' opp : Int) : detectKo [d] [] nbrs mid s' opp = ⟨0, (-1, -1)⟩ := rfl

lemma detectKo_clear_long_right (d l b : Vertex) (t nbrs : List Vertex)
    (mid : GoGame) (s' opp : Int) :
    detectKo [d] (l :: b :: t) nbrs mid s' opp = ⟨0, (-1, -1)⟩ := rfl

end GoGame

/-- C3: the returned snapshot's ko record is `(opposite sign, d)` exactly
when the move captured exactly the one stone `d`, the placed stone's
chain has `d` as its only liberty after captures, and no neighbour of the
placed vertex holds the mover's colour on the post-capture board; in
every other case the ko record is cleared. -/
theorem C3_ko_detection (g : GoGame) (hWF : WellFormed g) (s : Int) (hs : s ≠ 0)
    (v : Vertex) (hv : g.has v) (opts : MoveOptions) (b' : GoGame)
    (h : g.makeMove s v opts = .ok b') :
    (∀ d : Vertex,
      b'.koInfo = ⟨oppositeOf (normalizeSign s), d⟩ ↔
        (capturedFinset (g.afterPlace (normalizeSign s) v)
            (g.afterCapture (normalizeSign s) v).1 (oppositeOf (normalizeSign s)) =
          {d} ∧
         (∀ u, IsLiberty (g.afterCapture (normalizeSign s) v).1 v u ↔ u = d) ∧
         (∀ n ∈ (g.afterPlace (normalizeSign s) v).getNeighbors v,
           ¬ (g.afterCapture (normalizeSign s) v).1.get n = some (normalizeSign s)))) ∧
    ((¬ ∃ d : Vertex,
        capturedFinset (g.afterPlace (normalizeSign s) v)
            (g.afterCapture (normalizeSign s) v).1 (oppositeOf (normalizeSign s)) =
          {d} ∧
        (∀ u, IsLiberty (g.afterCapture (normalizeSign s) v).1 v u ↔ u = d) ∧
        (∀ n ∈ (g.afterPlace (normalizeSign s) v).getNeighbors v,
          ¬ (g.afterCapture (normalizeSign s) v).1.get n = some (normalizeSign s))) →
      b'.koInfo = ⟨0, (-1, -1)⟩) := by
  have hs' := normalizeSign_cases s
  have hsne := normalizeSign_ne_zero s
  have hoppne := oppositeOf_ne_zero (normalizeSign s)
  have hoppself := oppositeOf_ne_self hs'
  have hclear_ne : ∀ d : Vertex,
      (⟨0, (-1, -1)⟩ : KoInfo) ≠ ⟨oppositeOf (normalizeSign s), d⟩ := by
    intro d hk
    exact hoppne (Eq.symm (congrArg KoInfo.sign hk))
  have hWFm : WellFormed (g.afterPlace (normalizeSign s) v) :=
    GoGame.afterPlace_wellFormed hWF v hs'
  obtain ⟨hInv, hdsmem⟩ := GoGame.afterCapture_spec hWF hs' v
  obtain ⟨hz, hnz, hnd, hoppds, hclosed, hprov, hW, hH, hK, hWFmid, hcap, hcapo⟩ := hInv
  have hdshas : ∀ w ∈ (g.afterCapture (normalizeSign s) v).2,
      (g.afterPlace (normalizeSign s) v).has w := by
    intro w hw
    obtain ⟨n, hn, hchain⟩ := hprov w hw
    exact GoGame.sameChain_has
      (GoGame.has_of_mem_getNeighbors (GoGame.mem_deadNbrs.mp hn).1) hchain
  have hmgetv : (g.afterPlace (normalizeSign s) v).get v = some (normalizeSign s) :=
    GoGame.afterPlace_get_self hWF hv (normalizeSign s)
  have hvnotds : v ∉ (g.afterCapture (normalizeSign s) v).2 := by
    intro hmem
    have hx := hoppds v hmem
    rw [hmgetv] at hx
    exact hoppself (Eq.symm (by simpa using hx))
  have hmidgetv : (g.afterCapture (normalizeSign s) v).1.get v =
      some (normalizeSign s) := by
    rw [hnz v hvnotds, hmgetv]
  have hmidhasv : (g.afterCapture (normalizeSign s) v).1.has v := by
    rw [GoGame.has_congr hW hH, GoGame.afterPlace_has hWF]
    exact hv
  have hmidoccv : (g.afterCapture (normalizeSign s) v).1.get v ≠ some 0 := by
    rw [hmidgetv]
    intro hcon
    exact hsne (by simpa using hcon)
  have hfs : capturedFinset (g.afterPlace (normalizeSign s) v)
      (g.afterCapture (normalizeSign s) v).1 (oppositeOf (normalizeSign s)) =
      ((g.afterCapture (normalizeSign s) v).2).toFinset := by
    ext w
    unfold capturedFinset
    rw [Finset.mem_filter, List.mem_toFinset]
    constructor
    · rintro ⟨hwb, hwo, hw0⟩
      by_contra hnot
      rw [hnz w hnot, hwo] at hw0
      exact hoppne (by simpa using hw0)
    · intro hw
      exact ⟨mem_boardFinset.mpr (hdshas w hw), hoppds w hw, hz w hw⟩
  have hcapiff : ∀ d, (capturedFinset (g.afterPlace (normalizeSign s) v)
      (g.afterCapture (normalizeSign s) v).1 (oppositeOf (normalizeSign s)) = {d} ↔
      (g.afterCapture (normalizeSign s) v).2 = [d]) := by
    intro d
    rw [hfs, list_eq_singleton_iff hnd d, Finset.ext_iff]
    constructor
    · intro hx x
      have hxx := hx x
      rw [List.mem_toFinset, Finset.mem_singleton] at hxx
      exact hxx
    · intro hx x
      rw [List.mem_toFinset, Finset.mem_singleton]
      exact hx x
  have hlibiff : ∀ d, ((∀ u, IsLiberty (g.afterCapture (normalizeSign s) v).1 v u ↔
      u = d) ↔ (g.afterCapture (normalizeSign s) v).1.getLiberties v = [d]) := by
    intro d
    rw [list_eq_singleton_iff
      (GoGame.getLiberties_nodup (g.afterCapture (normalizeSign s) v).1 v) d]
    constructor
    · intro hx u
      rw [GoGame.mem_getLiberties hmidhasv hmidoccv u]
      exact hx u
    · intro hx u
      rw [← GoGame.mem_getLiberties hmidhasv hmidoccv u]
      exact hx u
  have hko : b'.koInfo = GoGame.detectKo (g.afterCapture (normalizeSign s) v).2
      ((g.afterCapture (normalizeSign s) v).1.getLiberties v)
      ((g.afterPlace (normalizeSign s) v).getNeighbors v)
      (g.afterCapture (normalizeSign s) v).1 (normalizeSign s)
      (oppositeOf (normalizeSign s)) := by
    rcases GoGame.makeMove_ok_elim hs hv h with ⟨-, hb⟩ | ⟨-, -, -, hb⟩
    · rw [hb, GoGame.setKoInfo_koInfo]
    · rw [hb, GoGame.removeChainFold_koInfo, GoGame.setKoInfo_koInfo]
  constructor
  · intro d
    rw [hko, hcapiff d, hlibiff d]
    rcases hdseq : (g.afterCapture (normalizeSign s) v).2 with - | ⟨d₀, rest⟩
    · rw [GoGame.detectKo_clear_nil_left]
      exact ⟨fun hk => absurd hk (hclear_ne d), fun hx => absurd hx.1 (by simp)⟩
    · rcases hlibeq : (g.afterCapture (normalizeSign s) v).1.getLiberties v with
        - | ⟨l₀, lrest⟩
      · cases rest with
        | nil =>
          rw [GoGame.detectKo_clear_nil_right]
          exact ⟨fun hk => absurd hk (hclear_ne d), fun hx => absurd hx.2.1 (by simp)⟩
        | cons b t =>
          rw [GoGame.detectKo_clear_long_left]
          exact ⟨fun hk => absurd hk (hclear_ne d), fun hx => absurd hx.1 (by simp)⟩
      · cases rest with
        | nil =>
          cases lrest with
          | nil =>
            rw [GoGame.detectKo_pair]
            by_cases hcond : l₀ = d₀ ∧
                (∀ n ∈ (g.afterPlace (normalizeSign s) v).getNeighbors v,
                  ¬ (g.afterCapture (normalizeSign s) v).1.get n =
                    some (normalizeSign s))
            · rw [if_pos hcond]
              constructor
              · intro hk
                have hd : d₀ = d := congrArg KoInfo.vertex hk
                subst hd
                exact ⟨rfl, by rw [hcond.1], hcond.2⟩
              · rintro ⟨h1, -, -⟩
                have hd : d₀ = d := by simpa using h1
                rw [hd]
            · rw [if_neg hcond]
              constructor
              · intro hk
                exact absurd hk (hclear_ne d)
              · rintro ⟨h1, h2, h3⟩
                have hd0 : d₀ = d := by simpa using h1
                have hl0 : l₀ = d := by simpa using h2
                exact absurd ⟨by rw [hd0, hl0], h3⟩ hcond
          | cons lb lt =>
            rw [GoGame.detectKo_clear_long_right]
            exact ⟨fun hk => absurd hk (hclear_ne d), fun hx => absurd hx.2.1 (by simp)⟩
        | cons b t =>
          rw [GoGame.detectKo_clear_long_left]
          exact ⟨fun hk => absurd hk (hclear_ne d), fun hx => absurd hx.1 (by simp)⟩
  · intro hnot
    rw [hko]
    rcases hdseq : (g.afterCapture (normalizeSign s) v).2 with - | ⟨d₀, rest⟩
    · rw [GoGame.detectKo_clear_nil_left]
    · rcases hlibeq : (g.afterCapture (normalizeSign s) v).1.getLiberties v with
        - | ⟨l₀, lrest⟩
      · cases rest with
        | nil => rw [GoGame.detectKo_clear_nil_right]
        | cons b t => rw [GoGame.detectKo_clear_long_left]
      · cases rest with
        | nil =>
          cases lrest with
          | nil =>
            rw [GoGame.detectKo_pair]
            by_cases hcond : l₀ = d₀ ∧
                (∀ n ∈ (g.afterPlace (normalizeSign s) v).getNeighbors v,
                  ¬ (g.afterCapture (normalizeSign s) v).1.get n =
                    some (normalizeSign s))
            · exfalso
              refine hnot ⟨d₀, (hcapiff d₀).mpr hdseq, ?_, hcond.2⟩
              rw [hlibiff d₀, hlibeq, hcond.1]
            · rw [if_neg hcond]
          | cons lb lt => rw [GoGame.detectKo_clear_long_right]
        | cons b t => rw [GoGame.detectKo_clear_long_left]

/-- Witness for C3: on a 4×3 board a black play at (2,1) captures exactly
the white stone at (1,1), and the theorem's capture-singleton condition is
established through the ko record the engine wrote. -/
theorem C3_witness :
    capturedFinset
        ((GoGame.mk [[0,1,-1,0],[1,-1,0,-1],[0,1,-1,0]] 3 4 (0,0)
            ⟨0,(-1,-1)⟩).afterPlace (normalizeSign 1) (2,1))
        ((GoGame.mk [[0,1,-1,0],[1,-1,0,-1],[0,1,-1,0]] 3 4 (0,0)
            ⟨0,(-1,-1)⟩).afterCapture (normalizeSign 1) (2,1)).1
        (oppositeOf (normalizeSign 1)) = {((1:Int),(1:Int))} :=
  (((C3_ko_detection
      (GoGame.mk [[0,1,-1,0],[1,-1,0,-1],[0,1,-1,0]] 3 4 (0,0) ⟨0,(-1,-1)⟩)
      (by decide) 1 (by decide) (2,1) (by decide) MoveOptions.none'
      ⟨[[0,1,-1,0],[1,0,1,-1],[0,1,-1,0]], 3, 4, (1,0), ⟨-1,(1,1)⟩⟩
      (by decide)).1 (1,1)).mp (by decide)).1

namespace GoGame

/-- `makeMove` produces an error exactly when the sign is nonzero, the
vertex is on the board, and one of the three prevention branches fires. -/
lemma makeMove_fails_iff {g : GoGame} {s : Int} {v : Vertex} {opts : MoveOptions} :
    (∃ e, g.makeMove s v opts = .error e) ↔
      s ≠ 0 ∧ g.has v ∧
        ((opts.preventOverwrite = true ∧ jsTruthy (g.get v) = true) ∨
         (opts.preventKo = true ∧ g.koInfo.sign = normalizeSign s ∧
           g.koInfo.vertex = v) ∨
         (opts.preventSuicide = true ∧
           (g.afterCapture (normalizeSign s) v).2.length = 0 ∧
           ((g.afterCapture (normalizeSign s) v).1.getLiberties v).length = 0)) := by
  by_cases h0 : s = 0 ∨ ¬ g.has v
  · simp only [makeMove]
    rw [if_pos h0]
    apply iff_of_false (by simp)
    rintro ⟨hs, hv, -⟩
    rcases h0 with h | h
    · exact hs h
    · exact h hv
  · push_neg at h0
    obtain ⟨hs, hv⟩ := h0
    simp only [makeMove]
    rw [if_neg (by simp [hs, hv])]
    by_cases hov : opts.preventOverwrite = true ∧ jsTruthy (g.get v) = true
    · rw [if_pos hov]
      exact iff_of_true ⟨.overwrite, rfl⟩ ⟨hs, hv, Or.inl hov⟩
    · rw [if_neg hov]
      by_cases hko : opts.preventKo = true ∧ g.koInfo.sign = normalizeSign s ∧
          g.koInfo.vertex = v
      · rw [if_pos hko]
        exact iff_of_true ⟨.ko, rfl⟩ ⟨hs, hv, Or.inr (Or.inl hko)⟩
      · rw [if_neg hko]
        by_cases hsui : (g.afterCapture (normalizeSign s) v).2.length = 0 ∧
            ((g.afterCapture (normalizeSign s) v).1.getLiberties v).length = 0
        · rw [if_pos hsui]
          by_cases hps : opts.preventSuicide = true
          · rw [if_pos hps]
            exact iff_of_true ⟨.suicide, rfl⟩
              ⟨hs, hv, Or.inr (Or.inr ⟨hps, hsui.1, hsui.2⟩)⟩
          · rw [if_neg hps]
            apply iff_of_false (by simp)
            rintro ⟨-, -, hov' | hko' | hsui'⟩
            · exact hov hov'
            · exact hko hko'
            · exact hps hsui'.1
        · rw [if_neg hsui]
          apply iff_of_false (by simp)
          rintro ⟨-, -, hov' | hko' | ⟨-, hd, hl⟩⟩
          · exact hov hov'
          · exact hko hko'
          · exact hsui ⟨hd, hl⟩

/-- Which prevention branch produced each error value. -/
lemma makeMove_error_elim {g : GoGame} {s : Int} {v : Vertex} {opts : MoveOptions}
    {e : MoveError} (h : g.makeMove s v opts = .error e) :
    s ≠ 0 ∧ g.has v ∧
      ((e = .overwrite ∧ opts.preventOverwrite = true ∧
         jsTruthy (g.get v) = true) ∨
       (e = .ko ∧ opts.preventKo = true ∧ g.koInfo.sign = normalizeSign s ∧
         g.koInfo.vertex = v) ∨
       (e = .suicide ∧ opts.preventSuicide = true ∧
         (g.afterCapture (normalizeSign s) v).2.length = 0 ∧
         ((g.afterCapture (normalizeSign s) v).1.getLiberties v).length = 0)) := by
  simp only [makeMove] at h
  by_cases h0 : s = 0 ∨ ¬ g.has v
  · rw [if_pos h0] at h
    exact absurd h (by simp)
  · push_neg at h0
    obtain ⟨hs, hv⟩ := h0
    rw [if_neg (by simp [hs, hv])] at h
    refine ⟨hs, hv, ?_⟩
    by_cases hov : opts.preventOverwrite = true ∧ jsTruthy (g.get v) = true
    · rw [if_pos hov] at h
      exact Or.inl ⟨(Except.error.inj h).symm, hov⟩
    · rw [if_neg hov] at h
      by_cases hko : opts.preventKo = true ∧ g.koInfo.sign = normalizeSign s ∧
          g.koInfo.vertex = v
      · rw [if_pos hko] at h
        exact Or.inr (Or.inl ⟨(Except.error.inj h).symm, hko⟩)
      · rw [if_neg hko] at h
        by_cases hsui : (g.afterCapture (normalizeSign s) v).2.length = 0 ∧
            ((g.afterCapture (normalizeSign s) v).1.getLiberties v).length = 0
        · rw [if_pos hsui] at h
          by_cases hps : opts.preventSuicide = true
          · rw [if_pos hps] at h
            exact Or.inr (Or.inr ⟨(Except.error.inj h).symm, hps, hsui.1, hsui.2⟩)
          · rw [if_neg hps] at h
            exact absurd h (by simp)
        · rw [if_neg hsui] at h
          exact absurd h (by simp)

/-- The semantic captured set equals the `deadStones` list, as a finset. -/
lemma capturedFinset_eq_dead {g : GoGame} (hWF : WellFormed g) {s' : Int}
    (hs' : s' = 1 ∨ s' = -1) (v : Vertex) :
    capturedFinset (g.afterPlace s' v) (g.afterCapture s' v).1 (oppositeOf s') =
      ((g.afterCapture s' v).2).toFinset := by
  obtain ⟨hInv, -⟩ := afterCapture_spec hWF hs' v
  obtain ⟨hz, hnz, hnd, hoppds, hclosed, hprov, hW, hH, hK, hWFmid, hcap, hcapo⟩ := hInv
  have hdshas : ∀ w ∈ (g.afterCapture s' v).2, (g.afterPlace s' v).has w := by
    intro w hw
    obtain ⟨n, hn, hchain⟩ := hprov w hw
    exact sameChain_has (has_of_mem_getNeighbors (mem_deadNbrs.mp hn).1) hchain
  ext w
  unfold capturedFinset
  rw [Finset.mem_filter, List.mem_toFinset]
  constructor
  · rintro ⟨hwb, hwo, hw0⟩
    by_contra hnot
    rw [hnz w hnot, hwo] at hw0
    exact oppositeOf_ne_zero s' (by simpa using hw0)
  · intro hw
    exact ⟨mem_boardFinset.mpr (hdshas w hw), hoppds w hw, hz w hw⟩

/-- After the capture step the placed vertex is still on the board and
still carries the mover's stone. -/
lemma midVertex_facts {g : GoGame} (hWF : WellFormed g) {s' : Int}
    (hs' : s' = 1 ∨ s' = -1) {v : Vertex} (hv : g.has v) :
    (g.afterCapture s' v).1.has v ∧ (g.afterCapture s' v).1.get v = some s' := by
  obtain ⟨hInv, -⟩ := afterCapture_spec hWF hs' v
  obtain ⟨hz, hnz, hnd, hoppds, hclosed, hprov, hW, hH, hK, hWFmid, -, -⟩ := hInv
  have hmgetv : (g.afterPlace s' v).get v = some s' := afterPlace_get_self hWF hv s'
  have hvnotds : v ∉ (g.afterCapture s' v).2 := by
    intro hmem
    have hx := hoppds v hmem
    rw [hmgetv] at hx
    exact oppositeOf_ne_self hs' (Eq.symm (by simpa using hx))
  constructor
  · rw [has_congr hW hH, afterPlace_has hWF]
    exact hv
  · rw [hnz v hvnotds, hmgetv]

end GoGame

/-- C4: `makeMove` fails exactly when the sign is nonzero, the vertex is
on the board, and one of the prevention conditions holds (overwrite of an
occupied cell, repetition of the recorded ko, or a capture-free
zero-liberty placement); each error value implies its own condition; and
a zero sign or an off-board vertex always yields the unchanged receiver. -/
theorem C4_failure_characterization (g : GoGame) (hWF : WellFormed g) (s : Int)
    (v : Vertex) (opts : MoveOptions) :
    ((∃ e, g.makeMove s v opts = .error e) ↔
      s ≠ 0 ∧ g.has v ∧
        ((opts.preventOverwrite = true ∧ ¬ g.get v = some 0) ∨
         (opts.preventKo = true ∧ g.koInfo = ⟨normalizeSign s, v⟩) ∨
         (opts.preventSuicide = true ∧
           capturedFinset (g.afterPlace (normalizeSign s) v)
               (g.afterCapture (normalizeSign s) v).1
               (oppositeOf (normalizeSign s)) = ∅ ∧
           ∀ u, ¬ IsLiberty (g.afterCapture (normalizeSign s) v).1 v u))) ∧
    (∀ e, g.makeMove s v opts = .error e →
      (e = MoveError.overwrite →
        opts.preventOverwrite = true ∧ ¬ g.get v = some 0) ∧
      (e = MoveError.ko →
        opts.preventKo = true ∧ g.koInfo = ⟨normalizeSign s, v⟩) ∧
      (e = MoveError.suicide →
        opts.preventSuicide = true ∧
        capturedFinset (g.afterPlace (normalizeSign s) v)
            (g.afterCapture (normalizeSign s) v).1
            (oppositeOf (normalizeSign s)) = ∅ ∧
        ∀ u, ¬ IsLiberty (g.afterCapture (normalizeSign s) v).1 v u)) ∧
    ((s = 0 ∨ ¬ g.has v) → g.makeMove s v opts = .ok g) := by
  have hbridgeO : g.has v → (jsTruthy (g.get v) = true ↔ ¬ g.get v = some 0) := by
    intro hv
    obtain ⟨c, hc, -⟩ := GoGame.get_of_has hWF hv
    rw [hc]
    unfold jsTruthy
    simp
  have hbridgeK : (g.koInfo.sign = normalizeSign s ∧ g.koInfo.vertex = v) ↔
      g.koInfo = ⟨normalizeSign s, v⟩ := by
    constructor
    · rintro ⟨h1, h2⟩
      have hx : g.koInfo = ⟨g.koInfo.sign, g.koInfo.vertex⟩ := rfl
      rw [hx, h1, h2]
    · intro h
      rw [h]
      exact ⟨rfl, rfl⟩
  have hbridgeS : s ≠ 0 → g.has v →
      (((g.afterCapture (normalizeSign s) v).2.length = 0 ∧
        ((g.afterCapture (normalizeSign s) v).1.getLiberties v).length = 0) ↔
       (capturedFinset (g.afterPlace (normalizeSign s) v)
            (g.afterCapture (normalizeSign s) v).1
            (oppositeOf (normalizeSign s)) = ∅ ∧
        ∀ u, ¬ IsLiberty (g.afterCapture (normalizeSign s) v).1 v u)) := by
    intro hs hv
    have hs' := normalizeSign_cases s
    obtain ⟨hmidhas, hmidget⟩ := GoGame.midVertex_facts hWF hs' hv
    have hmidocc : (g.afterCapture (normalizeSign s) v).1.get v ≠ some 0 := by
      rw [hmidget]
      intro hcon
      exact normalizeSign_ne_zero s (by simpa using hcon)
    have h1 : (g.afterCapture (normalizeSign s) v).2.length = 0 ↔
        capturedFinset (g.afterPlace (normalizeSign s) v)
          (g.afterCapture (normalizeSign s) v).1
          (oppositeOf (normalizeSign s)) = ∅ := by
      rw [GoGame.capturedFinset_eq_dead hWF hs' v, List.length_eq_zero,
        List.toFinset_eq_empty_iff]
    have h2 : ((g.afterCapture (normalizeSign s) v).1.getLiberties v).length = 0 ↔
        ∀ u, ¬ IsLiberty (g.afterCapture (normalizeSign s) v).1 v u := by
      rw [List.length_eq_zero]
      constructor
      · intro hnil u hlib
        have hm := (GoGame.mem_getLiberties hmidhas hmidocc u).mpr hlib
        rw [hnil] at hm
        exact List.not_mem_nil u hm
      · intro hno
        rw [List.eq_nil_iff_forall_not_mem]
        intro u hu
        exact hno u ((GoGame.mem_getLiberties hmidhas hmidocc u).mp hu)
    exact and_congr h1 h2
  refine ⟨?_, ?_, ?_⟩
  · rw [GoGame.makeMove_fails_iff]
    constructor
    · rintro ⟨hs, hv, hdis⟩
      refine ⟨hs, hv, ?_⟩
      rcases hdis with ⟨ho1, ho2⟩ | ⟨hk1, hk2, hk3⟩ | ⟨hp, hd, hl⟩
      · exact Or.inl ⟨ho1, (hbridgeO hv).mp ho2⟩
      · exact Or.inr (Or.inl ⟨hk1, hbridgeK.mp ⟨hk2, hk3⟩⟩)
      · obtain ⟨hc, hlib⟩ := (hbridgeS hs hv).mp ⟨hd, hl⟩
        exact Or.inr (Or.inr ⟨hp, hc, hlib⟩)
    · rintro ⟨hs, hv, hdis⟩
      refine ⟨hs, hv, ?_⟩
      rcases hdis with ⟨ho1, ho2⟩ | ⟨hk1, hk2⟩ | ⟨hp, hc, hlib⟩
      · exact Or.inl ⟨ho1, (hbridgeO hv).mpr ho2⟩
      · obtain ⟨hk2', hk3'⟩ := hbridgeK.mpr hk2
        exact Or.inr (Or.inl ⟨hk1, hk2', hk3'⟩)
      · obtain ⟨hd, hl⟩ := (hbridgeS hs hv).mpr ⟨hc, hlib⟩
        exact Or.inr (Or.inr ⟨hp, hd, hl⟩)
  · intro e he
    obtain ⟨hs, hv, hdis⟩ := GoGame.makeMove_error_elim he
    refine ⟨?_, ?_, ?_⟩
    · intro heq
      subst heq
      rcases hdis with ⟨-, ho1, ho2⟩ | ⟨hbad, -⟩ | ⟨hbad, -⟩
      · exact ⟨ho1, (hbridgeO hv).mp ho2⟩
      · exact absurd hbad (by decide)
      · exact absurd hbad (by decide)
    · intro heq
      subst heq
      rcases hdis with ⟨hbad, -⟩ | ⟨-, hk1, hk2, hk3⟩ | ⟨hbad, -⟩
      · exact absurd hbad (by decide)
      · exact ⟨hk1, hbridgeK.mp ⟨hk2, hk3⟩⟩
      · exact absurd hbad (by decide)
    · intro heq
      subst heq
      rcases hdis with ⟨hbad, -⟩ | ⟨hbad, -⟩ | ⟨-, hp, hd, hl⟩
      · exact absurd hbad (by decide)
      · exact absurd hbad (by decide)
      · obtain ⟨hc, hlib⟩ := (hbridgeS hs hv).mp ⟨hd, hl⟩
        exact ⟨hp, hc, hlib⟩
  · intro h0
    simp only [GoGame.makeMove]
    rw [if_pos h0, GoGame.clone_eq hWF]

/-- Witness for C4: a zero-sign call on a 2×2 board is a no-op returning
the receiver, obtained from the theorem's third clause. -/
theorem C4_witness :
    (GoGame.fromDimensions 2 2).makeMove 0 (0, 0) MoveOptions.none' =
      .ok (GoGame.fromDimensions 2 2) :=
  (C4_failure_characterization (GoGame.fromDimensions 2 2) (by decide) 0 (0, 0)
    MoveOptions.none').2.2 (Or.inl rfl)

/-! ### The heap frame property (C5) -/

lemma agreesBelow_refl (n : Nat) (st : Store) : AgreesBelow n st st :=
  fun _ _ => rfl

lemma agreesBelow_trans {n : Nat} {st st₁ st₂ : Store}
    (h1 : AgreesBelow n st st₁) (h2 : AgreesBelow n st₁ st₂) :
    AgreesBelow n st st₂ :=
  fun i hi => (h2 i hi).trans (h1 i hi)

lemma hRow_append_lt {st X : Store} {i : Nat} (h : i < st.length) :
    hRow (st ++ X) i = hRow st i := by
  unfold hRow
  rw [List.getD_eq_getElem?_getD, List.getD_eq_getElem?_getD,
    List.getElem?_append_left h]

lemma hRow_set_ne {st : Store} {rid : Nat} {r : List Int} {i : Nat} (h : i ≠ rid) :
    hRow (st.set rid r) i = hRow st i := by
  unfold hRow
  rw [List.getD_eq_getElem?_getD, List.getD_eq_getElem?_getD,
    List.getElem?_set_ne (Ne.symm h)]

lemma liGet_mem {α : Type} {l : List α} {i : Int} {x : α} (h : liGet l i = some x) :
    x ∈ l := by
  unfold liGet at h
  by_cases h0 : 0 ≤ i
  · rw [if_pos h0] at h
    exact List.getElem?_mem h
  · rw [if_neg h0] at h
    exact absurd h (by simp)

lemma hSet_agrees (n : Nat) (st : Store) (hg : HGame) (v : Vertex) (s : Int)
    (hra : RowsAbove n hg) : AgreesBelow n st (hSet st hg v s) := by
  intro i hi
  unfold hSet
  by_cases hhas : (hToPure st hg).has v
  · rw [if_pos hhas]
    cases hrid : liGet hg.rowIds v.2 with
    | none => rfl
    | some rid =>
      exact hRow_set_ne (by have := hra rid (liGet_mem hrid); omega)
  · rw [if_neg hhas]

lemma hBump_rowIds (hg : HGame) (s : Int) : (hBump hg s).rowIds = hg.rowIds := by
  unfold hBump
  split
  · rfl
  · split
    · rfl
    · rfl

lemma hSetKo_rowIds (hg : HGame) (k : KoInfo) : (hSetKo hg k).rowIds = hg.rowIds := rfl

lemma hRemoveChain_agrees (n : Nat) (s' : Int) :
    ∀ (chain : List Vertex) (st : Store) (mv : HGame), RowsAbove n mv →
      AgreesBelow n st (hRemoveChain st mv s' chain).1 ∧
      (hRemoveChain st mv s' chain).2.rowIds = mv.rowIds := by
  intro chain
  induction chain with
  | nil => exact fun st mv _ => ⟨agreesBelow_refl n st, rfl⟩
  | cons c cs ih =>
    intro st mv hra
    have hstep : hRemoveChain st mv s' (c :: cs) =
        hRemoveChain (hSet st mv c 0) (hBump mv s') s' cs := rfl
    rw [hstep]
    have hra' : RowsAbove n (hBump mv s') := by
      intro i hi
      rw [hBump_rowIds] at hi
      exact hra i hi
    obtain ⟨h1, h2⟩ := ih (hSet st mv c 0) (hBump mv s') hra'
    exact ⟨agreesBelow_trans (hSet_agrees n st mv c 0 hra) h1,
      by rw [h2, hBump_rowIds]⟩

lemma hCaptureFold_agrees (n : Nat) (s' : Int) :
    ∀ (dead : List Vertex) (st : Store) (mv : HGame) (ds0 : List Vertex),
      RowsAbove n mv →
      AgreesBelow n st
        (dead.foldl (fun acc m =>
          if (hToPure acc.1 acc.2.1).get m = some 0 then acc
          else
            let chain := (hToPure acc.1 acc.2.1).getChain m
            let r := hRemoveChain acc.1 acc.2.1 s' chain
            (r.1, r.2, acc.2.2 ++ chain)) (st, mv, ds0)).1 ∧
      (dead.foldl (fun acc m =>
          if (hToPure acc.1 acc.2.1).get m = some 0 then acc
          else
            let chain := (hToPure acc.1 acc.2.1).getChain m
            let r := hRemoveChain acc.1 acc.2.1 s' chain
            (r.1, r.2, acc.2.2 ++ chain)) (st, mv, ds0)).2.1.rowIds = mv.rowIds := by
  intro dead
  induction dead with
  | nil => exact fun st mv ds0 _ => ⟨agreesBelow_refl n st, rfl⟩
  | cons d ds ih =>
    intro st mv ds0 hra
    by_cases hd : (hToPure st mv).get d = some 0
    · have hstep : ∀ (rest : List Vertex),
          (List.foldl (fun acc m =>
            if (hToPure acc.1 acc.2.1).get m = some 0 then acc
            else
              let chain := (hToPure acc.1 acc.2.1).getChain m
              let r := hRemoveChain acc.1 acc.2.1 s' chain
              (r.1, r.2, acc.2.2 ++ chain)) (st, mv, ds0) (d :: rest)) =
          (List.foldl (fun acc m =>
            if (hToPure acc.1 acc.2.1).get m = some 0 then acc
            else
              let chain := (hToPure acc.1 acc.2.1).getChain m
              let r := hRemoveChain acc.1 acc.2.1 s' chain
              (r.1, r.2, acc.2.2 ++ chain)) (st, mv, ds0) rest) := by
        intro rest
        show List.foldl _ (if (hToPure st mv).get d = some 0 then (st, mv, ds0) else _)
          rest = _
        rw [if_pos hd]
      rw [hstep ds]
      exact ih st mv ds0 hra
    · have hrc := hRemoveChain_agrees n s' ((hToPure st mv).getChain d) st mv hra
      have hstep : (List.foldl (fun acc m =>
            if (hToPure acc.1 acc.2.1).get m = some 0 then acc
            else
              let chain := (hToPure acc.1 acc.2.1).getChain m
              let r := hRemoveChain acc.1 acc.2.1 s' chain
              (r.1, r.2, acc.2.2 ++ chain)) (st, mv, ds0) (d :: ds)) =
          (List.foldl (fun acc m =>
            if (hToPure acc.1 acc.2.1).get m = some 0 then acc
            else
              let chain := (hToPure acc.1 acc.2.1).getChain m
              let r := hRemoveChain acc.1 acc.2.1 s' chain
              (r.1, r.2, acc.2.2 ++ chain))
            ((hRemoveChain st mv s' ((hToPure st mv).getChain d)).1,
             (hRemoveChain st mv s' ((hToPure st mv).getChain d)).2,
             ds0 ++ (hToPure st mv).getChain d) ds) := by
        show List.foldl _ (if (hToPure st mv).get d = some 0 then (st, mv, ds0) else _)
          ds = _
        rw [if_neg hd]
      rw [hstep]
      have hra' : RowsAbove n (hRemoveChain st mv s' ((hToPure st mv).getChain d)).2 := by
        intro i hi
        rw [hrc.2] at hi
        exact hra i hi
      obtain ⟨h1, h2⟩ := ih (hRemoveChain st mv s' ((hToPure st mv).getChain d)).1
        (hRemoveChain st mv s' ((hToPure st mv).getChain d)).2
        (ds0 ++ (hToPure st mv).getChain d) hra'
      exact ⟨agreesBelow_trans hrc.1 h1, by rw [h2, hrc.2]⟩

lemma hClone_agrees (st : Store) (hg : HGame) :
    AgreesBelow st.length st (hClone st hg).1 :=
  fun _ hi => hRow_append_lt hi

lemma hClone_rowsAbove (st : Store) (hg : HGame) :
    RowsAbove st.length (hClone st hg).2 := by
  intro i hi
  have hx : i ∈ List.range' st.length hg.rowIds.length := hi
  exact (List.mem_range'_1.mp hx).1

lemma hCaptureFold_agrees2 (n : Nat) (s' : Int) (dead : List Vertex) (st : Store)
    (mv : HGame) (hra : RowsAbove n mv) :
    AgreesBelow n st (hCaptureFold st mv s' dead).1 ∧
    (hCaptureFold st mv s' dead).2.1.rowIds = mv.rowIds :=
  hCaptureFold_agrees n s' dead st mv [] hra

lemma rowsAbove_hSetKo {n : Nat} {hg : HGame} (h : RowsAbove n hg) (k : KoInfo) :
    RowsAbove n (hSetKo hg k) := by
  intro i hi
  rw [hSetKo_rowIds] at hi
  exact h i hi

lemma rowsAbove_hCaptureFold {n : Nat} {st : Store} {mv : HGame} (s' : Int)
    (dead : List Vertex) (h : RowsAbove n mv) :
    RowsAbove n (hCaptureFold st mv s' dead).2.1 := by
  intro i hi
  rw [(hCaptureFold_agrees2 n s' dead st mv h).2] at hi
  exact h i hi

lemma hMakeMove_agrees (st : Store) (g : HGame) (sign : Int) (v : Vertex)
    (opts : MoveOptions) :
    AgreesBelow st.length st (hMakeMove st g sign v opts).1 := by
  have hcl := hClone_agrees st g
  have hra := hClone_rowsAbove st g
  simp only [hMakeMove]
  split
  · exact hcl
  · split
    · exact hcl
    · split
      · exact hcl
      · split
        · split
          · exact agreesBelow_trans
              (agreesBelow_trans hcl (hSet_agrees _ _ _ _ _ hra))
              (hCaptureFold_agrees2 _ _ _ _ _ hra).1
          · exact agreesBelow_trans
              (agreesBelow_trans
                (agreesBelow_trans hcl (hSet_agrees _ _ _ _ _ hra))
                (hCaptureFold_agrees2 _ _ _ _ _ hra).1)
              (hRemoveChain_agrees _ _ _ _ _
                (rowsAbove_hSetKo (rowsAbove_hCaptureFold _ _ hra) _)).1
        · exact agreesBelow_trans
            (agreesBelow_trans hcl (hSet_agrees _ _ _ _ _ hra))
            (hCaptureFold_agrees2 _ _ _ _ _ hra).1

/-- C5: in the heap model of the row store, `makeMove` leaves the
receiver unchanged — the board it observes, its capture tallies and its
ko record read back exactly as before the call, whether the call
succeeded or failed. -/
theorem C5_receiver_unchanged (st : Store) (g : HGame) (sign : Int) (v : Vertex)
    (opts : MoveOptions) (hval : HValid st g) :
    hToPure (hMakeMove st g sign v opts).1 g = hToPure st g := by
  have hag := hMakeMove_agrees st g sign v opts
  unfold hToPure
  have hb : hBoard (hMakeMove st g sign v opts).1 g = hBoard st g := by
    unfold hBoard
    apply List.map_congr_left
    intro i hi
    exact hag i (hval i hi)
  rw [hb]

/-- Witness for C5: a capturing move on a concrete 2×2 heap leaves the
receiver's observed state intact. -/
theorem C5_witness :
    hToPure (hMakeMove [[0, -1], [0, 0]] ⟨[0, 1], 2, 2, (0, 0), ⟨0, (-1, -1)⟩⟩
        1 (1, 1) MoveOptions.none').1 ⟨[0, 1], 2, 2, (0, 0), ⟨0, (-1, -1)⟩⟩ =
      hToPure [[0, -1], [0, 0]] ⟨[0, 1], 2, 2, (0, 0), ⟨0, (-1, -1)⟩⟩ :=
  C5_receiver_unchanged [[0, -1], [0, 0]] ⟨[0, 1], 2, 2, (0, 0), ⟨0, (-1, -1)⟩⟩
    1 (1, 1) MoveOptions.none' (by unfold HValid; decide)

/-! ### Parser non-termination on "(;a" (C6) -/

/-- At position 2 of `"(;a"` the property loop of `parseNode` never
advances: `parseProperty` sees no `[A-Z]` key, returns `null` without
consuming anything, and the loop retries the same position forever. -/
lemma nodeLoopF_stuck : ∀ (f : Nat) (node : SGFNode),
    nodeLoopF ['(', ';', 'a'] f 2 node = none := by
  intro f
  induction f with
  | zero => intro node; rfl
  | succ f ih =>
    intro node
    show (match parsePropertyF f ['(', ';', 'a'] 2 with
      | none => (none : PRes (SGFNode × Nat))
      | some (.error e) => some (.error e)
      | some (.ok (prop, pos')) =>
        nodeLoopF ['(', ';', 'a'] f (skipWs ['(', ';', 'a'] pos')
          (match prop with
           | some kv => objSet node kv.1 kv.2
           | none => node)) = none
    rw [show parsePropertyF f ['(', ';', 'a'] 2 =
      some (.ok (none, 2)) from rfl]
    exact ih node

lemma gtLoopF_stuck : ∀ f : Nat, gtLoopF ['(', ';', 'a'] f 1 [] = none := by
  intro f
  cases f with
  | zero => rfl
  | succ f =>
    show (match parseNodeF f ['(', ';', 'a'] 1 with
      | none => (none : PRes (List SGFNode × Nat))
      | some (.error e) => some (.error e)
      | some (.ok (node, pos')) =>
        gtLoopF ['(', ';', 'a'] f pos' ([] ++ [node])) = none
    rw [show parseNodeF f ['(', ';', 'a'] 1 = none from nodeLoopF_stuck f []]

/-- C6: the spec says `parse` terminates on every input, but on the input
`"(;a"` the fueled embedding of the parser runs out of any amount of fuel
without producing a result or an error — the source's `parseNode`
property loop re-reads position 2 forever because `parseProperty` returns
`null` without advancing.  This refutes the claim: the theorem shows
divergence, i.e. a code bug. -/
theorem C6_parser_divergence (fuel : Nat) : parseSGF fuel "(;a" = none := by
  show (match parseGameTreeF fuel (csTrim "(;a".data) 0 with
    | none => (none : PRes SGFGame)
    | some (.error e) => some (.error e)
    | some (.ok r) => some (.ok (extractGame r.1))) = none
  rw [show parseGameTreeF fuel (csTrim "(;a".data) 0 =
    (none : PRes (List SGFNode × Nat)) from ?_]
  case _ =>
    show (match gtLoopF ['(', ';', 'a'] fuel 1 [] with
      | none => (none : PRes (List SGFNode × Nat))
      | some (.error e) => some (.error e)
      | some (.ok (nodes, pos')) =>
        some (.ok (nodes,
          if (['(', ';', 'a'] : List Char).get? pos' = some ')' then pos' + 1
          else pos'))) = none
    rw [gtLoopF_stuck fuel]

/-! ### The game-record projection (C7) -/

lemma range1_concat (n : Nat) : List.range' 1 (n + 1) = List.range' 1 n ++ [n + 1] := by
  have h := @List.range'_concat 1 1 n
  simpa [Nat.add_comm] using h

/-- Appending one move numbered `length + 1` keeps the move numbers equal
to `1, 2, …, length`. -/
lemma moveNumbers_snoc {ms : List SGFMove} {m : SGFMove}
    (h1 : ms.map SGFMove.moveNumber = List.range' 1 ms.length)
    (hm : m.moveNumber = ms.length + 1) :
    (ms ++ [m]).map SGFMove.moveNumber = List.range' 1 (ms ++ [m]).length := by
  rw [List.map_append, h1, List.length_append, List.map_singleton, hm]
  simpa using (range1_concat ms.length).symm

/-- One `extractNode` step preserves the numbering invariant: the move
numbers so far are `1..length` and the counter equals the length. -/
lemma extractNode_inv (node : SGFNode) (st : SGFGameInfo × List SGFMove × Nat)
    (h1 : st.2.1.map SGFMove.moveNumber = List.range' 1 st.2.1.length)
    (h2 : st.2.2 = st.2.1.length) :
    (extractNode st node).2.1.map SGFMove.moveNumber =
      List.range' 1 (extractNode st node).2.1.length ∧
    (extractNode st node).2.2 = (extractNode st node).2.1.length := by
  cases hB : objGet node "B" with
  | none =>
    cases hW : objGet node "W" with
    | none =>
      have hsnd : (extractNode st node).2 = (st.2.1, st.2.2) := by
        simp only [extractNode, hB, hW]
      rw [hsnd]
      exact ⟨h1, h2⟩
    | some vsW =>
      have hsnd : (extractNode st node).2 =
          (st.2.1 ++ [⟨.W, vsW.head?, st.2.2 + 1⟩], st.2.2 + 1) := by
        simp only [extractNode, hB, hW]
      rw [hsnd]
      refine ⟨moveNumbers_snoc h1 (by simpa using h2), ?_⟩
      simp [h2]
  | some vsB =>
    cases hW : objGet node "W" with
    | none =>
      have hsnd : (extractNode st node).2 =
          (st.2.1 ++ [⟨.B, vsB.head?, st.2.2 + 1⟩], st.2.2 + 1) := by
        simp only [extractNode, hB, hW]
      rw [hsnd]
      refine ⟨moveNumbers_snoc h1 (by simpa using h2), ?_⟩
      simp [h2]
    | some vsW =>
      have hsnd : (extractNode st node).2 =
          (st.2.1 ++ [⟨.B, vsB.head?, st.2.2 + 1⟩] ++
            [⟨.W, vsW.head?, st.2.2 + 1 + 1⟩], st.2.2 + 1 + 1) := by
        simp only [extractNode, hB, hW]
      rw [hsnd]
      have hmid : (st.2.1 ++ [(⟨.B, vsB.head?, st.2.2 + 1⟩ : SGFMove)]).map
          SGFMove.moveNumber =
          List.range' 1 (st.2.1 ++ [(⟨.B, vsB.head?, st.2.2 + 1⟩ : SGFMove)]).length :=
        moveNumbers_snoc h1 (by simpa using h2)
      refine ⟨moveNumbers_snoc hmid (by simp [h2]), ?_⟩
      simp [h2]

lemma extractFold_inv : ∀ (nodes : List SGFNode) (st : SGFGameInfo × List SGFMove × Nat),
    st.2.1.map SGFMove.moveNumber = List.range' 1 st.2.1.length →
    st.2.2 = st.2.1.length →
    (nodes.foldl extractNode st).2.1.map SGFMove.moveNumber =
      List.range' 1 (nodes.foldl extractNode st).2.1.length := by
  intro nodes
  induction nodes with
  | nil => exact fun st h1 _ => h1
  | cons n ns ih =>
    intro st h1 h2
    obtain ⟨h1', h2'⟩ := extractNode_inv n st h1 h2
    exact ih (extractNode st n) h1' h2'

/-- A node without an `SZ` property leaves `boardSize` unchanged. -/
lemma extractNode_boardSize (st : SGFGameInfo × List SGFMove × Nat) (node : SGFNode)
    (h : objGet node "SZ" = none) :
    (extractNode st node).1.boardSize = st.1.boardSize := by
  unfold extractNode
  rw [h]
  cases objGet node "PB" <;> cases objGet node "PW" <;> cases objGet node "RE" <;>
    cases objGet node "DT" <;> cases objGet node "EV" <;> cases objGet node "RO" <;>
    cases objGet node "KM" <;> cases objGet node "HA" <;>
    cases objGet node "B" <;> cases objGet node "W" <;> rfl

lemma extractFold_boardSize : ∀ (nodes : List SGFNode)
    (st : SGFGameInfo × List SGFMove × Nat),
    (∀ node ∈ nodes, objGet node "SZ" = none) →
    (nodes.foldl extractNode st).1.boardSize = st.1.boardSize := by
  intro nodes
  induction nodes with
  | nil => exact fun st _ => rfl
  | cons n ns ih =>
    intro st hall
    rw [List.foldl_cons, ih (extractNode st n) (fun m hm => hall m (List.mem_cons_of_mem n hm)),
      extractNode_boardSize st n (hall n (List.mem_cons_self n ns))]

/-- C7: the concrete record parses to board size 9, the named players and
exactly the two moves numbered 1 and 2; for every node list the
projection numbers the moves 1, 2, …, in order; a record that never sets
`SZ` keeps the default board size 19; and `sgfToVertex "ee" 9 = (4, 4)`. -/
theorem C7_record_projection :
    parseSGF 256 "(;GM[1]SZ[9]PB[Alice]PW[Bob];B[ee];W[ge])" =
      some (.ok ⟨⟨some "Alice", some "Bob", none, none, none, none, none, none, some 9⟩,
        [⟨.B, some "ee", 1⟩, ⟨.W, some "ge", 2⟩]⟩) ∧
    (∀ nodes : List SGFNode,
      (extractGame nodes).moves.map SGFMove.moveNumber =
        List.range' 1 (extractGame nodes).moves.length) ∧
    (∀ nodes : List SGFNode, (∀ node ∈ nodes, objGet node "SZ" = none) →
      (extractGame nodes).gameInfo.boardSize = some 19) ∧
    sgfToVertex "ee" 9 = .ok (4, 4) := by
  refine ⟨by decide, ?_, ?_, by decide⟩
  · intro nodes
    exact extractFold_inv nodes
      (⟨none, none, none, none, none, none, none, none, some 19⟩, [], 0) rfl rfl
  · intro nodes hall
    exact extractFold_boardSize nodes
      (⟨none, none, none, none, none, none, none, none, some 19⟩, [], 0) hall

/-- Witness for C7: a one-node record with only a player name keeps the
default board size 19. -/
theorem C7_witness :
    (extractGame [[("PB", ["Alice"])]]).gameInfo.boardSize = some 19 :=
  C7_record_projection.2.2.1 [[("PB", ["Alice"])]] (by decide)

/-- C8: `sgfToVertex` sends the empty token and `"tt"` to the off-board
sentinel `(-1, -1)`; any other two-character token decodes to the pair of
zero-based letter offsets when both lie in `[0, n)`, and fails with the
out-of-bounds error exactly when a decoded component falls outside
`[0, n)` — it never clamps. -/
theorem C8_sgfToVertex (n : Int) (t : String) :
    ((t = "" ∨ t = "tt") → sgfToVertex t n = .ok (-1, -1)) ∧
    (¬ (t = "" ∨ t = "tt") → t.data.length = 2 →
      ((0 ≤ letterOffset (t.data.getD 0 'a') ∧ letterOffset (t.data.getD 0 'a') < n ∧
        0 ≤ letterOffset (t.data.getD 1 'a') ∧ letterOffset (t.data.getD 1 'a') < n) →
        sgfToVertex t n = .ok (letterOffset (t.data.getD 0 'a'),
          letterOffset (t.data.getD 1 'a'))) ∧
      ((letterOffset (t.data.getD 0 'a') < 0 ∨ letterOffset (t.data.getD 0 'a') ≥ n ∨
        letterOffset (t.data.getD 1 'a') < 0 ∨ letterOffset (t.data.getD 1 'a') ≥ n) →
        sgfToVertex t n = .error .outOfBounds)) := by
  constructor
  · intro h
    simp only [sgfToVertex]
    rw [if_pos h]
  · intro hne hlen
    constructor
    · rintro ⟨hx0, hxn, hy0, hyn⟩
      simp only [sgfToVertex]
      rw [if_neg hne, if_neg (not_not_intro hlen), if_neg (by push_neg; omega)]
    · intro hout
      simp only [sgfToVertex]
      rw [if_neg hne, if_neg (not_not_intro hlen), if_pos hout]

/-- Witness for C8: the token `"ab"` on a size-9 board decodes to its
letter offsets `(0, 1)`. -/
theorem C8_witness : sgfToVertex "ab" 9 = .ok (0, 1) :=
  ((C8_sgfToVertex 9 "ab").2 (by decide) rfl).1 (by decide)

/-! ### The coordinate codec round-trip (C9) -/

lemma digit_char_isDigit : ∀ r : Nat, r < 10 → isDigitCh (Char.ofNat (48 + r)) = true := by
  decide

lemma digit_char_toNat : ∀ r : Nat, r < 10 → (Char.ofNat (48 + r)).toNat = 48 + r := by
  decide

lemma natDecAux_suffix : ∀ (fuel n : Nat) (acc : List Char),
    ∃ pre, natDecAux fuel n acc = pre ++ acc := by
  intro fuel
  induction fuel with
  | zero => exact fun n acc => ⟨[], rfl⟩
  | succ fuel ih =>
    intro n acc
    unfold natDecAux
    by_cases h : n < 10
    · rw [if_pos h]
      exact ⟨[Char.ofNat (48 + n % 10)], rfl⟩
    · rw [if_neg h]
      obtain ⟨pre, hp⟩ := ih (n / 10) (Char.ofNat (48 + n % 10) :: acc)
      exact ⟨pre ++ [Char.ofNat (48 + n % 10)], by rw [hp]; simp⟩

lemma natToDec_ne_nil (n : Nat) : natToDec n ≠ [] := by
  show natDecAux (n + 1) n [] ≠ []
  unfold natDecAux
  by_cases h : n < 10
  · rw [if_pos h]
    simp
  · rw [if_neg h]
    obtain ⟨pre, hp⟩ := natDecAux_suffix n (n / 10) [Char.ofNat (48 + n % 10)]
    rw [hp]
    simp

lemma natDecAux_digits : ∀ (fuel n : Nat) (acc : List Char),
    acc.all isDigitCh = true → (natDecAux fuel n acc).all isDigitCh = true := by
  intro fuel
  induction fuel with
  | zero => exact fun n acc h => h
  | succ fuel ih =>
    intro n acc hacc
    have hd : isDigitCh (Char.ofNat (48 + n % 10)) = true :=
      digit_char_isDigit (n % 10) (Nat.mod_lt n (by omega))
    unfold natDecAux
    by_cases h : n < 10
    · rw [if_pos h]
      simp [hd, hacc]
    · rw [if_neg h]
      exact ih (n / 10) _ (by simp [hd, hacc])

lemma natDecAux_foldl : ∀ (fuel n : Nat), n < 10 ^ fuel → ∀ (acc : List Char),
    (natDecAux fuel n acc).foldl (fun a c => 10 * a + (c.toNat - 48)) 0 =
    acc.foldl (fun a c => 10 * a + (c.toNat - 48)) n := by
  intro fuel
  induction fuel with
  | zero =>
    intro n hn acc
    have h0 : n = 0 := by simpa using hn
    subst h0
    rfl
  | succ fuel ih =>
    intro n hn acc
    unfold natDecAux
    by_cases h : n < 10
    · rw [if_pos h, List.foldl_cons]
      congr 1
      rw [digit_char_toNat (n % 10) (Nat.mod_lt n (by omega))]
      omega
    · rw [if_neg h]
      rw [ih (n / 10) (by
        rw [Nat.div_lt_iff_lt_mul (by omega : 0 < 10)]
        rw [pow_succ] at hn
        exact hn) (Char.ofNat (48 + n % 10) :: acc)]
      rw [List.foldl_cons]
      congr 1
      rw [digit_char_toNat (n % 10) (Nat.mod_lt n (by omega))]
      omega

lemma digitsToNat_natToDec (n : Nat) : digitsToNat (natToDec n) = n := by
  have hlt : n < 10 ^ (n + 1) :=
    lt_of_lt_of_le (Nat.lt_pow_self (by omega) n)
      (Nat.pow_le_pow_right (by omega) (by omega))
  have h := natDecAux_foldl (n + 1) n hlt []
  simpa [digitsToNat, natToDec] using h

lemma isWs_of_digit {c : Char} (h : isDigitCh c = true) : isWs c = false := by
  have hle : ('0' : Char) ≤ c := (of_decide_eq_true h).1
  by_cases h1 : c = ' '
  · subst h1; exact absurd hle (by decide)
  by_cases h2 : c = '\t'
  · subst h2; exact absurd hle (by decide)
  by_cases h3 : c = '\n'
  · subst h3; exact absurd hle (by decide)
  by_cases h4 : c = '\r'
  · subst h4; exact absurd hle (by decide)
  by_cases h5 : c = '\x0b'
  · subst h5; exact absurd hle (by decide)
  by_cases h6 : c = '\x0c'
  · subst h6; exact absurd hle (by decide)
  simp [isWs, h1, h2, h3, h4, h5, h6]

lemma dropWhile_ws_eq_self {l : List Char} (h : ∀ c ∈ l, isWs c = false) :
    l.dropWhile isWs = l := by
  cases l with
  | nil => rfl
  | cons c t =>
    rw [List.dropWhile_cons, if_neg]
    simp [h c (List.mem_cons_self c t)]

lemma csTrim_eq_self {l : List Char} (h : ∀ c ∈ l, isWs c = false) : csTrim l = l := by
  unfold csTrim
  rw [dropWhile_ws_eq_self h,
    dropWhile_ws_eq_self (fun c hc => h c (List.mem_reverse.mp hc)),
    List.reverse_reverse]

lemma jsStringToNum_digits {l : List Char} (hne : l ≠ [])
    (hdig : l.all isDigitCh = true) :
    jsStringToNum l = some (digitsToNat l : Int) := by
  have hnw : ∀ c ∈ l, isWs c = false := fun c hc =>
    isWs_of_digit (List.all_eq_true.mp hdig c hc)
  have htrim : csTrim l = l := csTrim_eq_self hnw
  cases l with
  | nil => exact absurd rfl hne
  | cons c cs =>
    have hc : isDigitCh c = true :=
      List.all_eq_true.mp hdig c (List.mem_cons_self c cs)
    have h1 : c ≠ '-' := by rintro rfl; exact absurd hc (by decide)
    have h2 : c ≠ '+' := by rintro rfl; exact absurd hc (by decide)
    simp only [jsStringToNum, htrim]
    rw [if_neg (by simp)]
    split
    · split
      · rename_i heq
        injection heq with ha hb
        exact absurd ha h1
      · rename_i heq
        injection heq with ha hb
        exact absurd ha h2
      · simp
    · rename_i hno
      exfalso
      apply hno
      split
      · rename_i heq
        injection heq with ha hb
        exact absurd ha h1
      · rename_i heq
        injection heq with ha hb
        exact absurd ha h2
      · exact ⟨by simp, hdig⟩

/-- The alphabet scan of `parseVertex` recovers the index of every
alphabet letter. -/
lemma alphaList_findIdx : ∀ i : Fin 25,
    alphaList.findIdx? (fun ch => ch == (alphaList.get i).toUpper) = some (i : Nat) := by
  decide

/-- On a board no wider than the 25-letter alphabet the notation of an
on-board coordinate is a genuine string, and decoding it gives the
coordinate back. -/
lemma parseVertex_stringifyVertex {g : GoGame} (hw : g.width ≤ 25) {v : Vertex}
    (hv : g.has v) : ∃ s, g.stringifyVertex v = some s ∧ g.parseVertex s = v := by
  obtain ⟨hx0, hxw, hy0, hyh⟩ := hv
  have hxlt : v.1.toNat < 25 := by omega
  have hxlt' : v.1.toNat < alphaList.length := by
    rw [show alphaList.length = 25 from rfl]
    exact hxlt
  have hlet : liGet alphaList v.1 = some (alphaList.get ⟨v.1.toNat, hxlt'⟩) := by
    unfold liGet
    rw [if_pos hx0]
    exact List.getElem?_eq_getElem hxlt'
  have hstr : g.stringifyVertex v = some (String.mk (alphaList.get ⟨v.1.toNat, hxlt'⟩ ::
      natToDec ((g.height : Int) - v.2).toNat)) := by
    simp only [GoGame.stringifyVertex]
    rw [if_neg (not_not_intro ⟨hx0, hxw, hy0, hyh⟩), hlet]
    show some (String.mk (alphaList.get ⟨v.1.toNat, hxlt'⟩ ::
      intToDec ((g.height : Int) - v.2))) = _
    unfold intToDec
    rw [if_neg (by omega)]
  refine ⟨String.mk (alphaList.get ⟨v.1.toNat, hxlt'⟩ ::
    natToDec ((g.height : Int) - v.2).toNat), hstr, ?_⟩
  simp only [GoGame.parseVertex]
  obtain ⟨d, rest', hrest⟩ := List.exists_cons_of_ne_nil
    (natToDec_ne_nil ((g.height : Int) - v.2).toNat)
  rw [if_neg (by simp [hrest])]
  have hfindIdx := alphaList_findIdx ⟨v.1.toNat, hxlt⟩
  rw [show ((⟨v.1.toNat, hxlt⟩ : Fin 25) : Nat) = v.1.toNat from rfl] at hfindIdx
  rw [hfindIdx]
  have hjs : jsStringToNum (natToDec ((g.height : Int) - v.2).toNat) =
      some ((((g.height : Int) - v.2).toNat : Nat) : Int) := by
    rw [jsStringToNum_digits (natToDec_ne_nil _)
      (natDecAux_digits _ _ [] rfl), digitsToNat_natToDec]
  rw [hjs]
  have hx' : ((v.1.toNat : Nat) : Int) = v.1 := Int.toNat_of_nonneg hx0
  have hy' : (g.height : Int) - ((((g.height : Int) - v.2).toNat : Nat) : Int) = v.2 := by
    rw [Int.toNat_of_nonneg (by omega)]
    omega
  show (if g.has (((v.1.toNat : Nat) : Int),
      (g.height : Int) - ((((g.height : Int) - v.2).toNat : Nat) : Int)) then
      (((v.1.toNat : Nat) : Int),
        (g.height : Int) - ((((g.height : Int) - v.2).toNat : Nat) : Int))
    else (-1, -1)) = v
  rw [hx', hy']
  rw [if_pos ⟨hx0, hxw, hy0, hyh⟩]

/-- `parseVertex` is total: every string decodes to an on-board
coordinate or to the single off-board sentinel, never to an exception. -/
lemma parseVertex_sentinel (g : GoGame) (coord : String) :
    g.parseVertex coord = (-1, -1) ∨ g.has (g.parseVertex coord) := by
  simp only [GoGame.parseVertex]
  split
  · exact Or.inl rfl
  · split
    · exact Or.inl rfl
    · split
      · exact Or.inl rfl
      · split
        · next hhas => exact Or.inr hhas
        · exact Or.inl rfl

/-- When the notation is a string, the composed round trip is the
notation of whatever `parseVertex` decoded. -/
lemma notationRoundTrip_eq {g : GoGame} (hw : g.width ≤ 25) {v : Vertex}
    (hv : g.has v) : GoGame.notationRoundTrip g v = some (g.stringifyVertex v) := by
  obtain ⟨s, hs, hp⟩ := parseVertex_stringifyVertex hw hv
  unfold GoGame.notationRoundTrip
  rw [hs]
  show some (g.stringifyVertex (g.parseVertex s)) = some (some s)
  rw [hp, hs]

/-- C9 counterexample: on a 26-wide board the in-bounds coordinate
`(25, 0)` stringifies through `alpha[25] === undefined`; the `+` then
performs numeric addition, so the notation is the number `NaN` (`none`),
and feeding it back to `parseVertex` throws a `TypeError` when
`coord[0].toUpperCase()` is evaluated on `undefined` — the round trip
neither holds nor even evaluates, so the claim as stated (for every
board) is false. -/
theorem C9_counterexample :
    (GoGame.fromDimensions 26 26).has (25, 0) ∧
    GoGame.stringifyVertex (GoGame.fromDimensions 26 26) (25, 0) = none ∧
    GoGame.notationRoundTrip (GoGame.fromDimensions 26 26) (25, 0) ≠
      some (GoGame.stringifyVertex (GoGame.fromDimensions 26 26) (25, 0)) := by
  decide

/-- C9 (amended): on boards no wider than the 25-letter alphabet the
notation of an in-bounds coordinate is a genuine string and the codec
round-trip `notation(decode(notation(c))) = notation(c)` holds without
throwing; and decoding any string yields an on-board coordinate or the
off-board sentinel — never an exception. -/
theorem C9_roundtrip (g : GoGame) (hw : g.width ≤ 25) (v : Vertex) (hv : g.has v) :
    GoGame.notationRoundTrip g v = some (g.stringifyVertex v) ∧
    (∃ s, g.stringifyVertex v = some s) ∧
    (∀ coord : String, g.parseVertex coord = (-1, -1) ∨ g.has (g.parseVertex coord)) := by
  obtain ⟨s, hs, -⟩ := parseVertex_stringifyVertex hw hv
  exact ⟨notationRoundTrip_eq hw hv, ⟨s, hs⟩, parseVertex_sentinel g⟩

/-- Witness for C9: the round-trip at `(4, 4)` on a 9×9 board. -/
theorem C9_witness :
    GoGame.notationRoundTrip (GoGame.fromDimensions 9 9) (4, 4) =
      some (GoGame.stringifyVertex (GoGame.fromDimensions 9 9) (4, 4)) :=
  (C9_roundtrip (GoGame.fromDimensions 9 9) (by decide) (4, 4) (by decide)).1
